import Mathlib

/-! xolotl: the integral controller (`IntegralController.hpp`) and the channels
`ACurrent`, `Kd`, `KCaAB` and `Kslow`

A shallow embedding of the homeostatic integral controller of xolotl, of the objects
it reads and writes and of four channel variants, followed by theorems about them.
The controller is embedded over the numbers described next; the channels, whose
kinetics use `exp`, are embedded over the real numbers (see the section on them).

Numbers.  Every C++ `double` is a `Dbl`: an exact rational, `+∞`, `-∞` or not-a-number, with
the IEEE-754 rules for the special values.  The operations of `Dbl` are exact on finite
values, and a zero divisor counts as `+0`; overflow to infinity and the sign of zero
are not modelled.  Rounding is a separate function, `round53`, the nearest double to a
number: the methods whose results depend on it come in a second version that takes the
rounding as an argument (`integrateWith`, `m_infWith`, ...), exact arithmetic with the
identity and double arithmetic with `round53`.

Memory.  Objects live in a `World`: three address spaces (compartments, conductances,
synapses), each a total map from addresses to objects.  A C++ pointer is an address;
the two pointers of the controller that the code tests against null
(`channel`, `syn`) are `Option Nat`.  Dereferencing a null pointer is the fault
`Fault.nullDeref`; a call of `mexErrMsgTxt` is the fault `Fault.mexErr`, which
abandons the running call.
-/

namespace Xolotl

/-! ## The number model -/

/-- A C++ double without rounding: a rational, an infinity or not-a-number. -/
inductive Dbl where
  | nan : Dbl
  | ninf : Dbl
  | fin (q : ℚ) : Dbl
  | pinf : Dbl
deriving DecidableEq

namespace Dbl

/-- The test `isnan(x)`. -/
def isnan : Dbl → Bool
  | nan => true
  | _ => false

/-- Unary minus. -/
def neg : Dbl → Dbl
  | nan => nan
  | ninf => pinf
  | fin q => fin (-q)
  | pinf => ninf

/-- Addition: opposite infinities give not-a-number. -/
def add : Dbl → Dbl → Dbl
  | nan, _ => nan
  | _, nan => nan
  | pinf, ninf => nan
  | ninf, pinf => nan
  | pinf, _ => pinf
  | _, pinf => pinf
  | ninf, _ => ninf
  | _, ninf => ninf
  | fin a, fin b => fin (a + b)

/-- Subtraction, as addition of the negation. -/
def sub (a b : Dbl) : Dbl := add a (neg b)

/-- The infinity with the sign of `s * t`, for non-zero `s` and an infinite `t`
given by `tpos`. -/
def signedInf (spos tpos : Bool) : Dbl :=
  if spos = tpos then pinf else ninf

/-- Multiplication: zero times an infinity is not-a-number. -/
def mul : Dbl → Dbl → Dbl
  | nan, _ => nan
  | _, nan => nan
  | fin a, fin b => fin (a * b)
  | fin a, pinf => if a = 0 then nan else signedInf (decide (0 < a)) true
  | fin a, ninf => if a = 0 then nan else signedInf (decide (0 < a)) false
  | pinf, fin b => if b = 0 then nan else signedInf true (decide (0 < b))
  | ninf, fin b => if b = 0 then nan else signedInf false (decide (0 < b))
  | pinf, pinf => pinf
  | pinf, ninf => ninf
  | ninf, pinf => ninf
  | ninf, ninf => pinf

/-- Division: a finite value over an infinity is zero, an infinity over an infinity
and zero over zero are not-a-number, a non-zero value over zero is an infinity. -/
def div : Dbl → Dbl → Dbl
  | nan, _ => nan
  | _, nan => nan
  | fin a, fin b =>
      if b = 0 then (if a = 0 then nan else signedInf (decide (0 < a)) true)
      else fin (a / b)
  | fin _, pinf => fin 0
  | fin _, ninf => fin 0
  | pinf, fin b => signedInf true (decide (0 ≤ b))
  | ninf, fin b => signedInf false (decide (0 ≤ b))
  | pinf, pinf => nan
  | pinf, ninf => nan
  | ninf, pinf => nan
  | ninf, ninf => nan

/-- The comparison `a < b`; false when either side is not-a-number. -/
def lt : Dbl → Dbl → Bool
  | nan, _ => false
  | _, nan => false
  | ninf, ninf => false
  | ninf, _ => true
  | _, ninf => false
  | pinf, _ => false
  | fin _, pinf => true
  | fin a, fin b => decide (a < b)

/-- The comparison `a <= b`; false when either side is not-a-number. -/
def le : Dbl → Dbl → Bool
  | nan, _ => false
  | _, nan => false
  | ninf, _ => true
  | _, pinf => true
  | pinf, _ => false
  | _, ninf => false
  | fin a, fin b => decide (a ≤ b)

instance : Add Dbl := ⟨add⟩
instance : Sub Dbl := ⟨sub⟩
instance : Mul Dbl := ⟨mul⟩
instance : Div Dbl := ⟨div⟩
instance : Neg Dbl := ⟨neg⟩

end Dbl

/-! ## The objects the controller reads and writes -/

/-- What a compartment can observe of a registered mechanism: the string returned by
its `getClass()` and the value returned by its `getState(0)`. -/
structure MechView where
  getClass : String
  getState0 : Dbl
deriving DecidableEq

/-- Modelled from the spec: the compartment (compartment.hpp is not among the
sources).  It exposes the membrane area `A`, the previous-step calcium `Ca_prev`, the
legacy target field `Ca_target` and the ordered list of its mechanisms, of which
`n_mech` is the length and `getMechanismPointer i` the entry at position `i`. -/
structure compartment where
  A : Dbl
  Ca_prev : Dbl
  Ca_target : Dbl
  mech : List MechView

/-- Modelled from the spec: `compartment::addMechanism` registers the mechanism at
the end of the compartment's mechanism list. -/
def compartment.addMechanism (k : compartment) (v : MechView) : compartment :=
  { k with mech := k.mech ++ [v] }

/-- Modelled from the spec: the conductance base class (conductance.hpp is not among
the sources), as far as the controller uses it: the maximal conductance `gbar`, the
pointer `container` to the owning compartment, and the class name. -/
structure conductance where
  gbar : Dbl
  container : Nat
  getClass : String

/-- Modelled from the spec: the synapse (synapse.hpp is not among the sources), as
far as the controller uses it: the strength `gmax` and the pointer `post_syn` to the
post-synaptic compartment. -/
structure synapse where
  gmax : Dbl
  post_syn : Nat

/-- The memory the controller works in: one address space per kind of object. -/
structure World where
  comp : Nat → compartment
  cond : Nat → conductance
  synp : Nat → synapse

/-- The store `(comp k)->addMechanism(v)`. -/
def World.addMechanism (w : World) (k : Nat) (v : MechView) : World :=
  { w with comp := Function.update w.comp k ((w.comp k).addMechanism v) }

/-- The store `(cond ch)->gbar = g`. -/
def World.setGbar (w : World) (ch : Nat) (g : Dbl) : World :=
  { w with cond := Function.update w.cond ch { w.cond ch with gbar := g } }

/-- The store `(synp s)->gmax = g`. -/
def World.setGmax (w : World) (s : Nat) (g : Dbl) : World :=
  { w with synp := Function.update w.synp s { w.synp s with gmax := g } }

/-- How a call can be cut short: `mexErrMsgTxt` with its message, or the dereference
of a null pointer. -/
inductive Fault where
  | mexErr (msg : String) : Fault
  | nullDeref : Fault
deriving DecidableEq

/-! ## The controller -/

/-- The fields of `IntegralController`, with those it inherits from `mechanism`
(mechanism.hpp is not among the sources): the pointers `channel` and `syn`, null
until a `connect`, as the tests in `getFullState` presuppose, the name
`controlling_class` and the step `dt`. -/
structure IntegralController where
  control_type : Int
  Target : Dbl
  tau_m : Dbl
  tau_g : Dbl
  m : Dbl
  container_A : Dbl
  channel : Option Nat
  syn : Option Nat
  controlling_class : String
  dt : Dbl

namespace IntegralController

/-- The constructor `IntegralController(tau_m_, tau_g_, m_)`, under the name the
specification gives it (inside this namespace the class name denotes the structure).
The fields it does not assign keep their initialisers (`control_type = 0`,
`Target = 0`, null pointers); `container_A` and `dt` have no initialiser and start
with the indeterminate contents `A0` and `dt0`.  The test on `tau_g` comes after the
three assignments and abandons the construction. -/
def construct (A0 dt0 : Dbl) (tau_m_ tau_g_ m_ : Dbl) :
    Except Fault IntegralController :=
  let self : IntegralController :=
    { control_type := 0, Target := Dbl.fin 0, tau_m := tau_m_, tau_g := tau_g_, m := m_,
      container_A := A0, channel := none, syn := none, controlling_class := "",
      dt := dt0 }
  if Dbl.le self.tau_g (Dbl.fin 0) then
    Except.error (Fault.mexErr
      "[IntegralController] tau_g must be > 0. Perhaps you meant to set it to Inf?\n")
  else Except.ok self

/-- The method `getClass`. -/
def getClass (_self : IntegralController) : String := "IntegralController"

/-- The method `getState(idx)`; index 2 reads through the `channel` pointer. -/
def getState (self : IntegralController) (w : World) (idx : Int) : Except Fault Dbl :=
  if idx = 1 then Except.ok self.m
  else if idx = 2 then
    match self.channel with
    | none => Except.error Fault.nullDeref
    | some ch => Except.ok (w.cond ch).gbar
  else Except.ok Dbl.nan

/-- How the controller appears in a compartment's mechanism list. -/
def view (self : IntegralController) : MechView :=
  { getClass := self.getClass, getState0 := Dbl.nan }

/-- The method `getFullStateSize`. -/
def getFullStateSize (_self : IntegralController) : Int := 2

/-- The method `getFullState(cont_state, idx)`: the buffer is the memory around the
pointer `cont_state`, addressed by offset; the result is the buffer after the stores
and the returned index. -/
def getFullState (self : IntegralController) (w : World) (cont_state : Int → Dbl)
    (idx : Int) : (Int → Dbl) × Int :=
  let cont_state1 := Function.update cont_state idx self.m
  let idx1 := idx + 1
  let cont_state2 :=
    match self.channel with
    | some ch => Function.update cont_state1 idx1 (w.cond ch).gbar
    | none =>
      match self.syn with
      | some s => Function.update cont_state1 idx1 (w.synp s).gmax
      | none => cont_state1
  (cont_state2, idx1 + 1)

/-- The overload `connect(conductance*)`. -/
def connect_conductance (self : IntegralController) (w : World) (channel_ : Nat) :
    IntegralController × World :=
  let self1 := { self with channel := some channel_ }
  let w1 := w.addMechanism (w.cond channel_).container self1.view
  let self2 := { self1 with controlling_class := (w1.cond channel_).getClass }
  let self3 := { self2 with container_A := (w1.comp (w1.cond channel_).container).A }
  ({ self3 with control_type := 1 }, w1)

/-- The overload `connect(synapse*)`. -/
def connect_synapse (self : IntegralController) (w : World) (syn_ : Nat) :
    IntegralController × World :=
  let self1 := { self with syn := some syn_ }
  let w1 := w.addMechanism (w.synp syn_).post_syn self1.view
  let self2 := { self1 with container_A := (w1.comp (w1.synp syn_).post_syn).A }
  ({ self2 with control_type := 2 }, w1)

/-- The overload `connect(compartment*)`. -/
def connect_compartment (_self : IntegralController) (_w : World) (_comp : Nat) :
    Except Fault (IntegralController × World) :=
  Except.error (Fault.mexErr
    "[IntegralController] This mechanism cannot connect to a compartment object")

end IntegralController

/-- The argument of a `connect` call; its kind selects the overload. -/
inductive ConnectArg where
  | conductance (p : Nat) : ConnectArg
  | synapse (p : Nat) : ConnectArg
  | compartment (p : Nat) : ConnectArg

namespace IntegralController

/-- The call `connect(target)`, resolved to the overload for the argument's kind. -/
def connect (self : IntegralController) (w : World) :
    ConnectArg → Except Fault (IntegralController × World)
  | ConnectArg.conductance p => Except.ok (self.connect_conductance w p)
  | ConnectArg.synapse p => Except.ok (self.connect_synapse w p)
  | ConnectArg.compartment p => self.connect_compartment w p

/-- The loop of `init` over the mechanism list: the pair is (`Target`,
`targetMissing`), and every mechanism of class "CalciumTarget" overwrites it. -/
def scanTargets (mechs : List MechView) (start : Dbl × Bool) : Dbl × Bool :=
  mechs.foldl
    (fun acc v => if v.getClass = "CalciumTarget" then (v.getState0, false) else acc)
    start

/-- The method `init`. -/
def init (self : IntegralController) (w : World) : Except Fault IntegralController :=
  let temp_comp : Except Fault Nat :=
    if self.control_type = 1 then
      match self.channel with
      | none => Except.error Fault.nullDeref
      | some ch => Except.ok (w.cond ch).container
    else if self.control_type = 2 then
      match self.syn with
      | none => Except.error Fault.nullDeref
      | some s => Except.ok (w.synp s).post_syn
    else
      Except.error (Fault.mexErr
        "IntegralController can only control conductances or synapses\n")
  match temp_comp with
  | Except.error e => Except.error e
  | Except.ok k =>
    let r := scanTargets (w.comp k).mech (self.Target, true)
    if r.2 then Except.ok { self with Target := (w.comp k).Ca_target }
    else Except.ok { self with Target := r.1 }

/-- The method `integrate`. -/
def integrate (self : IntegralController) (w : World) :
    Except Fault (IntegralController × World) :=
  if self.control_type = 0 then
    Except.error (Fault.mexErr
      "[IntegralController] misconfigured controller. Make sure this object is contained by a conductance or synapse object")
  else if self.control_type = 1 then
    if self.Target.isnan then Except.ok (self, w)
    else
      match self.channel with
      | none => Except.error Fault.nullDeref
      | some ch =>
        let Ca_error := self.Target - (w.comp (w.cond ch).container).Ca_prev
        let m1 := self.m + (self.dt / self.tau_m) * Ca_error
        let m2 := if Dbl.lt m1 (Dbl.fin 0) then Dbl.fin 0 else m1
        let gdot := (self.dt / self.tau_g) * (m2 - (w.cond ch).gbar * self.container_A)
        let gbar2 :=
          if Dbl.lt ((w.cond ch).gbar + gdot / self.container_A) (Dbl.fin 0) then Dbl.fin 0
          else (w.cond ch).gbar + gdot / self.container_A
        Except.ok ({ self with m := m2 }, w.setGbar ch gbar2)
  else if self.control_type = 2 then
    if self.Target.isnan then Except.ok (self, w)
    else
      match self.syn with
      | none => Except.error Fault.nullDeref
      | some s =>
        let Ca_error := self.Target - (w.comp (w.synp s).post_syn).Ca_prev
        let m1 := self.m + (self.dt / self.tau_m) * Ca_error
        let m2 := if Dbl.lt m1 (Dbl.fin 0) then Dbl.fin 0 else m1
        let gdot := (self.dt / self.tau_g) * (m2 - (w.synp s).gmax * Dbl.fin (1 / 1000))
        let gmax2 :=
          if Dbl.lt ((w.synp s).gmax + gdot * Dbl.fin 1000) (Dbl.fin 0) then Dbl.fin 0
          else (w.synp s).gmax + gdot * Dbl.fin 1000
        Except.ok ({ self with m := m2 }, w.setGmax s gmax2)
  else
    Except.error (Fault.mexErr "[IntegralController] misconfigured controller")

/-- The method `checkSolvers(k)`. -/
def checkSolvers (_self : IntegralController) (k : Int) : Except Fault Unit :=
  if k = 0 then Except.ok ()
  else Except.error (Fault.mexErr "[IntegralController] unsupported solver order\n")

end IntegralController

/-! ## Sequences of calls -/

/-- A call made on the controller from outside.  `solver dt ca` is the external solver
finishing a time step: it sets the controller's `dt` and the previous-step calcium
`ca k` of every compartment `k`. -/
inductive Call where
  | connect (a : ConnectArg) : Call
  | init : Call
  | integrate : Call
  | solver (dt : Dbl) (ca : Nat → Dbl) : Call

/-- The effect of one call on the controller and the memory. -/
def Call.run : Call → IntegralController × World → Except Fault (IntegralController × World)
  | Call.connect a, (c, w) => c.connect w a
  | Call.init, (c, w) =>
    match c.init w with
    | Except.ok c1 => Except.ok (c1, w)
    | Except.error e => Except.error e
  | Call.integrate, (c, w) => c.integrate w
  | Call.solver dt ca, (c, w) =>
    Except.ok ({ c with dt := dt },
      { w with comp := fun k => { w.comp k with Ca_prev := ca k } })

/-- The calls of a list in order; the first fault ends the run. -/
def runCalls : List Call → IntegralController × World →
    Except Fault (IntegralController × World)
  | [], s => Except.ok s
  | a :: rest, s =>
    match a.run s with
    | Except.ok s1 => runCalls rest s1
    | Except.error e => Except.error e

/-- A list of time steps, each given by its `dt` and the previous-step calcium, as the
calls they amount to: the solver's update followed by `integrate`. -/
def stepCalls : List (Dbl × Dbl) → List Call
  | [] => []
  | (dt, ca) :: rest => Call.solver dt (fun _ => ca) :: Call.integrate :: stepCalls rest

/-! ## Double arithmetic

The definitions above compute exactly.  The C++ code computes in doubles: the result
of every `+`, `-`, `*`, `/` is the nearest double to the exact result, a tie going to
the double with an even significand.  The definitions of this section repeat the
arithmetic of `integrate` with a rounding function applied to every arithmetic result
and to every decimal literal: with the identity they are the exact definitions, with
`Dbl.round` they are double arithmetic. -/

/-- Rounding of a number to the nearest integer, a tie going to the even one. -/
def roundEven {α : Type} [LinearOrderedField α] [FloorRing α] (y : α) : ℤ :=
  if Int.fract y < 1 / 2 then ⌊y⌋
  else if 1 / 2 < Int.fract y then ⌊y⌋ + 1
  else if Even ⌊y⌋ then ⌊y⌋ else ⌊y⌋ + 1

/-- Rounding of a number to the nearest double: the significand is rounded to 53 bits,
a tie going to the even one.  The exponent is unbounded: neither overflow nor
subnormal numbers are modelled. -/
def round53 {α : Type} [LinearOrderedField α] [FloorRing α] (x : α) : α :=
  if x = 0 then 0
  else (roundEven (x * (2 : α) ^ (52 - Int.log 2 |x|)) : α) * (2 : α) ^ (Int.log 2 |x| - 52)

/-- The nearest double to a value of the number model; the special values are
doubles. -/
def Dbl.round : Dbl → Dbl
  | Dbl.fin q => Dbl.fin (round53 q)
  | x => x

/-- The method `integrate` with every arithmetic result and every decimal literal
passed through `rnd`. -/
def IntegralController.integrateWith (rnd : Dbl → Dbl) (self : IntegralController)
    (w : World) : Except Fault (IntegralController × World) :=
  if self.control_type = 0 then
    Except.error (Fault.mexErr
      "[IntegralController] misconfigured controller. Make sure this object is contained by a conductance or synapse object")
  else if self.control_type = 1 then
    if self.Target.isnan then Except.ok (self, w)
    else
      match self.channel with
      | none => Except.error Fault.nullDeref
      | some ch =>
        let Ca_error := rnd (self.Target - (w.comp (w.cond ch).container).Ca_prev)
        let m1 := rnd (self.m + rnd (rnd (self.dt / self.tau_m) * Ca_error))
        let m2 := if Dbl.lt m1 (Dbl.fin 0) then Dbl.fin 0 else m1
        let gdot :=
          rnd (rnd (self.dt / self.tau_g) * rnd (m2 - rnd ((w.cond ch).gbar * self.container_A)))
        let gbar2 :=
          if Dbl.lt (rnd ((w.cond ch).gbar + rnd (gdot / self.container_A))) (Dbl.fin 0)
          then Dbl.fin 0
          else rnd ((w.cond ch).gbar + rnd (gdot / self.container_A))
        Except.ok ({ self with m := m2 }, w.setGbar ch gbar2)
  else if self.control_type = 2 then
    if self.Target.isnan then Except.ok (self, w)
    else
      match self.syn with
      | none => Except.error Fault.nullDeref
      | some s =>
        let Ca_error := rnd (self.Target - (w.comp (w.synp s).post_syn).Ca_prev)
        let m1 := rnd (self.m + rnd (rnd (self.dt / self.tau_m) * Ca_error))
        let m2 := if Dbl.lt m1 (Dbl.fin 0) then Dbl.fin 0 else m1
        let gdot :=
          rnd (rnd (self.dt / self.tau_g) *
            rnd (m2 - rnd ((w.synp s).gmax * rnd (Dbl.fin (1 / 1000)))))
        let gmax2 :=
          if Dbl.lt (rnd ((w.synp s).gmax + rnd (gdot * rnd (Dbl.fin 1000)))) (Dbl.fin 0)
          then Dbl.fin 0
          else rnd ((w.synp s).gmax + rnd (gdot * rnd (Dbl.fin 1000)))
        Except.ok ({ self with m := m2 }, w.setGmax s gmax2)
  else
    Except.error (Fault.mexErr "[IntegralController] misconfigured controller")

/-! ## A concrete model assembly, used to evaluate the code -/

/-- A memory with compartments of area 1 and no mechanisms, conductances of density
1/10 in compartment 0, and synapses of strength 5 onto compartment 1. -/
def demoWorld : World :=
  { comp := fun _ => { A := Dbl.fin 1, Ca_prev := Dbl.fin 0, Ca_target := Dbl.fin 10, mech := [] },
    cond := fun _ => { gbar := Dbl.fin (1 / 10), container := 0, getClass := "Kd" },
    synp := fun _ => { gmax := Dbl.fin 5, post_syn := 1 } }

/-- A memory whose compartments have no calcium target (`Ca_target` not-a-number, no
mechanisms) and whose conductances were created with the density -1/10. -/
def offWorld : World :=
  { comp := fun _ => { A := Dbl.fin 1, Ca_prev := Dbl.fin 0, Ca_target := Dbl.nan, mech := [] },
    cond := fun _ => { gbar := Dbl.fin (-1 / 10), container := 0, getClass := "Kd" },
    synp := fun _ => { gmax := Dbl.fin 5, post_syn := 1 } }

/-- The controller that `IntegralController(100, 1000, 0)` builds. -/
def demoController : IntegralController :=
  { control_type := 0, Target := Dbl.fin 0, tau_m := Dbl.fin 100, tau_g := Dbl.fin 1000,
    m := Dbl.fin 0, container_A := Dbl.nan, channel := none, syn := none,
    controlling_class := "", dt := Dbl.fin 1 }

/-- A memory whose compartments carry three mechanisms, in registration order a
calcium target with set-point 7, a controller, and a calcium target with set-point 9,
next to the legacy field `Ca_target = 10`. -/
def targetWorld : World :=
  { comp := fun _ =>
      { A := Dbl.fin 1, Ca_prev := Dbl.fin 0, Ca_target := Dbl.fin 10,
        mech := [⟨"CalciumTarget", Dbl.fin 7⟩, ⟨"IntegralController", Dbl.nan⟩,
          ⟨"CalciumTarget", Dbl.fin 9⟩] },
    cond := fun _ => { gbar := Dbl.fin (1 / 10), container := 0, getClass := "Kd" },
    synp := fun _ => { gmax := Dbl.fin 5, post_syn := 1 } }

/-- A memory whose conductances and synapses all have the strength 0.1, that is the
double nearest to 1/10, in compartment 0, whose calcium level is 0. -/
def fpWorld : World :=
  { comp := fun _ => { A := Dbl.fin 1, Ca_prev := Dbl.fin 0, Ca_target := Dbl.fin 0, mech := [] },
    cond := fun _ =>
      { gbar := Dbl.fin (3602879701896397 / 36028797018963968), container := 0,
        getClass := "Kd" },
    synp := fun _ =>
      { gmax := Dbl.fin (3602879701896397 / 36028797018963968), post_syn := 0 } }

/-- A controller bound to synapse 0 with `m = 1`, `Target = 0`, `dt = 1`, `tau_m = 100`
and `tau_g = 1000`. -/
def fpSynapseController : IntegralController :=
  { control_type := 2, Target := Dbl.fin 0, tau_m := Dbl.fin 100, tau_g := Dbl.fin 1000,
    m := Dbl.fin 1, container_A := Dbl.fin 1, channel := none, syn := some 0,
    controlling_class := "", dt := Dbl.fin 1 }

/-- The same controller bound to conductance 0 instead, with the double `1e-3` as
`container_A`. -/
def fpChannelController : IntegralController :=
  { control_type := 1, Target := Dbl.fin 0, tau_m := Dbl.fin 100, tau_g := Dbl.fin 1000,
    m := Dbl.fin 1, container_A := Dbl.round (Dbl.fin (1 / 1000)), channel := some 0,
    syn := some 0, controlling_class := "", dt := Dbl.fin 1 }

/-- A memory whose conductances have the density 0.45, that is the double nearest to
45/100, in compartment 0, whose calcium level is 0. -/
def clampWorld : World :=
  { comp := fun _ => { A := Dbl.fin 1, Ca_prev := Dbl.fin 0, Ca_target := Dbl.fin 0, mech := [] },
    cond := fun _ =>
      { gbar := Dbl.fin (8106479329266893 / 18014398509481984), container := 0, getClass := "Kd" },
    synp := fun _ => { gmax := Dbl.fin 5, post_syn := 0 } }

/-- A controller bound to conductance 0 with `m = 0`, `Target = 0`, `dt = 1000`,
`tau_m = 100`, `tau_g = 1000` and the double 0.01 as `container_A`. -/
def clampController : IntegralController :=
  { control_type := 1, Target := Dbl.fin 0, tau_m := Dbl.fin 100, tau_g := Dbl.fin 1000,
    m := Dbl.fin 0, container_A := Dbl.fin (5764607523034235 / 576460752303423488),
    channel := some 0, syn := none, controlling_class := "Kd", dt := Dbl.fin 1000 }

/-! ## The channel variants

The gating kinetics use `exp` and `pow`, so the channels are embedded over the real
numbers: a `double` is a real, `exp` is `Real.exp` and `pow` is the real power.  The
reals have no infinity and no not-a-number, and Lean's `x / 0` is `0`; the only
division of the channel code whose divisor can vanish is `Ca/(Ca+30)` of `KCaAB`, at
`Ca = -30`. -/

/-- Modelled from the spec: the fields of the conductance base class that the channel
variants read and write (conductance.hpp is not among the sources): the maximal
conductance `gbar`, the reversal potential `E`, the gating variables `m` and `h`, the
conductance `g` and the temperature factors. -/
structure ChannelState where
  gbar : ℝ
  E : ℝ
  m : ℝ
  h : ℝ
  g : ℝ
  Q_g : ℝ
  Q_tau_m : ℝ
  Q_tau_h : ℝ

namespace ACurrent

/-- The constructor `ACurrent(g_, E_, m_, h_)`, applied to the object `base` that the
base-class constructor leaves. -/
def construct (base : ChannelState) (g_ E_ m_ h_ : ℝ) : ChannelState :=
  { base with gbar := g_, E := E_, m := m_, h := h_ }

/-- The steady-state activation `ACurrent::m_inf`. -/
noncomputable def m_inf (V : ℝ) : ℝ := 1.0 / (1.0 + Real.exp ((V + 27.2) / -8.7))

/-- The steady-state inactivation `ACurrent::h_inf`. -/
noncomputable def h_inf (V : ℝ) : ℝ := 1.0 / (1.0 + Real.exp ((V + 56.9) / 4.9))

/-- The activation time constant `ACurrent::tau_m`. -/
noncomputable def tau_m (V : ℝ) : ℝ := 11.6 - 10.4 / (1.0 + Real.exp ((V + 32.9) / -15.2))

/-- The inactivation time constant `ACurrent::tau_h`. -/
noncomputable def tau_h (V : ℝ) : ℝ := 38.6 - 29.2 / (1.0 + Real.exp ((V + 38.9) / -26.5))

/-- The method `ACurrent::integrate(V, Ca, dt)`. -/
noncomputable def integrate (self : ChannelState) (V _Ca dt : ℝ) : ChannelState :=
  let m := m_inf V + (self.m - m_inf V) * Real.exp (-dt / tau_m V)
  let h := h_inf V + (self.h - h_inf V) * Real.exp (-dt / tau_h V)
  { self with m := m, h := h, g := self.gbar * m * m * m * h }

end ACurrent

namespace Kd

/-- The constructor `Kd(g_, E_, m_, h_, Q_g_, Q_tau_m_, Q_tau_h_)`; the argument `h_`
is not used. -/
def construct (base : ChannelState) (g_ E_ m_ _h_ Q_g_ Q_tau_m_ Q_tau_h_ : ℝ) :
    ChannelState :=
  { base with gbar := g_, E := E_, m := m_, h := 1, Q_g := Q_g_, Q_tau_m := Q_tau_m_,
              Q_tau_h := Q_tau_h_ }

/-- The steady-state activation `Kd::m_inf`. -/
noncomputable def m_inf (V : ℝ) : ℝ := 1.0 / (1.0 + Real.exp (-(V + 14.2) / 11.8))

/-- The activation time constant `Kd::tau_m`. -/
noncomputable def tau_m (V : ℝ) : ℝ := 7.2 - 6.4 / (1.0 + Real.exp (-(V + 28.3) / 19.2))

/-- The method `Kd::integrate(V, Ca, dt, delta_temp)`. -/
noncomputable def integrate (self : ChannelState) (V _Ca dt delta_temp : ℝ) :
    ChannelState :=
  let m := m_inf V +
    (self.m - m_inf V) * Real.exp (-(dt * self.Q_tau_m ^ delta_temp) / tau_m V)
  { self with m := m, g := self.Q_g ^ delta_temp * self.gbar * m * m * m * m }

end Kd

namespace KCaAB

/-- The constructor `KCaAB(g_, E_, m_, h_)`; the argument `h_` is not used. -/
def construct (base : ChannelState) (g_ E_ m_ _h_ : ℝ) : ChannelState :=
  { base with gbar := g_, E := E_, m := m_, h := 1 }

/-- The constructor `KCaAB(g_, E_, m_)`. -/
def construct3 (base : ChannelState) (g_ E_ m_ : ℝ) : ChannelState :=
  { base with gbar := g_, E := E_, m := m_, h := 1 }

/-- The steady-state activation `KCaAB::m_inf`, which depends on calcium. -/
noncomputable def m_inf (V Ca : ℝ) : ℝ :=
  (Ca / (Ca + 30)) / (1.0 + Real.exp (-(V + 51.0) / 4))

/-- The activation time constant `KCaAB::tau_m`. -/
noncomputable def tau_m (V : ℝ) : ℝ := 90.3 - 75.09 / (1.0 + Real.exp (-(V + 46.0) / 22.7))

/-- The method `KCaAB::integrate(V, Ca, dt)`. -/
noncomputable def integrate (self : ChannelState) (V Ca dt : ℝ) : ChannelState :=
  let m := m_inf V Ca + (self.m - m_inf V Ca) * Real.exp (-dt / tau_m V)
  { self with m := m, g := self.gbar * m * m * m * m }

end KCaAB

namespace Kslow

/-- The constructor `Kslow(g_, E_, m_, h_)`; the argument `h_` is not used. -/
def construct (base : ChannelState) (g_ E_ m_ _h_ : ℝ) : ChannelState :=
  { base with gbar := g_, E := E_, m := m_, h := 1 }

/-- The steady-state activation `Kslow::m_inf`. -/
noncomputable def m_inf (V : ℝ) : ℝ := 1.0 / (1.0 + Real.exp ((V + 12.85) / -19.91))

/-- The activation time constant `Kslow::tau_m`. -/
noncomputable def tau_m (V : ℝ) : ℝ := 2.03 - 1.96 / (1 + Real.exp ((V - 29.83) / 3.32))

/-- The method `Kslow::integrate(V, Ca, dt)`. -/
noncomputable def integrate (self : ChannelState) (V _Ca dt : ℝ) : ChannelState :=
  let m := m_inf V + (self.m - m_inf V) * Real.exp (-dt / tau_m V)
  { self with m := m, g := self.gbar * m * m * m * m }

end Kslow

/-- The update law of the specification for one gating variable: from the value `x0`,
with steady state `x_inf` and time constant `tau`, a step `dt` leads to
`x_inf + (x0 - x_inf) * exp(-dt / tau)`. -/
noncomputable def gatingLaw (x_inf tau x0 dt : ℝ) : ℝ :=
  x_inf + (x0 - x_inf) * Real.exp (-dt / tau)

/-- The convergence law of the specification, for the sequence `x` of the values a
gating variable takes under repeated integration, its steady state `x_inf` and the
factor `r`: the factor lies strictly between 0 and 1; each step multiplies the distance
to `x_inf` by `r`; the sequence moves towards `x_inf` monotonically and stays on the
side of `x_inf` where it started; unless it starts at `x_inf`, the distance shrinks
strictly at every step; and the sequence converges to `x_inf`. -/
def ConvergenceLaw (x : ℕ → ℝ) (x_inf r : ℝ) : Prop :=
  (0 < r ∧ r < 1) ∧
  (∀ n, x (n + 1) - x_inf = r * (x n - x_inf)) ∧
  (∀ n, (x 0 ≤ x_inf → x n ≤ x (n + 1) ∧ x (n + 1) ≤ x_inf) ∧
    (x_inf ≤ x 0 → x_inf ≤ x (n + 1) ∧ x (n + 1) ≤ x n)) ∧
  (x 0 ≠ x_inf → ∀ n, |x (n + 1) - x_inf| < |x n - x_inf|) ∧
  Filter.Tendsto x Filter.atTop (nhds x_inf)

/-- A channel object with every field zero, to build examples from. -/
def zeroChannel : ChannelState :=
  { gbar := 0, E := 0, m := 0, h := 0, g := 0, Q_g := 0, Q_tau_m := 0, Q_tau_h := 0 }

/-! ## The channel variants in double arithmetic

The C++ code of the channels computes in doubles as well.  The functions below repeat
steady states, time constants and `integrate` methods of the channels with a rounding
function `rnd` applied to every arithmetic result and to every decimal literal, and
with a function `ex` in the place of the library function `exp`.  With the identity and
`Real.exp` they are the definitions above; with `round53` and an exponential routine
that returns doubles, such as `fexp`, they are double arithmetic.  Negation is exact in
doubles and is not rounded, and an integer literal converts to a double exactly.  As
for `round53`, the exponent is unbounded: overflow of `exp` to infinity and subnormal
numbers are not modelled. -/

/-- The function `ACurrent::m_inf` with rounding `rnd` and exponential `ex`. -/
noncomputable def ACurrent.m_infWith (rnd ex : ℝ → ℝ) (V : ℝ) : ℝ :=
  rnd (rnd 1.0 / rnd (rnd 1.0 + ex (rnd (rnd (V + rnd 27.2) / -rnd 8.7))))

/-- The function `ACurrent::h_inf` with rounding `rnd` and exponential `ex`. -/
noncomputable def ACurrent.h_infWith (rnd ex : ℝ → ℝ) (V : ℝ) : ℝ :=
  rnd (rnd 1.0 / rnd (rnd 1.0 + ex (rnd (rnd (V + rnd 56.9) / rnd 4.9))))

/-- The function `ACurrent::tau_m` with rounding `rnd` and exponential `ex`. -/
noncomputable def ACurrent.tau_mWith (rnd ex : ℝ → ℝ) (V : ℝ) : ℝ :=
  rnd (rnd 11.6 - rnd (rnd 10.4 / rnd (rnd 1.0 + ex (rnd (rnd (V + rnd 32.9) / -rnd 15.2)))))

/-- The function `ACurrent::tau_h` with rounding `rnd` and exponential `ex`. -/
noncomputable def ACurrent.tau_hWith (rnd ex : ℝ → ℝ) (V : ℝ) : ℝ :=
  rnd (rnd 38.6 - rnd (rnd 29.2 / rnd (rnd 1.0 + ex (rnd (rnd (V + rnd 38.9) / -rnd 26.5)))))

/-- The method `ACurrent::integrate(V, Ca, dt)` with rounding `rnd` and exponential
`ex`. -/
noncomputable def ACurrent.integrateWith (rnd ex : ℝ → ℝ) (self : ChannelState)
    (V _Ca dt : ℝ) : ChannelState :=
  let m := rnd (ACurrent.m_infWith rnd ex V +
    rnd (rnd (self.m - ACurrent.m_infWith rnd ex V) *
      ex (rnd (-dt / ACurrent.tau_mWith rnd ex V))))
  let h := rnd (ACurrent.h_infWith rnd ex V +
    rnd (rnd (self.h - ACurrent.h_infWith rnd ex V) *
      ex (rnd (-dt / ACurrent.tau_hWith rnd ex V))))
  { self with m := m, h := h, g := rnd (rnd (rnd (rnd (self.gbar * m) * m) * m) * h) }

/-- The function `Kd::m_inf` with rounding `rnd` and exponential `ex`. -/
noncomputable def Kd.m_infWith (rnd ex : ℝ → ℝ) (V : ℝ) : ℝ :=
  rnd (rnd 1.0 / rnd (rnd 1.0 + ex (rnd (-rnd (V + rnd 14.2) / rnd 11.8))))

/-- The function `KCaAB::m_inf` with rounding `rnd` and exponential `ex`. -/
noncomputable def KCaAB.m_infWith (rnd ex : ℝ → ℝ) (V Ca : ℝ) : ℝ :=
  rnd (rnd (Ca / rnd (Ca + 30)) / rnd (rnd 1.0 + ex (rnd (-rnd (V + rnd 51.0) / 4))))

/-- The function `KCaAB::tau_m` with rounding `rnd` and exponential `ex`. -/
noncomputable def KCaAB.tau_mWith (rnd ex : ℝ → ℝ) (V : ℝ) : ℝ :=
  rnd (rnd 90.3 - rnd (rnd 75.09 / rnd (rnd 1.0 + ex (rnd (-rnd (V + rnd 46.0) / rnd 22.7)))))

/-- The method `KCaAB::integrate(V, Ca, dt)` with rounding `rnd` and exponential
`ex`. -/
noncomputable def KCaAB.integrateWith (rnd ex : ℝ → ℝ) (self : ChannelState)
    (V Ca dt : ℝ) : ChannelState :=
  let m := rnd (KCaAB.m_infWith rnd ex V Ca +
    rnd (rnd (self.m - KCaAB.m_infWith rnd ex V Ca) *
      ex (rnd (-dt / KCaAB.tau_mWith rnd ex V))))
  { self with m := m, g := rnd (rnd (rnd (rnd (self.gbar * m) * m) * m) * m) }

/-- The function `Kslow::m_inf` with rounding `rnd` and exponential `ex`. -/
noncomputable def Kslow.m_infWith (rnd ex : ℝ → ℝ) (V : ℝ) : ℝ :=
  rnd (rnd 1.0 / rnd (rnd 1.0 + ex (rnd (rnd (V + rnd 12.85) / -rnd 19.91))))

/-- The function `Kslow::tau_m` with rounding `rnd` and exponential `ex`. -/
noncomputable def Kslow.tau_mWith (rnd ex : ℝ → ℝ) (V : ℝ) : ℝ :=
  rnd (rnd 2.03 - rnd (rnd 1.96 / rnd (1 + ex (rnd (rnd (V - rnd 29.83) / rnd 3.32)))))

/-- The method `Kslow::integrate(V, Ca, dt)` with rounding `rnd` and exponential `ex`. -/
noncomputable def Kslow.integrateWith (rnd ex : ℝ → ℝ) (self : ChannelState)
    (V _Ca dt : ℝ) : ChannelState :=
  let m := rnd (Kslow.m_infWith rnd ex V +
    rnd (rnd (self.m - Kslow.m_infWith rnd ex V) *
      ex (rnd (-dt / Kslow.tau_mWith rnd ex V))))
  { self with m := m, g := rnd (rnd (rnd (rnd (self.gbar * m) * m) * m) * m) }

/-- The library function `exp` in double arithmetic, taken as correctly rounded: the
nearest double to the exponential. -/
noncomputable def fexp (x : ℝ) : ℝ := round53 (Real.exp x)

/-- The double nearest to `1e-20`. -/
noncomputable def tinyStep : ℝ := 6646139978924579 / 664613997892457936451903530140172288

end Xolotl

/-! # Theorems -/

namespace Xolotl

open IntegralController

/-! ## Arithmetic on finite values -/

@[simp] theorem Dbl.fin_add_fin (a b : ℚ) : Dbl.fin a + Dbl.fin b = Dbl.fin (a + b) := rfl

@[simp] theorem Dbl.fin_sub_fin (a b : ℚ) : Dbl.fin a - Dbl.fin b = Dbl.fin (a - b) := by
  show Dbl.add (Dbl.fin a) (Dbl.neg (Dbl.fin b)) = _
  simp [Dbl.add, Dbl.neg, sub_eq_add_neg]

@[simp] theorem Dbl.fin_mul_fin (a b : ℚ) : Dbl.fin a * Dbl.fin b = Dbl.fin (a * b) := rfl

theorem Dbl.fin_div_fin (a b : ℚ) (hb : b ≠ 0) : Dbl.fin a / Dbl.fin b = Dbl.fin (a / b) := by
  show Dbl.div (Dbl.fin a) (Dbl.fin b) = _
  simp [Dbl.div, hb]

@[simp] theorem Dbl.fin_div_pinf (a : ℚ) : Dbl.fin a / Dbl.pinf = Dbl.fin 0 := rfl

@[simp] theorem Dbl.lt_fin_fin (a b : ℚ) : Dbl.lt (Dbl.fin a) (Dbl.fin b) = decide (a < b) := rfl

@[simp] theorem Dbl.le_fin_fin (a b : ℚ) : Dbl.le (Dbl.fin a) (Dbl.fin b) = decide (a ≤ b) := rfl

/-- The clamp of the code, on a finite value, is the maximum with zero. -/
theorem Dbl.clamp_fin (x : ℚ) :
    (if Dbl.lt (Dbl.fin x) (Dbl.fin 0) = true then Dbl.fin 0 else Dbl.fin x) = Dbl.fin (max 0 x) := by
  by_cases h : x < 0
  · simp [h, max_eq_left (le_of_lt h)]
  · simp [h, max_eq_right (not_lt.mp h)]

/-! ## Binding -/

/-- C1, as the code has it: for every controller and memory, `connect` to a Channel
succeeds and sets `control_type` to 1, and a subsequent `connect` to a Synapse succeeds
as well: it raises no error, switches `control_type` to 2, stores the synapse pointer
next to the channel pointer, which it keeps, and takes `container_A` from the
synapse's post-synaptic compartment.  Only a `connect` to a compartment is rejected
with a fatal error. -/
theorem C1_rebinding_is_accepted (c : IntegralController) (w : World) (ch s : Nat) :
    ∃ c1 w1 c2 w2,
      c.connect w (ConnectArg.conductance ch) = Except.ok (c1, w1) ∧
      c1.control_type = 1 ∧ c1.channel = some ch ∧
      c1.connect w1 (ConnectArg.synapse s) = Except.ok (c2, w2) ∧
      c2.control_type = 2 ∧ c2.channel = some ch ∧ c2.syn = some s ∧
      c2.container_A = (w.comp (w.synp s).post_syn).A ∧
      ∀ k, ∃ msg, c1.connect w1 (ConnectArg.compartment k) = Except.error (Fault.mexErr msg) := by
  refine ⟨_, _, _, _, rfl, rfl, rfl, rfl, rfl, rfl, rfl, ?_, ?_⟩
  · simp only [connect_conductance, connect_synapse, World.addMechanism]
    by_cases h1 : (w.synp s).post_syn = (w.cond ch).container
    · simp [h1, Function.update, compartment.addMechanism]
    · by_cases h2 : (w.synp s).post_syn = (w.cond ch).container <;>
        simp [Function.update, compartment.addMechanism, h1]
  · intro k
    exact ⟨_, rfl⟩

/-- C1 fails on the code: the controller built by `IntegralController(100, 1000, 0)`
and bound to conductance 0 accepts a `connect` to synapse 0: the call returns
normally, `control_type` is 2 afterwards and both pointers are set. -/
theorem C1_counterexample :
    ∃ c1 w1 c2 w2,
      demoController.connect demoWorld (ConnectArg.conductance 0) = Except.ok (c1, w1) ∧
      c1.control_type = 1 ∧
      c1.connect w1 (ConnectArg.synapse 0) = Except.ok (c2, w2) ∧
      c2.control_type = 2 ∧ c2.channel = some 0 ∧ c2.syn = some 0 :=
  ⟨_, _, _, _, rfl, rfl, rfl, rfl, rfl, rfl⟩

/-! ## The update of `integrate` -/

/-- With a not-a-number `Target`, a bound controller's `integrate` returns at once. -/
theorem integrate_disabled (c : IntegralController) (w : World)
    (hT : c.Target.isnan = true) (hb : c.control_type = 1 ∨ c.control_type = 2) :
    c.integrate w = Except.ok (c, w) := by
  rcases hb with h | h <;> simp [integrate, h, hT]

/-- The Channel branch of `integrate` past its guards. -/
theorem integrate_channel (c : IntegralController) (w : World) (ch : Nat)
    (hct : c.control_type = 1) (hch : c.channel = some ch) (hT : c.Target.isnan = false) :
    c.integrate w = Except.ok
      ({ c with m :=
          if Dbl.lt (c.m + (c.dt / c.tau_m) *
              (c.Target - (w.comp (w.cond ch).container).Ca_prev)) (Dbl.fin 0) = true
          then Dbl.fin 0
          else c.m + (c.dt / c.tau_m) * (c.Target - (w.comp (w.cond ch).container).Ca_prev) },
        w.setGbar ch
          (if Dbl.lt ((w.cond ch).gbar + ((c.dt / c.tau_g) *
              ((if Dbl.lt (c.m + (c.dt / c.tau_m) *
                  (c.Target - (w.comp (w.cond ch).container).Ca_prev)) (Dbl.fin 0) = true
                then Dbl.fin 0
                else c.m + (c.dt / c.tau_m) *
                  (c.Target - (w.comp (w.cond ch).container).Ca_prev))
                - (w.cond ch).gbar * c.container_A)) / c.container_A) (Dbl.fin 0) = true
            then Dbl.fin 0
            else (w.cond ch).gbar + ((c.dt / c.tau_g) *
              ((if Dbl.lt (c.m + (c.dt / c.tau_m) *
                  (c.Target - (w.comp (w.cond ch).container).Ca_prev)) (Dbl.fin 0) = true
                then Dbl.fin 0
                else c.m + (c.dt / c.tau_m) *
                  (c.Target - (w.comp (w.cond ch).container).Ca_prev))
                - (w.cond ch).gbar * c.container_A)) / c.container_A)) := by
  simp [integrate, hct, hch, hT]

/-- The Synapse branch of `integrate` past its guards. -/
theorem integrate_synapse (c : IntegralController) (w : World) (s : Nat)
    (hct : c.control_type = 2) (hs : c.syn = some s) (hT : c.Target.isnan = false) :
    c.integrate w = Except.ok
      ({ c with m :=
          if Dbl.lt (c.m + (c.dt / c.tau_m) *
              (c.Target - (w.comp (w.synp s).post_syn).Ca_prev)) (Dbl.fin 0) = true
          then Dbl.fin 0
          else c.m + (c.dt / c.tau_m) * (c.Target - (w.comp (w.synp s).post_syn).Ca_prev) },
        w.setGmax s
          (if Dbl.lt ((w.synp s).gmax + ((c.dt / c.tau_g) *
              ((if Dbl.lt (c.m + (c.dt / c.tau_m) *
                  (c.Target - (w.comp (w.synp s).post_syn).Ca_prev)) (Dbl.fin 0) = true
                then Dbl.fin 0
                else c.m + (c.dt / c.tau_m) *
                  (c.Target - (w.comp (w.synp s).post_syn).Ca_prev))
                - (w.synp s).gmax * Dbl.fin (1 / 1000))) * Dbl.fin 1000) (Dbl.fin 0) = true
            then Dbl.fin 0
            else (w.synp s).gmax + ((c.dt / c.tau_g) *
              ((if Dbl.lt (c.m + (c.dt / c.tau_m) *
                  (c.Target - (w.comp (w.synp s).post_syn).Ca_prev)) (Dbl.fin 0) = true
                then Dbl.fin 0
                else c.m + (c.dt / c.tau_m) *
                  (c.Target - (w.comp (w.synp s).post_syn).Ca_prev))
                - (w.synp s).gmax * Dbl.fin (1 / 1000))) * Dbl.fin 1000)) := by
  simp [integrate, hct, hs, hT]

/-- C2: for a controller bound to a Channel whose `Target` is a number, with finite
`m`, `gbar`, `container_A ≠ 0`, `Target`, `Ca_prev` and `dt`, and with finite quotients
`dt/tau_m` and `dt/tau_g` (each time constant finite and non-zero, or infinite, where
the quotient is 0), one `integrate` call returns normally with
`m' = max(0, m + (dt/tau_m)*(Target - Ca_prev))` and
`gbar' = max(0, gbar + ((dt/tau_g)*(m' - gbar*container_A))/container_A)`, the drive
using the updated `m'`. -/
theorem C2_channel_update_law (c : IntegralController) (w : World) (ch : Nat)
    (m gbar A T Ca dt dt_over_tau_m dt_over_tau_g : ℚ)
    (hct : c.control_type = 1) (hch : c.channel = some ch)
    (hT : c.Target = Dbl.fin T) (hm : c.m = Dbl.fin m) (hdt : c.dt = Dbl.fin dt)
    (hrm : Dbl.fin dt / c.tau_m = Dbl.fin dt_over_tau_m)
    (hrg : Dbl.fin dt / c.tau_g = Dbl.fin dt_over_tau_g)
    (hA : c.container_A = Dbl.fin A) (hA0 : A ≠ 0)
    (hg : (w.cond ch).gbar = Dbl.fin gbar)
    (hCa : (w.comp (w.cond ch).container).Ca_prev = Dbl.fin Ca) :
    ∃ c1 w1, c.integrate w = Except.ok (c1, w1) ∧
      c1.m = Dbl.fin (max 0 (m + dt_over_tau_m * (T - Ca))) ∧
      (w1.cond ch).gbar =
        Dbl.fin (max 0 (gbar +
          (dt_over_tau_g * (max 0 (m + dt_over_tau_m * (T - Ca)) - gbar * A)) / A)) := by
  have hnan : c.Target.isnan = false := by rw [hT]; rfl
  refine ⟨_, _, integrate_channel c w ch hct hch hnan, ?_, ?_⟩
  · simp only [hm, hdt, hrm, hCa, hT, Dbl.fin_mul_fin, Dbl.fin_add_fin, Dbl.fin_sub_fin,
      Dbl.clamp_fin]
  · simp only [hm, hdt, hrm, hrg, hCa, hT, hA, hg, Dbl.fin_mul_fin, Dbl.fin_add_fin,
      Dbl.fin_sub_fin, Dbl.clamp_fin, Dbl.fin_div_fin _ _ hA0, World.setGbar,
      Function.update_same]

/-- C2 at the numbers of the end-to-end scenario: `tau_m = 100`, `tau_g = 1000`,
`m = 0`, `gbar = 1/10`, `container_A = 1`, `Target = 10`, `Ca_prev = 0`, `dt = 1` give
`m' = 1/10` and leave `gbar` at `1/10`. -/
theorem C2_channel_update_law_witness :
    ∃ c1 w1,
      ({ (demoController.connect_conductance demoWorld 0).1 with
          Target := Dbl.fin 10 }).integrate
        (demoController.connect_conductance demoWorld 0).2 = Except.ok (c1, w1) ∧
      c1.m = Dbl.fin (1 / 10) ∧ (w1.cond 0).gbar = Dbl.fin (1 / 10) := by
  have h := C2_channel_update_law
    { (demoController.connect_conductance demoWorld 0).1 with Target := Dbl.fin 10 }
    (demoController.connect_conductance demoWorld 0).2 0
    0 (1 / 10) 1 10 0 1 (1 / 100) (1 / 1000) rfl rfl rfl rfl rfl
    (by simp [demoController, connect_conductance, Dbl.fin_div_fin])
    (by simp [demoController, connect_conductance, Dbl.fin_div_fin])
    (by simp [demoController, connect_conductance, demoWorld, World.addMechanism,
      compartment.addMechanism])
    one_ne_zero
    (by simp [demoController, connect_conductance, demoWorld, World.addMechanism])
    (by simp [demoController, connect_conductance, demoWorld, World.addMechanism,
      compartment.addMechanism])
  obtain ⟨c1, w1, h1, h2, h3⟩ := h
  refine ⟨c1, w1, h1, ?_, ?_⟩
  · rw [h2]; norm_num
  · rw [h3]; norm_num

/-- C3: for a controller bound to a Channel or to a Synapse whose `Target` is
not-a-number, `integrate` returns normally and leaves the controller and the whole
memory, so `m` and the target's `gbar` or `gmax`, exactly as they were, whatever
`Ca_prev`, `dt`, `tau_m` and `tau_g` are. -/
theorem C3_disabled_path (c : IntegralController) (w : World)
    (hT : c.Target = Dbl.nan) (hb : c.control_type = 1 ∨ c.control_type = 2) :
    c.integrate w = Except.ok (c, w) :=
  integrate_disabled c w (by rw [hT]; rfl) hb

/-- C3 on a controller bound to synapse 0 with a not-a-number `Target`. -/
theorem C3_disabled_path_witness :
    ({ (demoController.connect_synapse demoWorld 0).1 with Target := Dbl.nan }).integrate
        demoWorld =
      Except.ok ({ (demoController.connect_synapse demoWorld 0).1 with Target := Dbl.nan },
        demoWorld) :=
  C3_disabled_path _ _ rfl (Or.inr rfl)

/-! ## Non-negativity of the internal state -/

/-- A finite step over a positive time constant, finite or infinite, is a finite
non-negative number. -/
theorem Dbl.div_pos_tau (dt : ℚ) (tau : Dbl) (hdt : 0 < dt)
    (htau : Dbl.lt (Dbl.fin 0) tau = true) :
    ∃ r : ℚ, Dbl.fin dt / tau = Dbl.fin r ∧ 0 ≤ r := by
  cases tau with
  | nan => simp [Dbl.lt] at htau
  | ninf => simp [Dbl.lt] at htau
  | pinf => exact ⟨0, rfl, le_refl 0⟩
  | fin t =>
    have ht : 0 < t := by simpa using htau
    exact ⟨dt / t, Dbl.fin_div_fin _ _ (ne_of_gt ht), le_of_lt (div_pos hdt ht)⟩

/-- A time step is `integrate` on the controller and memory the solver leaves. -/
theorem runCalls_solver_integrate (c : IntegralController) (w : World) (dt : Dbl)
    (ca : Nat → Dbl) :
    runCalls [Call.solver dt ca, Call.integrate] (c, w) =
      integrate { c with dt := dt }
        { w with comp := fun k => { w.comp k with Ca_prev := ca k } } := by
  simp only [runCalls, Call.run]
  cases integrate { c with dt := dt }
    { w with comp := fun k => { w.comp k with Ca_prev := ca k } } <;> rfl

/-- One time step from `m = 0` with a negative calcium error ends with `m = 0` and
changes nothing else that the update of `m` depends on. -/
theorem step_keeps_m_zero (c : IntegralController) (w : World) (T dt Ca : ℚ)
    (hb : (c.control_type = 1 ∧ c.channel ≠ none) ∨ (c.control_type = 2 ∧ c.syn ≠ none))
    (hT : c.Target = Dbl.fin T) (hm : c.m = Dbl.fin 0)
    (htau : Dbl.lt (Dbl.fin 0) c.tau_m = true) (hdt : 0 < dt) (herr : T - Ca < 0) :
    ∃ c1 w1,
      runCalls [Call.solver (Dbl.fin dt) (fun _ => Dbl.fin Ca), Call.integrate] (c, w)
        = Except.ok (c1, w1) ∧
      c1.m = Dbl.fin 0 ∧ c1.Target = c.Target ∧ c1.tau_m = c.tau_m ∧
      c1.control_type = c.control_type ∧ c1.channel = c.channel ∧ c1.syn = c.syn := by
  obtain ⟨r, hr, hr0⟩ := Dbl.div_pos_tau dt c.tau_m hdt htau
  have hnan : c.Target.isnan = false := by rw [hT]; rfl
  have hle : 0 + r * (T - Ca) ≤ 0 := by
    have := mul_nonpos_of_nonneg_of_nonpos hr0 (le_of_lt herr)
    linarith
  have hclamp : max 0 (0 + r * (T - Ca)) = 0 := max_eq_left hle
  rcases hb with ⟨hct, hch⟩ | ⟨hct, hs⟩
  · obtain ⟨ch, hch⟩ := Option.ne_none_iff_exists'.mp hch
    have hrun := (runCalls_solver_integrate c w (Dbl.fin dt) (fun _ => Dbl.fin Ca)).trans
      (integrate_channel _ _ ch hct hch hnan)
    refine ⟨_, _, hrun, ?_, rfl, rfl, rfl, rfl, rfl⟩
    simp only [hT, hm, hr, Dbl.fin_mul_fin, Dbl.fin_add_fin, Dbl.fin_sub_fin,
      Dbl.clamp_fin, hclamp]
  · obtain ⟨s, hs⟩ := Option.ne_none_iff_exists'.mp hs
    have hrun := (runCalls_solver_integrate c w (Dbl.fin dt) (fun _ => Dbl.fin Ca)).trans
      (integrate_synapse _ _ s hct hs hnan)
    refine ⟨_, _, hrun, ?_, rfl, rfl, rfl, rfl, rfl⟩
    simp only [hT, hm, hr, Dbl.fin_mul_fin, Dbl.fin_add_fin, Dbl.fin_sub_fin,
      Dbl.clamp_fin, hclamp]

/-- A run of calls, cut after its first two calls. -/
theorem runCalls_cons_cons (a b : Call) (rest : List Call) (s s1 : IntegralController × World)
    (h : runCalls [a, b] s = Except.ok s1) :
    runCalls (a :: b :: rest) s = runCalls rest s1 := by
  simp only [runCalls] at h ⊢
  cases ha : a.run s with
  | error e => simp [ha] at h
  | ok sa =>
    simp only [ha] at h ⊢
    cases hb : b.run sa with
    | error e => simp [hb] at h
    | ok sb =>
      simp only [hb] at h ⊢
      cases h
      rfl

/-- Any number of time steps from `m = 0` with negative calcium errors end with `m = 0`. -/
theorem steps_keep_m_zero (steps : List (Dbl × Dbl)) (T : ℚ) :
    ∀ (c : IntegralController) (w : World),
      ((c.control_type = 1 ∧ c.channel ≠ none) ∨ (c.control_type = 2 ∧ c.syn ≠ none)) →
      c.Target = Dbl.fin T → c.m = Dbl.fin 0 → Dbl.lt (Dbl.fin 0) c.tau_m = true →
      (∀ p ∈ steps, ∃ dt Ca : ℚ, p = (Dbl.fin dt, Dbl.fin Ca) ∧ 0 < dt ∧ T - Ca < 0) →
      ∃ c1 w1, runCalls (stepCalls steps) (c, w) = Except.ok (c1, w1) ∧ c1.m = Dbl.fin 0 := by
  induction steps with
  | nil =>
    intro c w _ _ hm _ _
    exact ⟨c, w, rfl, hm⟩
  | cons p rest ih =>
    intro c w hb hT hm htau hsteps
    obtain ⟨dt, Ca, hp, hdt, herr⟩ := hsteps p (List.mem_cons_self _ _)
    obtain ⟨c1, w1, hrun, hm1, hT1, htau1, hct1, hch1, hs1⟩ :=
      step_keeps_m_zero c w T dt Ca hb hT hm htau hdt herr
    have hb1 : (c1.control_type = 1 ∧ c1.channel ≠ none) ∨
        (c1.control_type = 2 ∧ c1.syn ≠ none) := by
      rw [hct1, hch1, hs1]; exact hb
    obtain ⟨c2, w2, hrun2, hm2⟩ := ih c1 w1 hb1 (hT1.trans hT) hm1 (htau1 ▸ htau)
      (fun q hq => hsteps q (List.mem_cons_of_mem _ hq))
    refine ⟨c2, w2, ?_, hm2⟩
    subst hp
    simp only [stepCalls]
    rw [runCalls_cons_cons _ _ _ _ _ hrun]
    exact hrun2

/-- C4: take a controller bound to a Channel or a Synapse, with a finite `Target`,
`m = 0` and `tau_m > 0` (finite or infinite), and any sequence of time steps, each with
a finite `dt > 0` and a finite `Ca_prev` for which `Ca_error = Target - Ca_prev` is
negative.  After every step of the sequence, that is after its first `n` steps for
every `n`, the run has returned normally and `m` equals 0. -/
theorem C4_m_stays_zero (c : IntegralController) (w : World) (steps : List (Dbl × Dbl))
    (T : ℚ) (n : Nat)
    (hb : (c.control_type = 1 ∧ c.channel ≠ none) ∨ (c.control_type = 2 ∧ c.syn ≠ none))
    (hT : c.Target = Dbl.fin T) (hm : c.m = Dbl.fin 0)
    (htau : Dbl.lt (Dbl.fin 0) c.tau_m = true)
    (hsteps : ∀ p ∈ steps, ∃ dt Ca : ℚ, p = (Dbl.fin dt, Dbl.fin Ca) ∧ 0 < dt ∧ T - Ca < 0) :
    ∃ c1 w1, runCalls (stepCalls (steps.take n)) (c, w) = Except.ok (c1, w1) ∧
      c1.m = Dbl.fin 0 :=
  steps_keep_m_zero (steps.take n) T c w hb hT hm htau
    (fun p hp => hsteps p (List.mem_of_mem_take hp))

/-- C4 on the controller built by `IntegralController(100, 1000, 0)`, bound to
conductance 0, with `Target = 0` and two steps of `dt = 1` at calcium 5 and 7. -/
theorem C4_m_stays_zero_witness :
    ∃ c1 w1,
      runCalls (stepCalls ([(Dbl.fin 1, Dbl.fin 5), (Dbl.fin 1, Dbl.fin 7)].take 2))
        (demoController.connect_conductance demoWorld 0) = Except.ok (c1, w1) ∧
      c1.m = Dbl.fin 0 :=
  C4_m_stays_zero (demoController.connect_conductance demoWorld 0).1
    (demoController.connect_conductance demoWorld 0).2
    [(Dbl.fin 1, Dbl.fin 5), (Dbl.fin 1, Dbl.fin 7)] 0 2
    (Or.inl ⟨rfl, by simp [connect_conductance]⟩) rfl rfl
    (by simp [connect_conductance, demoController])
    (by
      intro p hp
      simp only [List.mem_cons, List.mem_singleton, List.not_mem_nil, or_false] at hp
      rcases hp with rfl | rfl
      · exact ⟨1, 5, rfl, by norm_num, by norm_num⟩
      · exact ⟨1, 7, rfl, by norm_num, by norm_num⟩)

/-! ## The Synapse branch against the Channel branch -/

/-- Dividing by the constant 1/1000 is multiplying by 1000, for every value. -/
theorem Dbl.div_milli (x : Dbl) : x / Dbl.fin (1 / 1000) = x * Dbl.fin 1000 := by
  cases x with
  | nan => rfl
  | ninf =>
    show Dbl.div Dbl.ninf (Dbl.fin (1 / 1000)) = Dbl.mul Dbl.ninf (Dbl.fin 1000)
    simp [Dbl.div, Dbl.mul, Dbl.signedInf]
  | pinf =>
    show Dbl.div Dbl.pinf (Dbl.fin (1 / 1000)) = Dbl.mul Dbl.pinf (Dbl.fin 1000)
    simp [Dbl.div, Dbl.mul, Dbl.signedInf]
  | fin a =>
    rw [Dbl.fin_div_fin _ _ (by norm_num), Dbl.fin_mul_fin]
    congr 1
    field_simp

/-! ## State introspection -/

/-- What `getState` returns for a controller that holds a channel pointer: `m` at
index 1, the channel's `gbar` at index 2, not-a-number at every other index. -/
theorem getState_channel (c : IntegralController) (w : World) (ch : Nat) (idx : Int)
    (hch : c.channel = some ch) :
    c.getState w idx =
      Except.ok (if idx = 1 then c.m else if idx = 2 then (w.cond ch).gbar else Dbl.nan) := by
  unfold getState
  split
  · rfl
  · split
    · rw [hch]
    · rfl

/-- C6 on the code: the controller built by `IntegralController(100, 1000, 0)` and
bound to synapse 0, of strength `gmax = 5`, answers `getState(1)` with `m` and
`getState(0)` with not-a-number, but `getState(2)` reads `channel->gbar` through the
null `channel` pointer instead of returning `gmax`. -/
theorem C6_getState_on_synapse :
    ((demoController.connect_synapse demoWorld 0).2.synp 0).gmax = Dbl.fin 5 ∧
    (demoController.connect_synapse demoWorld 0).1.getState
      (demoController.connect_synapse demoWorld 0).2 1 = Except.ok (Dbl.fin 0) ∧
    (demoController.connect_synapse demoWorld 0).1.getState
      (demoController.connect_synapse demoWorld 0).2 0 = Except.ok Dbl.nan ∧
    (demoController.connect_synapse demoWorld 0).1.getState
      (demoController.connect_synapse demoWorld 0).2 2 = Except.error Fault.nullDeref :=
  ⟨rfl, rfl, rfl, rfl⟩

/-- What `getFullState(buffer, idx)` does for a controller bound to a Channel, or
bound to a Synapse and holding no channel pointer: it stores `m` at `buffer[idx]` and
the target's strength, `gbar` of the Channel or `gmax` of the Synapse, at
`buffer[idx+1]`, leaves every other entry of the buffer as it was, and returns
`idx + getFullStateSize() = idx + 2`. -/
theorem getFullState_single_target (c : IntegralController) (w : World) (buffer : Int → Dbl)
    (idx : Int) (t : Nat) (strength : Dbl)
    (hb : (c.control_type = 1 ∧ c.channel = some t ∧ strength = (w.cond t).gbar) ∨
      (c.control_type = 2 ∧ c.channel = none ∧ c.syn = some t ∧
        strength = (w.synp t).gmax)) :
    (c.getFullState w buffer idx).1 idx = c.m ∧
    (c.getFullState w buffer idx).1 (idx + 1) = strength ∧
    (∀ j, j ≠ idx → j ≠ idx + 1 → (c.getFullState w buffer idx).1 j = buffer j) ∧
    (c.getFullState w buffer idx).2 = idx + c.getFullStateSize ∧
    (c.getFullState w buffer idx).2 = idx + 2 := by
  have hne : idx ≠ idx + 1 := by omega
  rcases hb with ⟨_, hch, hg⟩ | ⟨_, hch, hs, hg⟩
  · simp only [getFullState, getFullStateSize, hch, hg]
    refine ⟨?_, ?_, ?_, by ring, by ring⟩
    · rw [Function.update_noteq hne, Function.update_same]
    · rw [Function.update_same]
    · intro j h1 h2
      rw [Function.update_noteq h2, Function.update_noteq h1]
  · simp only [getFullState, getFullStateSize, hch, hs, hg]
    refine ⟨?_, ?_, ?_, by ring, by ring⟩
    · rw [Function.update_noteq hne, Function.update_same]
    · rw [Function.update_same]
    · intro j h1 h2
      rw [Function.update_noteq h2, Function.update_noteq h1]

/-- C7 on the code: the controller built by `IntegralController(100, 1000, 0)`,
connected to conductance 0 (`gbar = 1/10`) and then to synapse 0 (`gmax = 5`), is bound
to the Synapse: `control_type` is 2, and `integrate` updates `gmax` and leaves `gbar`
alone.  On it `getFullState(buffer, 4)` stores `m` at `buffer[4]` and returns 6, but at
`buffer[5]` it stores the `gbar = 1/10` of the channel it still points to, not the
strength `gmax = 5` of the bound Synapse. -/
theorem C7_getFullState_after_rebinding :
    ∃ c w,
      runCalls [Call.connect (ConnectArg.conductance 0), Call.connect (ConnectArg.synapse 0)]
        (demoController, demoWorld) = Except.ok (c, w) ∧
      c.control_type = 2 ∧ c.syn = some 0 ∧ c.channel = some 0 ∧
      (w.synp 0).gmax = Dbl.fin 5 ∧ (w.cond 0).gbar = Dbl.fin (1 / 10) ∧
      (c.getFullState w (fun _ => Dbl.fin 0) 4).1 4 = c.m ∧
      (c.getFullState w (fun _ => Dbl.fin 0) 4).1 5 = Dbl.fin (1 / 10) ∧
      (c.getFullState w (fun _ => Dbl.fin 0) 4).1 5 ≠ (w.synp 0).gmax ∧
      (c.getFullState w (fun _ => Dbl.fin 0) 4).2 = 6 ∧
      (∃ c1 w1, c.integrate w = Except.ok (c1, w1) ∧
        (w1.cond 0).gbar = Dbl.fin (1 / 10) ∧ (w1.synp 0).gmax = Dbl.fin (999 / 200)) := by
  refine ⟨_, _, rfl, rfl, rfl, rfl, rfl, rfl, rfl, rfl, ?_, rfl, ?_⟩
  · show Dbl.fin (1 / 10) ≠ Dbl.fin 5
    intro h
    injection h with h
    norm_num at h
  · refine ⟨_, _, integrate_synapse _ _ 0 rfl rfl rfl, rfl, ?_⟩
    simp [World.setGmax, connect_synapse, connect_conductance, demoController, demoWorld,
      World.addMechanism, compartment.addMechanism, Dbl.fin_div_fin, Dbl.fin_mul_fin,
      Dbl.fin_add_fin, Dbl.fin_sub_fin]
    norm_num

/-! ## Construction and misconfiguration -/

/-- C8: `construct(tau_m, tau_g, initial_m)` fails, with a `mexErrMsgTxt` error, if
and only if `tau_g <= 0`; and for every `tau_g > 0` it succeeds for every `tau_m` and
`initial_m`, with a controller that is unbound (`control_type = 0`, no channel and no
synapse pointer) and stores exactly the three given values. -/
theorem C8_construct (A0 dt0 tau_m tau_g initial_m : Dbl) :
    ((∃ msg, construct A0 dt0 tau_m tau_g initial_m = Except.error (Fault.mexErr msg)) ↔
      Dbl.le tau_g (Dbl.fin 0) = true) ∧
    ((∃ e, construct A0 dt0 tau_m tau_g initial_m = Except.error e) ↔
      Dbl.le tau_g (Dbl.fin 0) = true) ∧
    (Dbl.lt (Dbl.fin 0) tau_g = true →
      ∃ c, construct A0 dt0 tau_m tau_g initial_m = Except.ok c ∧
        c.control_type = 0 ∧ c.channel = none ∧ c.syn = none ∧
        c.tau_m = tau_m ∧ c.tau_g = tau_g ∧ c.m = initial_m) := by
  refine ⟨?_, ?_, ?_⟩
  · cases h : Dbl.le tau_g (Dbl.fin 0) <;> simp [construct, h]
  · cases h : Dbl.le tau_g (Dbl.fin 0) <;> simp [construct, h]
  · intro hpos
    have hle : Dbl.le tau_g (Dbl.fin 0) = false := by
      cases tau_g with
      | nan => rfl
      | ninf => simp [Dbl.lt] at hpos
      | pinf => rfl
      | fin t =>
        have ht : 0 < t := by simpa using hpos
        simp [not_le.mpr ht]
    have hok : construct A0 dt0 tau_m tau_g initial_m = Except.ok
        { control_type := 0, Target := Dbl.fin 0, tau_m := tau_m, tau_g := tau_g,
          m := initial_m, container_A := A0, channel := none, syn := none,
          controlling_class := "", dt := dt0 } := by
      simp [construct, hle]
    exact ⟨_, hok, rfl, rfl, rfl, rfl, rfl, rfl⟩

/-- C8 at an infinite `tau_m`: `construct(+∞, 1000, 3)` succeeds and stores the three
values, and `construct(+∞, 0, 3)` fails. -/
theorem C8_construct_witness :
    (∃ c, construct Dbl.nan Dbl.nan Dbl.pinf (Dbl.fin 1000) (Dbl.fin 3) = Except.ok c ∧
        c.control_type = 0 ∧ c.channel = none ∧ c.syn = none ∧
        c.tau_m = Dbl.pinf ∧ c.tau_g = Dbl.fin 1000 ∧ c.m = Dbl.fin 3) ∧
    (∃ e, construct Dbl.nan Dbl.nan Dbl.pinf (Dbl.fin 0) (Dbl.fin 3) = Except.error e) :=
  ⟨(C8_construct Dbl.nan Dbl.nan Dbl.pinf (Dbl.fin 1000) (Dbl.fin 3)).2.2
      (by simp),
    (C8_construct Dbl.nan Dbl.nan Dbl.pinf (Dbl.fin 0) (Dbl.fin 3)).2.1.mpr (by simp)⟩

/-- A successful `integrate` keeps the binding. -/
theorem integrate_binding (c c1 : IntegralController) (w w1 : World)
    (h : c.integrate w = Except.ok (c1, w1)) :
    c1.control_type = c.control_type ∧ c1.channel = c.channel ∧ c1.syn = c.syn := by
  by_cases h0 : c.control_type = 0
  · simp [integrate, h0] at h
  by_cases h1 : c.control_type = 1
  · cases hnan : c.Target.isnan with
    | true =>
      rw [integrate_disabled c w hnan (Or.inl h1)] at h
      cases h
      exact ⟨rfl, rfl, rfl⟩
    | false =>
      cases hch : c.channel with
      | none => simp [integrate, h1, hnan, hch] at h
      | some ch =>
        rw [integrate_channel c w ch h1 hch hnan] at h
        cases h
        exact ⟨rfl, hch.symm ▸ rfl, rfl⟩
  by_cases h2 : c.control_type = 2
  · cases hnan : c.Target.isnan with
    | true =>
      rw [integrate_disabled c w hnan (Or.inr h2)] at h
      cases h
      exact ⟨rfl, rfl, rfl⟩
    | false =>
      cases hs : c.syn with
      | none => simp [integrate, h2, hnan, hs] at h
      | some s =>
        rw [integrate_synapse c w s h2 hs hnan] at h
        cases h
        exact ⟨rfl, rfl, hs.symm ▸ rfl⟩
  · simp [integrate, h0, h1, h2] at h

/-- A successful `init` keeps the binding. -/
theorem init_binding (c c1 : IntegralController) (w : World)
    (h : c.init w = Except.ok c1) :
    c1.control_type = c.control_type ∧ c1.channel = c.channel ∧ c1.syn = c.syn := by
  unfold IntegralController.init at h
  by_cases h1 : c.control_type = 1
  · cases hch : c.channel with
    | none => simp [h1, hch] at h
    | some ch =>
      rw [if_pos h1] at h
      simp only [hch] at h
      split at h <;> cases h <;> exact ⟨rfl, hch.symm ▸ rfl, rfl⟩
  · by_cases h2 : c.control_type = 2
    · cases hs : c.syn with
      | none => simp [h1, h2, hs] at h
      | some s =>
        rw [if_neg h1, if_pos h2] at h
        simp only [hs] at h
        split at h <;> cases h <;> exact ⟨rfl, rfl, hs.symm ▸ rfl⟩
    · simp [h1, h2] at h

/-- Every state that calls can reach from a constructed controller is unbound, or
bound to a Channel with the channel pointer set, or bound to a Synapse with the synapse
pointer set. -/
theorem runCalls_binding (calls : List Call) :
    ∀ (c c1 : IntegralController) (w w1 : World),
      (c.control_type = 0 ∨ (c.control_type = 1 ∧ c.channel ≠ none) ∨
        (c.control_type = 2 ∧ c.syn ≠ none)) →
      runCalls calls (c, w) = Except.ok (c1, w1) →
      (c1.control_type = 0 ∨ (c1.control_type = 1 ∧ c1.channel ≠ none) ∨
        (c1.control_type = 2 ∧ c1.syn ≠ none)) := by
  induction calls with
  | nil =>
    intro c c1 w w1 hwf h
    cases h
    exact hwf
  | cons a rest ih =>
    intro c c1 w w1 hwf h
    simp only [runCalls] at h
    cases ha : a.run (c, w) with
    | error e => simp [ha] at h
    | ok s2 =>
      obtain ⟨c2, w2⟩ := s2
      simp only [ha] at h
      refine ih c2 c1 w2 w1 ?_ h
      cases a with
      | connect arg =>
        cases arg with
        | conductance p => cases ha; exact Or.inr (Or.inl ⟨rfl, by simp⟩)
        | synapse p => cases ha; exact Or.inr (Or.inr ⟨rfl, by simp⟩)
        | compartment p => cases ha
      | init =>
        simp only [Call.run] at ha
        cases hi : c.init w with
        | error e => simp [hi] at ha
        | ok c3 =>
          simp only [hi, Except.ok.injEq, Prod.mk.injEq] at ha
          obtain ⟨b1, b2, b3⟩ := init_binding c c3 w hi
          rw [← ha.1, b1, b2, b3]
          exact hwf
      | integrate =>
        obtain ⟨b1, b2, b3⟩ := integrate_binding c c2 w w2 ha
        rw [b1, b2, b3]
        exact hwf
      | solver dt ca => cases ha; exact hwf

/-- C9: on a controller that is unbound, or bound to a Channel or a Synapse whose
pointer it holds, `integrate` ends in an error if and only if the controller is
unbound; unbound, the error is the misconfiguration message of `mexErrMsgTxt`, raised
before any assignment, so that `m` and every target keep their values; bound, the call
returns normally. -/
theorem C9_integrate_fails_iff_unbound (c : IntegralController) (w : World)
    (hwf : c.control_type = 0 ∨ (c.control_type = 1 ∧ c.channel ≠ none) ∨
      (c.control_type = 2 ∧ c.syn ≠ none)) :
    ((∃ e, c.integrate w = Except.error e) ↔ c.control_type = 0) ∧
    (c.control_type = 0 → c.integrate w = Except.error (Fault.mexErr
      "[IntegralController] misconfigured controller. Make sure this object is contained by a conductance or synapse object")) ∧
    (c.control_type = 1 ∨ c.control_type = 2 → ∃ c1 w1, c.integrate w = Except.ok (c1, w1)) := by
  rcases hwf with h0 | ⟨h1, hch⟩ | ⟨h2, hs⟩
  · have herr : c.integrate w = Except.error (Fault.mexErr
        "[IntegralController] misconfigured controller. Make sure this object is contained by a conductance or synapse object") := by
      simp [integrate, h0]
    refine ⟨⟨fun _ => h0, fun _ => ⟨_, herr⟩⟩, fun _ => herr, ?_⟩
    intro hb
    rcases hb with hb | hb <;> rw [h0] at hb <;> simp at hb
  · obtain ⟨ch, hch⟩ := Option.ne_none_iff_exists'.mp hch
    have hok : ∃ c1 w1, c.integrate w = Except.ok (c1, w1) := by
      cases hnan : c.Target.isnan with
      | true => exact ⟨_, _, integrate_disabled c w hnan (Or.inl h1)⟩
      | false => exact ⟨_, _, integrate_channel c w ch h1 hch hnan⟩
    obtain ⟨c1, w1, hok1⟩ := hok
    refine ⟨⟨?_, ?_⟩, ?_, fun _ => ⟨c1, w1, hok1⟩⟩
    · rintro ⟨e, he⟩
      rw [hok1] at he
      cases he
    · intro h0
      rw [h1] at h0
      simp at h0
    · intro h0
      rw [h1] at h0
      simp at h0
  · obtain ⟨s, hs⟩ := Option.ne_none_iff_exists'.mp hs
    have hok : ∃ c1 w1, c.integrate w = Except.ok (c1, w1) := by
      cases hnan : c.Target.isnan with
      | true => exact ⟨_, _, integrate_disabled c w hnan (Or.inr h2)⟩
      | false => exact ⟨_, _, integrate_synapse c w s h2 hs hnan⟩
    obtain ⟨c1, w1, hok1⟩ := hok
    refine ⟨⟨?_, ?_⟩, ?_, fun _ => ⟨c1, w1, hok1⟩⟩
    · rintro ⟨e, he⟩
      rw [hok1] at he
      cases he
    · intro h0
      rw [h2] at h0
      simp at h0
    · intro h0
      rw [h2] at h0
      simp at h0

/-- C9 on the unbound controller built by `IntegralController(100, 1000, 0)`: its
`integrate` ends in the misconfiguration error. -/
theorem C9_integrate_fails_iff_unbound_witness :
    ∃ e, demoController.integrate demoWorld = Except.error e :=
  (C9_integrate_fails_iff_unbound demoController demoWorld (Or.inl rfl)).1.mpr rfl

/-! ## Invariants along sequences of calls -/

/-- A value is not below zero exactly when it is not-a-number or at least zero. -/
theorem Dbl.not_lt_zero_iff (x : Dbl) :
    Dbl.lt x (Dbl.fin 0) = false ↔ (x = Dbl.nan ∨ Dbl.le (Dbl.fin 0) x = true) := by
  cases x with
  | nan => simp [Dbl.lt]
  | ninf => simp [Dbl.lt, Dbl.le]
  | pinf => simp [Dbl.lt, Dbl.le]
  | fin a => simp

/-- The clamp of the code never leaves a value below zero. -/
theorem Dbl.clamp_not_lt (x : Dbl) :
    Dbl.lt (if Dbl.lt x (Dbl.fin 0) = true then Dbl.fin 0 else x) (Dbl.fin 0) = false := by
  by_cases h : Dbl.lt x (Dbl.fin 0) = true
  · simp [h]
  · simp only [h]
    simpa using h

/-- What one successful `integrate` call keeps and establishes. -/
theorem integrate_effect (c c1 : IntegralController) (w w1 : World)
    (h : c.integrate w = Except.ok (c1, w1)) :
    c1.tau_g = c.tau_g ∧
    (Dbl.lt c.m (Dbl.fin 0) = false → Dbl.lt c1.m (Dbl.fin 0) = false) ∧
    (c.Target.isnan = false →
      Dbl.lt c1.m (Dbl.fin 0) = false ∧
      (∀ ch, c.control_type = 1 → c.channel = some ch →
        Dbl.lt (w1.cond ch).gbar (Dbl.fin 0) = false) ∧
      (∀ s, c.control_type = 2 → c.syn = some s →
        Dbl.lt (w1.synp s).gmax (Dbl.fin 0) = false)) ∧
    (c.Target.isnan = true → w1 = w) := by
  by_cases h0 : c.control_type = 0
  · simp [integrate, h0] at h
  by_cases h1 : c.control_type = 1
  · cases hnan : c.Target.isnan with
    | true =>
      rw [integrate_disabled c w hnan (Or.inl h1)] at h
      cases h
      exact ⟨rfl, id, fun hf => by simp at hf, fun _ => rfl⟩
    | false =>
      cases hch : c.channel with
      | none => simp [integrate, h1, hnan, hch] at h
      | some ch =>
        rw [integrate_channel c w ch h1 hch hnan] at h
        cases h
        refine ⟨rfl, fun _ => Dbl.clamp_not_lt _, fun _ => ⟨Dbl.clamp_not_lt _, ?_, ?_⟩,
          fun hf => by simp [hnan] at hf⟩
        · intro ch2 _ hch2
          cases hch2
          simp only [World.setGbar, Function.update_same]
          exact Dbl.clamp_not_lt _
        · intro s h2
          rw [h1] at h2
          simp at h2
  by_cases h2 : c.control_type = 2
  · cases hnan : c.Target.isnan with
    | true =>
      rw [integrate_disabled c w hnan (Or.inr h2)] at h
      cases h
      exact ⟨rfl, id, fun hf => by simp at hf, fun _ => rfl⟩
    | false =>
      cases hs : c.syn with
      | none => simp [integrate, h2, hnan, hs] at h
      | some s =>
        rw [integrate_synapse c w s h2 hs hnan] at h
        cases h
        refine ⟨rfl, fun _ => Dbl.clamp_not_lt _, fun _ => ⟨Dbl.clamp_not_lt _, ?_, ?_⟩,
          fun hf => by simp [hnan] at hf⟩
        · intro ch h1b
          exact absurd h1b h1
        · intro s2 _ hs2
          cases hs2
          simp only [World.setGmax, Function.update_same]
          exact Dbl.clamp_not_lt _
  · simp [integrate, h0, h1, h2] at h

/-- A successful `init` changes neither `tau_g` nor `m`. -/
theorem init_effect (c c1 : IntegralController) (w : World)
    (h : c.init w = Except.ok c1) : c1.tau_g = c.tau_g ∧ c1.m = c.m := by
  unfold IntegralController.init at h
  by_cases h1 : c.control_type = 1
  · cases hch : c.channel with
    | none => simp [h1, hch] at h
    | some ch =>
      simp only [h1, hch, if_true] at h
      split at h <;> cases h <;> exact ⟨rfl, rfl⟩
  · by_cases h2 : c.control_type = 2
    · cases hs : c.syn with
      | none => simp [h1, h2, hs] at h
      | some s =>
        rw [if_neg h1, if_pos h2] at h
        simp only [hs] at h
        split at h <;> cases h <;> exact ⟨rfl, rfl⟩
    · simp [h1, h2] at h

/-- Every successful call keeps `tau_g` and keeps `m` from falling below zero. -/
theorem Call.run_effect (a : Call) (c c1 : IntegralController) (w w1 : World)
    (h : a.run (c, w) = Except.ok (c1, w1)) :
    c1.tau_g = c.tau_g ∧
    (Dbl.lt c.m (Dbl.fin 0) = false → Dbl.lt c1.m (Dbl.fin 0) = false) := by
  cases a with
  | connect arg =>
    cases arg with
    | conductance p => cases h; exact ⟨rfl, id⟩
    | synapse p => cases h; exact ⟨rfl, id⟩
    | compartment p => cases h
  | init =>
    simp only [Call.run] at h
    cases hi : c.init w with
    | error e => simp [hi] at h
    | ok c2 =>
      simp only [hi, Except.ok.injEq, Prod.mk.injEq] at h
      obtain ⟨hg, hm⟩ := init_effect c c2 w hi
      rw [← h.1, hm]
      exact ⟨hg, id⟩
  | integrate =>
    have := integrate_effect c c1 w w1 h
    exact ⟨this.1, this.2.1⟩
  | solver dt ca => cases h; exact ⟨rfl, id⟩

/-- Along a successful run of calls `tau_g` is kept and `m` does not fall below zero. -/
theorem runCalls_effect (calls : List Call) :
    ∀ (c c1 : IntegralController) (w w1 : World),
      runCalls calls (c, w) = Except.ok (c1, w1) →
      c1.tau_g = c.tau_g ∧
      (Dbl.lt c.m (Dbl.fin 0) = false → Dbl.lt c1.m (Dbl.fin 0) = false) := by
  induction calls with
  | nil =>
    intro c c1 w w1 h
    cases h
    exact ⟨rfl, id⟩
  | cons a rest ih =>
    intro c c1 w w1 h
    simp only [runCalls] at h
    cases ha : a.run (c, w) with
    | error e => simp [ha] at h
    | ok s2 =>
      obtain ⟨c2, w2⟩ := s2
      simp only [ha] at h
      have h1 := Call.run_effect a c c2 w w2 ha
      have h2 := ih c2 c1 w2 w1 h
      exact ⟨h2.1.trans h1.1, fun hm => h2.2 (h1.2 hm)⟩

/-- A value is not at most zero exactly when it is not-a-number or above zero. -/
theorem Dbl.not_le_zero_iff (x : Dbl) :
    Dbl.le x (Dbl.fin 0) = false ↔ (x = Dbl.nan ∨ Dbl.lt (Dbl.fin 0) x = true) := by
  cases x with
  | nan => simp [Dbl.le]
  | ninf => simp [Dbl.lt, Dbl.le]
  | pinf => simp [Dbl.lt, Dbl.le]
  | fin a => simp

/-- A successful construction stores its arguments and has passed the test on `tau_g`. -/
theorem construct_ok (A0 dt0 tau_m tau_g initial_m : Dbl) (c0 : IntegralController)
    (h : construct A0 dt0 tau_m tau_g initial_m = Except.ok c0) :
    c0.tau_g = tau_g ∧ c0.m = initial_m ∧ Dbl.le tau_g (Dbl.fin 0) = false := by
  unfold construct at h
  cases hle : Dbl.le tau_g (Dbl.fin 0) with
  | true => simp [hle] at h
  | false =>
    simp only [hle] at h
    cases h
    exact ⟨rfl, rfl, rfl⟩

/-- A successful `integrate` call made with a not-a-number `Target` changes neither the
controller nor the memory. -/
theorem integrate_nan_target (c c1 : IntegralController) (w w1 : World)
    (h : c.integrate w = Except.ok (c1, w1)) (hT : c.Target.isnan = true) :
    c1 = c ∧ w1 = w := by
  have hb : c.control_type = 1 ∨ c.control_type = 2 := by
    by_contra hn
    push_neg at hn
    by_cases h0 : c.control_type = 0
    · simp [integrate, h0] at h
    · simp [integrate, h0, hn.1, hn.2] at h
  rw [integrate_disabled c w hT hb] at h
  injection h with h
  injection h with h1 h2
  exact ⟨h1.symm, h2.symm⟩

/-- C10, as the code has it.  Take a controller produced by a successful `construct`
and any sequence of `connect`, `init`, `integrate` calls and solver updates that runs
without error.  In the state reached, `tau_g` is the value given to `construct` and is
above zero unless it is not-a-number; if `initial_m >= 0` then `m` is at least zero or
not-a-number.  An `integrate` call made in that state with a `Target` that is a number
leaves `m` at least zero or not-a-number, and the bound target's `gbar` or `gmax` at
least zero or not-a-number; an `integrate` call made with a not-a-number `Target`
changes neither the controller nor the memory, so that `m`, `gbar` and `gmax` stay as
they were, and a strength that was at least zero or not-a-number remains so. -/
theorem C10_invariants (A0 dt0 tau_m tau_g initial_m : Dbl) (c0 c : IntegralController)
    (w0 w : World) (calls : List Call)
    (hc : construct A0 dt0 tau_m tau_g initial_m = Except.ok c0)
    (hrun : runCalls calls (c0, w0) = Except.ok (c, w)) :
    (c.tau_g = tau_g ∧ (tau_g = Dbl.nan ∨ Dbl.lt (Dbl.fin 0) tau_g = true)) ∧
    (Dbl.le (Dbl.fin 0) initial_m = true →
      c.m = Dbl.nan ∨ Dbl.le (Dbl.fin 0) c.m = true) ∧
    (∀ c1 w1, c.integrate w = Except.ok (c1, w1) →
      (c.Target.isnan = false → c1.m = Dbl.nan ∨ Dbl.le (Dbl.fin 0) c1.m = true) ∧
      (∀ ch, c.control_type = 1 → c.channel = some ch →
        (c.Target.isnan = false ∨
          (w.cond ch).gbar = Dbl.nan ∨ Dbl.le (Dbl.fin 0) (w.cond ch).gbar = true) →
        (w1.cond ch).gbar = Dbl.nan ∨ Dbl.le (Dbl.fin 0) (w1.cond ch).gbar = true) ∧
      (∀ s, c.control_type = 2 → c.syn = some s →
        (c.Target.isnan = false ∨
          (w.synp s).gmax = Dbl.nan ∨ Dbl.le (Dbl.fin 0) (w.synp s).gmax = true) →
        (w1.synp s).gmax = Dbl.nan ∨ Dbl.le (Dbl.fin 0) (w1.synp s).gmax = true) ∧
      (c.Target.isnan = true → c1 = c ∧ w1 = w)) := by
  obtain ⟨hg0, hm0, hle⟩ := construct_ok A0 dt0 tau_m tau_g initial_m c0 hc
  obtain ⟨hg, hm⟩ := runCalls_effect calls c0 c w0 w hrun
  refine ⟨⟨hg.trans hg0, (Dbl.not_le_zero_iff tau_g).mp hle⟩, ?_, ?_⟩
  · intro hpos
    apply (Dbl.not_lt_zero_iff c.m).mp
    apply hm
    rw [hm0]
    exact (Dbl.not_lt_zero_iff initial_m).mpr (Or.inr hpos)
  · intro c1 w1 hint
    obtain ⟨_, _, hnum, hdis⟩ := integrate_effect c c1 w w1 hint
    refine ⟨fun hT => (Dbl.not_lt_zero_iff _).mp (hnum hT).1, ?_, ?_,
      integrate_nan_target c c1 w w1 hint⟩
    · intro ch hct hch hpre
      cases hnan : c.Target.isnan with
      | false => exact (Dbl.not_lt_zero_iff _).mp ((hnum hnan).2.1 ch hct hch)
      | true =>
        rw [hdis hnan]
        rcases hpre with hT | hpre
        · rw [hnan] at hT
          cases hT
        · exact hpre
    · intro s hct hs hpre
      cases hnan : c.Target.isnan with
      | false => exact (Dbl.not_lt_zero_iff _).mp ((hnum hnan).2.2 s hct hs)
      | true =>
        rw [hdis hnan]
        rcases hpre with hT | hpre
        · rw [hnan] at hT
          cases hT
        · exact hpre

/-- C10 fails on the code.  `IntegralController(100, 1000, -1)` succeeds, and after a
`connect` to conductance 0 the controller still has `m = -1`, below zero.  With a
not-a-number target, which `init` reads from a compartment that has none, `integrate`
on `IntegralController(100, 1000, 0)` leaves a conductance created with `gbar = -1/10`
at `-1/10`.  And `IntegralController(0, 1000, 0)` succeeds, all its inputs finite; with
`dt = 1` and `Target = Ca_prev = 0` its `integrate` computes
`m = 0 + (1/0)*0`, not-a-number, which is not at least zero, and `gbar` becomes
not-a-number with it. -/
theorem C10_counterexample :
    (∃ c0 c w,
      construct Dbl.nan (Dbl.fin 1) (Dbl.fin 100) (Dbl.fin 1000) (Dbl.fin (-1))
        = Except.ok c0 ∧
      runCalls [Call.connect (ConnectArg.conductance 0)] (c0, demoWorld)
        = Except.ok (c, w) ∧
      c.m = Dbl.fin (-1) ∧ Dbl.le (Dbl.fin 0) c.m = false) ∧
    (∃ c0 c w,
      construct Dbl.nan (Dbl.fin 1) (Dbl.fin 100) (Dbl.fin 1000) (Dbl.fin 0)
        = Except.ok c0 ∧
      runCalls [Call.connect (ConnectArg.conductance 0), Call.init, Call.integrate]
        (c0, offWorld) = Except.ok (c, w) ∧
      c.control_type = 1 ∧ c.channel = some 0 ∧
      (w.cond 0).gbar = Dbl.fin (-1 / 10) ∧
      Dbl.le (Dbl.fin 0) (w.cond 0).gbar = false) ∧
    (∃ c0 c w,
      construct Dbl.nan (Dbl.fin 1) (Dbl.fin 0) (Dbl.fin 1000) (Dbl.fin 0)
        = Except.ok c0 ∧
      runCalls [Call.connect (ConnectArg.conductance 0), Call.integrate] (c0, demoWorld)
        = Except.ok (c, w) ∧
      c.Target = Dbl.fin 0 ∧ (w.comp 0).Ca_prev = Dbl.fin 0 ∧ c.dt = Dbl.fin 1 ∧
      c.m = Dbl.nan ∧ Dbl.le (Dbl.fin 0) c.m = false ∧
      (w.cond 0).gbar = Dbl.nan ∧ Dbl.le (Dbl.fin 0) (w.cond 0).gbar = false) := by
  refine ⟨⟨{ demoController with m := Dbl.fin (-1) },
      (connect_conductance { demoController with m := Dbl.fin (-1) } demoWorld 0).1,
      (connect_conductance { demoController with m := Dbl.fin (-1) } demoWorld 0).2,
      rfl, rfl, rfl, by
        show Dbl.le (Dbl.fin 0) (Dbl.fin (-1)) = false
        simp⟩,
    ⟨demoController,
      { (demoController.connect_conductance offWorld 0).1 with Target := Dbl.nan },
      (demoController.connect_conductance offWorld 0).2,
      rfl, rfl, rfl, rfl, rfl, by
        show Dbl.le (Dbl.fin 0) (Dbl.fin (-1 / 10)) = false
        simp
        norm_num⟩,
    ⟨{ demoController with tau_m := Dbl.fin 0 },
      { (connect_conductance { demoController with tau_m := Dbl.fin 0 } demoWorld 0).1 with
        m := Dbl.nan },
      (connect_conductance { demoController with tau_m := Dbl.fin 0 } demoWorld 0).2.setGbar
        0 Dbl.nan,
      rfl, ?_, rfl, rfl, rfl, rfl, rfl, ?_, rfl⟩⟩
  · have hdiv : Dbl.fin 1 / Dbl.fin 0 = Dbl.pinf := by
      show Dbl.div (Dbl.fin 1) (Dbl.fin 0) = Dbl.pinf
      simp [Dbl.div, Dbl.signedInf]
    have hmul : Dbl.pinf * Dbl.fin 0 = Dbl.nan := by
      show Dbl.mul Dbl.pinf (Dbl.fin 0) = Dbl.nan
      simp [Dbl.mul]
    have hint := integrate_channel
      (connect_conductance { demoController with tau_m := Dbl.fin 0 } demoWorld 0).1
      (connect_conductance { demoController with tau_m := Dbl.fin 0 } demoWorld 0).2
      0 rfl rfl rfl
    show (connect_conductance { demoController with tau_m := Dbl.fin 0 } demoWorld 0).1.integrate
      (connect_conductance { demoController with tau_m := Dbl.fin 0 } demoWorld 0).2 = _
    rw [hint]
    have hadd : ∀ x : Dbl, x + Dbl.nan = Dbl.nan := fun x => by cases x <;> rfl
    have hsub : ∀ x : Dbl, Dbl.nan - x = Dbl.nan := fun x => by cases x <;> rfl
    have hmul2 : ∀ x : Dbl, x * Dbl.nan = Dbl.nan := fun x => by cases x <;> rfl
    have hdiv2 : ∀ x : Dbl, Dbl.nan / x = Dbl.nan := fun x => by cases x <;> rfl
    have hlt : Dbl.lt Dbl.nan (Dbl.fin 0) = false := rfl
    simp [connect_conductance, demoController, demoWorld, World.addMechanism,
      compartment.addMechanism, Dbl.fin_sub_fin, hdiv, hmul, hadd, hsub, hmul2, hdiv2, hlt]
  · simp [World.setGbar]

/-- C10 on `IntegralController(100, 1000, 0)` followed by a `connect` to conductance
0, `init` and `integrate`: in the state reached `tau_g` is 1000 and `m` is at least
zero. -/
theorem C10_invariants_witness :
    construct Dbl.nan (Dbl.fin 1) (Dbl.fin 100) (Dbl.fin 1000) (Dbl.fin 0)
      = Except.ok demoController ∧
    runCalls [Call.connect (ConnectArg.conductance 0), Call.init, Call.integrate]
      (demoController, offWorld) = Except.ok
        ({ (demoController.connect_conductance offWorld 0).1 with Target := Dbl.nan },
          (demoController.connect_conductance offWorld 0).2) ∧
    ({ (demoController.connect_conductance offWorld 0).1 with Target := Dbl.nan }).tau_g
      = Dbl.fin 1000 ∧
    (({ (demoController.connect_conductance offWorld 0).1 with Target := Dbl.nan }).m = Dbl.nan ∨
      Dbl.le (Dbl.fin 0)
        ({ (demoController.connect_conductance offWorld 0).1 with Target := Dbl.nan }).m = true) :=
  ⟨rfl, rfl,
    (C10_invariants Dbl.nan (Dbl.fin 1) (Dbl.fin 100) (Dbl.fin 1000) (Dbl.fin 0)
      demoController _ offWorld _
      [Call.connect (ConnectArg.conductance 0), Call.init, Call.integrate] rfl rfl).1.1,
    (C10_invariants Dbl.nan (Dbl.fin 1) (Dbl.fin 100) (Dbl.fin 1000) (Dbl.fin 0)
      demoController _ offWorld _
      [Call.connect (ConnectArg.conductance 0), Call.init, Call.integrate] rfl rfl).2.1
      (by simp)⟩

/-! ## Discovery of the calcium target -/

/-- The loop of `init` ends with the set-point of the last mechanism of class
"CalciumTarget" and the flag cleared, or, when there is none, as it started. -/
theorem scanTargets_eq (mechs : List MechView) :
    ∀ start : Dbl × Bool,
      scanTargets mechs start =
        match (mechs.filter (fun v => v.getClass = "CalciumTarget")).getLast? with
        | some v => (v.getState0, false)
        | none => start := by
  induction mechs with
  | nil => intro start; rfl
  | cons v rest ih =>
    intro start
    have hstep : scanTargets (v :: rest) start =
        scanTargets rest (if v.getClass = "CalciumTarget" then (v.getState0, false) else start) := rfl
    rw [hstep, ih]
    by_cases hv : v.getClass = "CalciumTarget"
    · simp only [hv, if_true, List.filter_cons, decide_True]
      rw [List.getLast?_cons]
      cases hl : (rest.filter (fun v => v.getClass = "CalciumTarget")).getLast? <;> rfl
    · simp [hv, List.filter_cons]

/-- C11: on an unbound controller (`control_type = 0`) `init` fails with a
`mexErrMsgTxt` error.  On a controller bound to a Channel or a Synapse whose owning
compartment is `k`, `init` returns normally and changes only `Target`, which becomes
the value `getState(0)` of the last mechanism, in registration order, of compartment
`k` whose class name is "CalciumTarget", and the compartment's field `Ca_target` when
the list has no such mechanism. -/
theorem C11_init_target (c : IntegralController) (w : World) (k : Nat) :
    (c.control_type = 0 → ∃ msg, c.init w = Except.error (Fault.mexErr msg)) ∧
    ((c.control_type = 1 ∧ ∃ ch, c.channel = some ch ∧ (w.cond ch).container = k) ∨
      (c.control_type = 2 ∧ ∃ s, c.syn = some s ∧ (w.synp s).post_syn = k) →
      c.init w = Except.ok
        { c with Target :=
            match ((w.comp k).mech.filter (fun v => v.getClass = "CalciumTarget")).getLast? with
            | some v => v.getState0
            | none => (w.comp k).Ca_target }) := by
  constructor
  · intro h0
    exact ⟨"IntegralController can only control conductances or synapses\n",
      by simp [IntegralController.init, h0]⟩
  · intro hb
    obtain ⟨ct, T, tm, tg, m, A, chan, sy, cls, dt⟩ := c
    rcases hb with ⟨h1, ch, hch, hk⟩ | ⟨h2, s, hs, hk⟩
    · simp only at h1 hch
      subst h1 hch hk
      simp only [IntegralController.init, scanTargets_eq, if_true]
      cases hl : ((w.comp (w.cond ch).container).mech.filter
        (fun v => v.getClass = "CalciumTarget")).getLast? <;> simp [hl]
    · simp only at h2 hs
      subst h2 hs hk
      simp only [IntegralController.init, scanTargets_eq, if_true]
      cases hl : ((w.comp (w.synp s).post_syn).mech.filter
        (fun v => v.getClass = "CalciumTarget")).getLast? <;> simp [hl]
/-- C11 on a controller bound to conductance 0: among the mechanisms of `targetWorld`
the last calcium target, of set-point 9, wins over the first, of set-point 7, and in
`demoWorld`, which has no mechanism, `Target` is the legacy field 10. -/
theorem C11_init_target_witness :
    ({ demoController with control_type := 1, channel := some 0 }).init targetWorld =
      Except.ok { demoController with
        control_type := 1, channel := some 0, Target := Dbl.fin 9 } ∧
    ({ demoController with control_type := 1, channel := some 0 }).init demoWorld =
      Except.ok { demoController with
        control_type := 1, channel := some 0, Target := Dbl.fin 10 } :=
  ⟨(C11_init_target { demoController with control_type := 1, channel := some 0 }
      targetWorld 0).2 (Or.inl ⟨rfl, 0, rfl, rfl⟩),
    (C11_init_target { demoController with control_type := 1, channel := some 0 }
      demoWorld 0).2 (Or.inl ⟨rfl, 0, rfl, rfl⟩)⟩

/-! ## Gating kinetics -/

/-- A logistic value lies strictly between 0 and 1. -/
theorem logistic_mem (x : ℝ) :
    0 < 1.0 / (1.0 + Real.exp x) ∧ 1.0 / (1.0 + Real.exp x) < 1 := by
  have he := Real.exp_pos x
  constructor
  · positivity
  · rw [div_lt_one (by positivity)]
    norm_num
    exact he

/-- A time constant of the form `a - b/(1 + exp x)` with `b > 0` exceeds `a - b`. -/
theorem tau_gt (a b x : ℝ) (hb : 0 < b) : a - b < a - b / (1.0 + Real.exp x) := by
  have he := Real.exp_pos x
  have h1 : b / (1.0 + Real.exp x) < b := by
    rw [div_lt_iff₀ (by positivity)]
    nlinarith
  linarith

/-- The time constant `ACurrent::tau_m` exceeds 1.2. -/
theorem ACurrent_tau_m_pos (V : ℝ) : 0 < ACurrent.tau_m V := by
  have := tau_gt 11.6 10.4 ((V + 32.9) / -15.2) (by norm_num)
  unfold ACurrent.tau_m
  norm_num at this ⊢
  linarith

/-- The time constant `ACurrent::tau_h` exceeds 9.4. -/
theorem ACurrent_tau_h_pos (V : ℝ) : 0 < ACurrent.tau_h V := by
  have := tau_gt 38.6 29.2 ((V + 38.9) / -26.5) (by norm_num)
  unfold ACurrent.tau_h
  norm_num at this ⊢
  linarith

/-- The time constant `Kd::tau_m` exceeds 0.8. -/
theorem Kd_tau_m_pos (V : ℝ) : 0 < Kd.tau_m V := by
  have := tau_gt 7.2 6.4 (-(V + 28.3) / 19.2) (by norm_num)
  unfold Kd.tau_m
  norm_num at this ⊢
  linarith

/-- The time constant `Kslow::tau_m` exceeds 0.07. -/
theorem Kslow_tau_m_pos (V : ℝ) : 0 < Kslow.tau_m V := by
  have := tau_gt 2.03 1.96 ((V - 29.83) / 3.32) (by norm_num)
  unfold Kslow.tau_m
  norm_num at this ⊢
  linarith

/-- The time constant `KCaAB::tau_m` exceeds 15.21. -/
theorem KCaAB_tau_m_pos (V : ℝ) : 0 < KCaAB.tau_m V := by
  have := tau_gt 90.3 75.09 (-(V + 46.0) / 22.7) (by norm_num)
  unfold KCaAB.tau_m
  norm_num at this ⊢
  linarith

/-- The decay factor of a step `dt >= 0` over a positive time constant is in (0, 1]. -/
theorem decay_mem (dt tau : ℝ) (hdt : 0 ≤ dt) (htau : 0 < tau) :
    0 < Real.exp (-dt / tau) ∧ Real.exp (-dt / tau) ≤ 1 := by
  refine ⟨Real.exp_pos _, ?_⟩
  rw [Real.exp_le_one_iff]
  apply div_nonpos_of_nonpos_of_nonneg <;> linarith

/-- The decay factor of a step `dt > 0` over a positive time constant is below 1. -/
theorem decay_lt_one (dt tau : ℝ) (hdt : 0 < dt) (htau : 0 < tau) :
    Real.exp (-dt / tau) < 1 := by
  rw [Real.exp_lt_one_iff]
  apply div_neg_of_neg_of_pos <;> linarith

/-! ## The update law of the gating variables -/

/-- The value of `exp(-1)` to four digits. -/
theorem exp_neg_one_bounds : 0.3678 < Real.exp (-1) ∧ Real.exp (-1) < 0.3679 := by
  have h1 := Real.exp_one_gt_d9
  have h2 := Real.exp_one_lt_d9
  have hpos := Real.exp_pos 1
  rw [Real.exp_neg]
  constructor
  · rw [lt_inv_comm₀ (by norm_num) hpos]
    calc Real.exp 1 < 2.7182818286 := h2
      _ < (0.3678 : ℝ)⁻¹ := by norm_num
  · rw [inv_lt_comm₀ hpos (by norm_num)]
    calc ((0.3679 : ℝ))⁻¹ < 2.7182818283 := by norm_num
      _ < Real.exp 1 := h1

/-- C12: for every channel object and all `V`, `Ca`, `dt`, `integrate` sets the gating
variable to the value of the update law `x_inf + (x0 - x_inf)*exp(-dt/tau_x(V))`: `m`
and `h` of `ACurrent`, `m` of `Kslow`, `m` of `KCaAB`, and `m` of `Kd`, there with the
exponent `-(dt*Q_tau_m^delta_temp)/tau_m(V)`, which is the law at the step
`dt*Q_tau_m^delta_temp`.  At `x_inf = 0.5`, `tau_x = 10`, `x0 = 0`, `dt = 10` the law
gives `0.5*(1 - exp(-1))`, which is within 1e-4 of 0.3161. -/
theorem C12_gating_update_law (s : ChannelState) (V Ca dt delta_temp : ℝ) :
    (ACurrent.integrate s V Ca dt).m =
      gatingLaw (ACurrent.m_inf V) (ACurrent.tau_m V) s.m dt ∧
    (ACurrent.integrate s V Ca dt).h =
      gatingLaw (ACurrent.h_inf V) (ACurrent.tau_h V) s.h dt ∧
    (Kslow.integrate s V Ca dt).m = gatingLaw (Kslow.m_inf V) (Kslow.tau_m V) s.m dt ∧
    (KCaAB.integrate s V Ca dt).m =
      gatingLaw (KCaAB.m_inf V Ca) (KCaAB.tau_m V) s.m dt ∧
    (Kd.integrate s V Ca dt delta_temp).m =
      Kd.m_inf V + (s.m - Kd.m_inf V) *
        Real.exp (-(dt * s.Q_tau_m ^ delta_temp) / Kd.tau_m V) ∧
    (Kd.integrate s V Ca dt delta_temp).m =
      gatingLaw (Kd.m_inf V) (Kd.tau_m V) s.m (dt * s.Q_tau_m ^ delta_temp) ∧
    gatingLaw 0.5 10 0 10 = 0.5 * (1 - Real.exp (-1)) ∧
    |gatingLaw 0.5 10 0 10 - 0.3161| < 1e-4 := by
  have hw : gatingLaw 0.5 10 0 10 = 0.5 * (1 - Real.exp (-1)) := by
    unfold gatingLaw
    norm_num
    ring
  refine ⟨rfl, rfl, rfl, rfl, rfl, rfl, hw, ?_⟩
  rw [hw, abs_lt]
  obtain ⟨h1, h2⟩ := exp_neg_one_bounds
  constructor <;> norm_num <;> linarith

/-- One step of the update law multiplies the distance to the steady state by the decay
factor. -/
theorem gatingLaw_sub (x_inf tau x0 dt : ℝ) :
    gatingLaw x_inf tau x0 dt - x_inf = Real.exp (-dt / tau) * (x0 - x_inf) := by
  unfold gatingLaw
  ring

/-- The value after `n` steps of the update law, in closed form. -/
theorem gatingLaw_iterate (x_inf tau x0 dt : ℝ) (n : ℕ) :
    (fun x => gatingLaw x_inf tau x dt)^[n] x0 =
      x_inf + Real.exp (-dt / tau) ^ n * (x0 - x_inf) := by
  induction n with
  | zero => simp
  | succ k ih =>
    rw [Function.iterate_succ_apply', ih]
    unfold gatingLaw
    ring

/-- Repeated steps of the update law, with `dt > 0` and a positive time constant, follow
the convergence law. -/
theorem gatingLaw_convergence (x_inf tau x0 dt : ℝ) (htau : 0 < tau) (hdt : 0 < dt) :
    ConvergenceLaw (fun n => (fun x => gatingLaw x_inf tau x dt)^[n] x0) x_inf
      (Real.exp (-dt / tau)) := by
  have hr0 : 0 < Real.exp (-dt / tau) := Real.exp_pos _
  have hr1 := decay_lt_one dt tau hdt htau
  have hpow : ∀ n : ℕ, 0 < Real.exp (-dt / tau) ^ n := fun n => pow_pos hr0 n
  have hstep : ∀ n : ℕ, (fun x => gatingLaw x_inf tau x dt)^[n + 1] x0 - x_inf =
      Real.exp (-dt / tau) * ((fun x => gatingLaw x_inf tau x dt)^[n] x0 - x_inf) := by
    intro n
    rw [Function.iterate_succ_apply', gatingLaw_sub]
  have hd : ∀ n : ℕ, (fun x => gatingLaw x_inf tau x dt)^[n] x0 - x_inf =
      Real.exp (-dt / tau) ^ n * (x0 - x_inf) := by
    intro n
    rw [gatingLaw_iterate]
    ring
  refine ⟨⟨hr0, hr1⟩, hstep, ?_, ?_, ?_⟩
  · intro n
    have h1 := hstep n
    have h2 := hd n
    simp only [Function.iterate_zero, id_eq]
    constructor
    · intro hle
      have hn : (fun x => gatingLaw x_inf tau x dt)^[n] x0 - x_inf ≤ 0 := by
        rw [h2]
        exact mul_nonpos_of_nonneg_of_nonpos (le_of_lt (hpow n)) (by linarith)
      constructor <;> nlinarith
    · intro hle
      have hn : 0 ≤ (fun x => gatingLaw x_inf tau x dt)^[n] x0 - x_inf := by
        rw [h2]
        exact mul_nonneg (le_of_lt (hpow n)) (by linarith)
      constructor <;> nlinarith
  · intro hne n
    simp only [Function.iterate_zero, id_eq] at hne
    rw [hstep n, abs_mul, abs_of_pos hr0]
    have hpos : 0 < |(fun x => gatingLaw x_inf tau x dt)^[n] x0 - x_inf| := by
      rw [abs_pos, hd n]
      exact mul_ne_zero (ne_of_gt (hpow n)) (sub_ne_zero.mpr hne)
    nlinarith
  · have h := ((tendsto_pow_atTop_nhds_zero_of_lt_one (le_of_lt hr0) hr1).mul_const
      (x0 - x_inf)).const_add x_inf
    simp only [zero_mul, add_zero] at h
    refine h.congr ?_
    intro n
    rw [gatingLaw_iterate]

/-- One step of the update law tends to the steady state as `dt` grows without bound. -/
theorem gatingLaw_tendsto (x_inf tau x0 : ℝ) (htau : 0 < tau) :
    Filter.Tendsto (fun dt => gatingLaw x_inf tau x0 dt) Filter.atTop (nhds x_inf) := by
  have h1 : Filter.Tendsto (fun dt : ℝ => -dt / tau) Filter.atTop Filter.atBot :=
    Filter.Tendsto.atBot_div_const htau Filter.tendsto_neg_atTop_atBot
  have h2 := Real.tendsto_exp_atBot.comp h1
  have h3 := (h2.const_mul (x0 - x_inf)).const_add x_inf
  simp only [mul_zero, add_zero] at h3
  exact h3

/-- Repeated `ACurrent::integrate` at fixed arguments steps `m` by the update law. -/
theorem ACurrent_iterate_m (s : ChannelState) (V Ca dt : ℝ) (n : ℕ) :
    ((fun s => ACurrent.integrate s V Ca dt)^[n] s).m =
      (fun x => gatingLaw (ACurrent.m_inf V) (ACurrent.tau_m V) x dt)^[n] s.m := by
  induction n with
  | zero => rfl
  | succ k ih =>
    rw [Function.iterate_succ_apply', Function.iterate_succ_apply', ← ih]
    rfl

/-- Repeated `Kslow::integrate` at fixed arguments steps `m` by the update law. -/
theorem Kslow_iterate_m (s : ChannelState) (V Ca dt : ℝ) (n : ℕ) :
    ((fun s => Kslow.integrate s V Ca dt)^[n] s).m =
      (fun x => gatingLaw (Kslow.m_inf V) (Kslow.tau_m V) x dt)^[n] s.m := by
  induction n with
  | zero => rfl
  | succ k ih =>
    rw [Function.iterate_succ_apply', Function.iterate_succ_apply', ← ih]
    rfl

/-- Repeated `KCaAB::integrate` at fixed arguments steps `m` by the update law. -/
theorem KCaAB_iterate_m (s : ChannelState) (V Ca dt : ℝ) (n : ℕ) :
    ((fun s => KCaAB.integrate s V Ca dt)^[n] s).m =
      (fun x => gatingLaw (KCaAB.m_inf V Ca) (KCaAB.tau_m V) x dt)^[n] s.m := by
  induction n with
  | zero => rfl
  | succ k ih =>
    rw [Function.iterate_succ_apply', Function.iterate_succ_apply', ← ih]
    rfl

/-! ## Fixed point, convergence and ranges of the gating variables -/

/-- The update law leaves a variable that sits at its steady state where it is. -/
theorem gatingLaw_fixed (x_inf tau dt : ℝ) : gatingLaw x_inf tau x_inf dt = x_inf := by
  unfold gatingLaw
  ring

/-- C13: for every channel object, all `V`, `Ca` and every `dt >= 0`, a gating variable
that equals its steady state before `integrate` is unchanged after it: `m` and `h` of
`ACurrent`, `m` of `Kslow`, `m` of `Kd` (for a positive factor `Q_tau_m`, where `pow` is
the real power) and `m` of `KCaAB` (for `Ca ≠ -30`, where `m_inf` divides by
`Ca + 30`). -/
theorem C13_fixed_point (s : ChannelState) (V Ca dt delta_temp : ℝ) :
    0 ≤ dt →
    (s.m = ACurrent.m_inf V → (ACurrent.integrate s V Ca dt).m = s.m) ∧
    (s.h = ACurrent.h_inf V → (ACurrent.integrate s V Ca dt).h = s.h) ∧
    (s.m = Kslow.m_inf V → (Kslow.integrate s V Ca dt).m = s.m) ∧
    (0 < s.Q_tau_m → s.m = Kd.m_inf V → (Kd.integrate s V Ca dt delta_temp).m = s.m) ∧
    (Ca ≠ -30 → s.m = KCaAB.m_inf V Ca → (KCaAB.integrate s V Ca dt).m = s.m) := by
  intro _
  refine ⟨?_, ?_, ?_, ?_, ?_⟩
  · intro h
    show gatingLaw (ACurrent.m_inf V) (ACurrent.tau_m V) s.m dt = s.m
    rw [h, gatingLaw_fixed]
  · intro h
    show gatingLaw (ACurrent.h_inf V) (ACurrent.tau_h V) s.h dt = s.h
    rw [h, gatingLaw_fixed]
  · intro h
    show gatingLaw (Kslow.m_inf V) (Kslow.tau_m V) s.m dt = s.m
    rw [h, gatingLaw_fixed]
  · intro _ h
    show gatingLaw (Kd.m_inf V) (Kd.tau_m V) s.m (dt * s.Q_tau_m ^ delta_temp) = s.m
    rw [h, gatingLaw_fixed]
  · intro _ h
    show gatingLaw (KCaAB.m_inf V Ca) (KCaAB.tau_m V) s.m dt = s.m
    rw [h, gatingLaw_fixed]

/-- C13 on an `ACurrent` whose `m` is `m_inf(-50)`, integrated at `V = -50` with
`dt = 1`. -/
theorem C13_fixed_point_witness :
    (ACurrent.integrate { zeroChannel with m := ACurrent.m_inf (-50) } (-50) 0 1).m =
      ACurrent.m_inf (-50) :=
  (C13_fixed_point { zeroChannel with m := ACurrent.m_inf (-50) } (-50) 0 1 0
    zero_le_one).1 rfl

/-- The convergence law in exact arithmetic: for every channel object, fixed `V` and `Ca`
and fixed `dt > 0`, the values of `m` under repeated exact `integrate` calls of
`ACurrent`, of `Kslow` and of `KCaAB` (for `Ca ≠ -30`) follow the convergence law with
steady state `m_inf(V)` and factor `exp(-dt/tau_m(V))`: the factor is in (0,1), each
step multiplies `m - m_inf(V)` by it, `m` stays on its side of `m_inf(V)` and moves
towards it, the distance shrinks strictly unless `m` starts at `m_inf(V)`, and the
sequence converges to `m_inf(V)`.  And for a single step, the new `m` tends to
`m_inf(V)` as `dt` tends to infinity. -/
theorem convergence_exact (s : ChannelState) (V Ca dt : ℝ) (hdt : 0 < dt) :
    ConvergenceLaw (fun n => ((fun s => ACurrent.integrate s V Ca dt)^[n] s).m)
      (ACurrent.m_inf V) (Real.exp (-dt / ACurrent.tau_m V)) ∧
    Filter.Tendsto (fun dt => (ACurrent.integrate s V Ca dt).m) Filter.atTop
      (nhds (ACurrent.m_inf V)) ∧
    ConvergenceLaw (fun n => ((fun s => Kslow.integrate s V Ca dt)^[n] s).m)
      (Kslow.m_inf V) (Real.exp (-dt / Kslow.tau_m V)) ∧
    Filter.Tendsto (fun dt => (Kslow.integrate s V Ca dt).m) Filter.atTop
      (nhds (Kslow.m_inf V)) ∧
    (Ca ≠ -30 →
      ConvergenceLaw (fun n => ((fun s => KCaAB.integrate s V Ca dt)^[n] s).m)
        (KCaAB.m_inf V Ca) (Real.exp (-dt / KCaAB.tau_m V)) ∧
      Filter.Tendsto (fun dt => (KCaAB.integrate s V Ca dt).m) Filter.atTop
        (nhds (KCaAB.m_inf V Ca))) := by
  refine ⟨?_, ?_, ?_, ?_, fun _ => ⟨?_, ?_⟩⟩
  · simp only [ACurrent_iterate_m]
    exact gatingLaw_convergence _ _ _ _ (ACurrent_tau_m_pos V) hdt
  · exact gatingLaw_tendsto _ _ _ (ACurrent_tau_m_pos V)
  · simp only [Kslow_iterate_m]
    exact gatingLaw_convergence _ _ _ _ (Kslow_tau_m_pos V) hdt
  · exact gatingLaw_tendsto _ _ _ (Kslow_tau_m_pos V)
  · simp only [KCaAB_iterate_m]
    exact gatingLaw_convergence _ _ _ _ (KCaAB_tau_m_pos V) hdt
  · exact gatingLaw_tendsto _ _ _ (KCaAB_tau_m_pos V)

/-- C15: for every real `V`, the time constants `ACurrent::tau_m`, `ACurrent::tau_h`,
`Kd::tau_m`, `Kslow::tau_m` and `KCaAB::tau_m` are strictly positive, so that for every
`dt >= 0` the decay factor `exp(-dt/tau)` of `integrate` lies in (0, 1]; for `Kd`, whose
exponent carries the factor `q = Q_tau_m^delta_temp`, this holds for `q >= 0`. -/
theorem C15_time_constants_positive (V : ℝ) :
    (0 < ACurrent.tau_m V ∧ 0 < ACurrent.tau_h V ∧ 0 < Kd.tau_m V ∧
      0 < Kslow.tau_m V ∧ 0 < KCaAB.tau_m V) ∧
    (∀ dt, 0 ≤ dt →
      (0 < Real.exp (-dt / ACurrent.tau_m V) ∧ Real.exp (-dt / ACurrent.tau_m V) ≤ 1) ∧
      (0 < Real.exp (-dt / ACurrent.tau_h V) ∧ Real.exp (-dt / ACurrent.tau_h V) ≤ 1) ∧
      (0 < Real.exp (-dt / Kslow.tau_m V) ∧ Real.exp (-dt / Kslow.tau_m V) ≤ 1) ∧
      (0 < Real.exp (-dt / KCaAB.tau_m V) ∧ Real.exp (-dt / KCaAB.tau_m V) ≤ 1) ∧
      (∀ q, 0 ≤ q →
        0 < Real.exp (-(dt * q) / Kd.tau_m V) ∧ Real.exp (-(dt * q) / Kd.tau_m V) ≤ 1)) :=
  ⟨⟨ACurrent_tau_m_pos V, ACurrent_tau_h_pos V, Kd_tau_m_pos V, Kslow_tau_m_pos V,
      KCaAB_tau_m_pos V⟩,
    fun dt hdt => ⟨decay_mem dt _ hdt (ACurrent_tau_m_pos V),
      decay_mem dt _ hdt (ACurrent_tau_h_pos V), decay_mem dt _ hdt (Kslow_tau_m_pos V),
      decay_mem dt _ hdt (KCaAB_tau_m_pos V),
      fun q hq => decay_mem (dt * q) _ (mul_nonneg hdt hq) (Kd_tau_m_pos V)⟩⟩

/-- C15 at `V = 0` and `dt = 1` for the activation of `ACurrent`. -/
theorem C15_time_constants_positive_witness :
    0 < Real.exp (-1 / ACurrent.tau_m 0) ∧ Real.exp (-1 / ACurrent.tau_m 0) ≤ 1 :=
  ((C15_time_constants_positive 0).2 1 zero_le_one).1

/-- The calcium factor `Ca/(Ca+30)` is at least 0 and below 1 for `Ca >= 0`. -/
theorem calcium_factor_mem (Ca : ℝ) (hCa : 0 ≤ Ca) :
    0 ≤ Ca / (Ca + 30) ∧ Ca / (Ca + 30) < 1 := by
  have h30 : 0 < Ca + 30 := by linarith
  constructor
  · exact div_nonneg hCa (le_of_lt h30)
  · rw [div_lt_one h30]
    linarith

/-- The steady state `KCaAB::m_inf` is at least 0 and below 1 for `Ca >= 0`. -/
theorem KCaAB.m_inf_range (V Ca : ℝ) (hCa : 0 ≤ Ca) :
    0 ≤ KCaAB.m_inf V Ca ∧ KCaAB.m_inf V Ca < 1 := by
  have he := Real.exp_pos (-(V + 51.0) / 4)
  have hden : 0 < 1.0 + Real.exp (-(V + 51.0) / 4) := by positivity
  have hone : (1.0 : ℝ) = 1 := by norm_num
  obtain ⟨hc0, hc1⟩ := calcium_factor_mem Ca hCa
  unfold KCaAB.m_inf
  refine ⟨div_nonneg hc0 (le_of_lt hden), ?_⟩
  rw [div_lt_one hden, hone]
  linarith

/-- No sequence of `Kd::integrate` calls changes `h`. -/
theorem Kd_foldl_h (args : List (ℝ × ℝ × ℝ × ℝ)) :
    ∀ s : ChannelState,
      (args.foldl (fun s a => Kd.integrate s a.1 a.2.1 a.2.2.1 a.2.2.2) s).h = s.h := by
  induction args with
  | nil => intro s; rfl
  | cons a rest ih =>
    intro s
    rw [List.foldl_cons, ih]
    rfl

/-- No sequence of `Kslow::integrate` calls changes `h`. -/
theorem Kslow_foldl_h (args : List (ℝ × ℝ × ℝ)) :
    ∀ s : ChannelState,
      (args.foldl (fun s a => Kslow.integrate s a.1 a.2.1 a.2.2) s).h = s.h := by
  induction args with
  | nil => intro s; rfl
  | cons a rest ih =>
    intro s
    rw [List.foldl_cons, ih]
    rfl

/-- No sequence of `KCaAB::integrate` calls changes `h`. -/
theorem KCaAB_foldl_h (args : List (ℝ × ℝ × ℝ)) :
    ∀ s : ChannelState,
      (args.foldl (fun s a => KCaAB.integrate s a.1 a.2.1 a.2.2) s).h = s.h := by
  induction args with
  | nil => intro s; rfl
  | cons a rest ih =>
    intro s
    rw [List.foldl_cons, ih]
    rfl

/-- C18: after `integrate`, `g` equals `gbar * m^3 * h^1` for `ACurrent`,
`gbar * m^4 * h^0` for `Kslow` and for `KCaAB`, and `Q_g^delta_temp * gbar * m^4` for
`Kd`, with the values of `m` and `h` that the call has just set and the unchanged
`gbar` and `Q_g`.  And the constructors of `Kd`, `Kslow` and `KCaAB` set `h = 1`
whatever `h_` they are given, and `h` is still 1 after every sequence of `integrate`
calls, each with its own arguments. -/
theorem C18_conductance_formula (s base : ChannelState) (V Ca dt delta_temp : ℝ)
    (g_ E_ m_ h_ Q_g_ Q_tau_m_ Q_tau_h_ : ℝ)
    (steps : List (ℝ × ℝ × ℝ)) (stepsT : List (ℝ × ℝ × ℝ × ℝ)) :
    ((ACurrent.integrate s V Ca dt).g =
        s.gbar * (ACurrent.integrate s V Ca dt).m ^ 3 * (ACurrent.integrate s V Ca dt).h ^ 1 ∧
      (Kslow.integrate s V Ca dt).g =
        s.gbar * (Kslow.integrate s V Ca dt).m ^ 4 * (Kslow.integrate s V Ca dt).h ^ 0 ∧
      (KCaAB.integrate s V Ca dt).g =
        s.gbar * (KCaAB.integrate s V Ca dt).m ^ 4 * (KCaAB.integrate s V Ca dt).h ^ 0 ∧
      (Kd.integrate s V Ca dt delta_temp).g =
        s.Q_g ^ delta_temp * s.gbar * (Kd.integrate s V Ca dt delta_temp).m ^ 4) ∧
    ((ACurrent.integrate s V Ca dt).gbar = s.gbar ∧
      (Kslow.integrate s V Ca dt).gbar = s.gbar ∧
      (KCaAB.integrate s V Ca dt).gbar = s.gbar ∧
      (Kd.integrate s V Ca dt delta_temp).gbar = s.gbar ∧
      (Kd.integrate s V Ca dt delta_temp).Q_g = s.Q_g) ∧
    ((Kd.construct base g_ E_ m_ h_ Q_g_ Q_tau_m_ Q_tau_h_).h = 1 ∧
      (Kslow.construct base g_ E_ m_ h_).h = 1 ∧
      (KCaAB.construct base g_ E_ m_ h_).h = 1 ∧
      (KCaAB.construct3 base g_ E_ m_).h = 1) ∧
    ((stepsT.foldl (fun s a => Kd.integrate s a.1 a.2.1 a.2.2.1 a.2.2.2)
        (Kd.construct base g_ E_ m_ h_ Q_g_ Q_tau_m_ Q_tau_h_)).h = 1 ∧
      (steps.foldl (fun s a => Kslow.integrate s a.1 a.2.1 a.2.2)
        (Kslow.construct base g_ E_ m_ h_)).h = 1 ∧
      (steps.foldl (fun s a => KCaAB.integrate s a.1 a.2.1 a.2.2)
        (KCaAB.construct base g_ E_ m_ h_)).h = 1 ∧
      (steps.foldl (fun s a => KCaAB.integrate s a.1 a.2.1 a.2.2)
        (KCaAB.construct3 base g_ E_ m_)).h = 1) := by
  refine ⟨⟨?_, ?_, ?_, ?_⟩, ⟨rfl, rfl, rfl, rfl, rfl⟩, ⟨rfl, rfl, rfl, rfl⟩,
    ⟨?_, ?_, ?_, ?_⟩⟩
  · simp only [ACurrent.integrate]; ring
  · simp only [Kslow.integrate]; ring
  · simp only [KCaAB.integrate]; ring
  · simp only [Kd.integrate]; ring
  · rw [Kd_foldl_h]; rfl
  · rw [Kslow_foldl_h]; rfl
  · rw [KCaAB_foldl_h]; rfl
  · rw [KCaAB_foldl_h]; rfl

/-- A step `dt >= 0` of the update law over a positive time constant keeps a variable in
the unit interval when the steady state is in it. -/
theorem gatingLaw_unit (x_inf tau x0 dt : ℝ) (htau : 0 < tau) (hdt : 0 ≤ dt)
    (hinf : 0 ≤ x_inf ∧ x_inf ≤ 1) (hx : 0 ≤ x0 ∧ x0 ≤ 1) :
    0 ≤ gatingLaw x_inf tau x0 dt ∧ gatingLaw x_inf tau x0 dt ≤ 1 := by
  obtain ⟨hr0, hr1⟩ := decay_mem dt tau hdt htau
  obtain ⟨h1, h2⟩ := hinf
  obtain ⟨h3, h4⟩ := hx
  unfold gatingLaw
  constructor <;> nlinarith

/-- With gating factors in the unit interval and `gbar >= 0`, the conductance
`gbar * a * b * c * d` lies between 0 and `gbar`. -/
theorem conductance_bounds (gbar a b c d : ℝ) (hg : 0 ≤ gbar)
    (ha : 0 ≤ a ∧ a ≤ 1) (hb : 0 ≤ b ∧ b ≤ 1) (hc : 0 ≤ c ∧ c ≤ 1) (hd : 0 ≤ d ∧ d ≤ 1) :
    0 ≤ gbar * a * b * c * d ∧ gbar * a * b * c * d ≤ gbar := by
  have h1 : 0 ≤ gbar * a ∧ gbar * a ≤ gbar :=
    ⟨mul_nonneg hg ha.1, mul_le_of_le_one_right hg ha.2⟩
  have h2 : 0 ≤ gbar * a * b ∧ gbar * a * b ≤ gbar :=
    ⟨mul_nonneg h1.1 hb.1, (mul_le_of_le_one_right h1.1 hb.2).trans h1.2⟩
  have h3 : 0 ≤ gbar * a * b * c ∧ gbar * a * b * c ≤ gbar :=
    ⟨mul_nonneg h2.1 hc.1, (mul_le_of_le_one_right h2.1 hc.2).trans h2.2⟩
  exact ⟨mul_nonneg h3.1 hd.1, (mul_le_of_le_one_right h3.1 hd.2).trans h3.2⟩

/-- C19: for every real `V`, every `dt >= 0` and a channel object with `m` in [0,1],
`integrate` leaves `m` in [0,1] for `ACurrent` (and `h` in [0,1], when it was there),
for `Kslow` and for `KCaAB` with `Ca >= 0`; and with `gbar >= 0` the conductance it
computes satisfies `0 <= g <= gbar`. -/
theorem C19_unit_interval (s : ChannelState) (V Ca dt : ℝ) (hdt : 0 ≤ dt)
    (hm : 0 ≤ s.m ∧ s.m ≤ 1) :
    (0 ≤ s.h ∧ s.h ≤ 1 →
      (0 ≤ (ACurrent.integrate s V Ca dt).m ∧ (ACurrent.integrate s V Ca dt).m ≤ 1) ∧
      (0 ≤ (ACurrent.integrate s V Ca dt).h ∧ (ACurrent.integrate s V Ca dt).h ≤ 1) ∧
      (0 ≤ s.gbar →
        0 ≤ (ACurrent.integrate s V Ca dt).g ∧
        (ACurrent.integrate s V Ca dt).g ≤ (ACurrent.integrate s V Ca dt).gbar)) ∧
    ((0 ≤ (Kslow.integrate s V Ca dt).m ∧ (Kslow.integrate s V Ca dt).m ≤ 1) ∧
      (0 ≤ s.gbar →
        0 ≤ (Kslow.integrate s V Ca dt).g ∧
        (Kslow.integrate s V Ca dt).g ≤ (Kslow.integrate s V Ca dt).gbar)) ∧
    (0 ≤ Ca →
      (0 ≤ (KCaAB.integrate s V Ca dt).m ∧ (KCaAB.integrate s V Ca dt).m ≤ 1) ∧
      (0 ≤ s.gbar →
        0 ≤ (KCaAB.integrate s V Ca dt).g ∧
        (KCaAB.integrate s V Ca dt).g ≤ (KCaAB.integrate s V Ca dt).gbar)) := by
  have hA := gatingLaw_unit (ACurrent.m_inf V) (ACurrent.tau_m V) s.m dt
    (ACurrent_tau_m_pos V) hdt
    ⟨le_of_lt (logistic_mem _).1, le_of_lt (logistic_mem _).2⟩ hm
  have hK := gatingLaw_unit (Kslow.m_inf V) (Kslow.tau_m V) s.m dt
    (Kslow_tau_m_pos V) hdt
    ⟨le_of_lt (logistic_mem _).1, le_of_lt (logistic_mem _).2⟩ hm
  refine ⟨?_, ⟨hK, ?_⟩, ?_⟩
  · intro hh
    have hH := gatingLaw_unit (ACurrent.h_inf V) (ACurrent.tau_h V) s.h dt
      (ACurrent_tau_h_pos V) hdt
      ⟨le_of_lt (logistic_mem _).1, le_of_lt (logistic_mem _).2⟩ hh
    exact ⟨hA, hH, fun hg => conductance_bounds s.gbar _ _ _ _ hg hA hA hA hH⟩
  · intro hg
    exact conductance_bounds s.gbar _ _ _ _ hg hK hK hK hK
  · intro hCa
    obtain ⟨h0, h1⟩ := KCaAB.m_inf_range V Ca hCa
    have hC := gatingLaw_unit (KCaAB.m_inf V Ca) (KCaAB.tau_m V) s.m dt
      (KCaAB_tau_m_pos V) hdt ⟨h0, le_of_lt h1⟩ hm
    exact ⟨hC, fun hg => conductance_bounds s.gbar _ _ _ _ hg hC hC hC hC⟩

/-- C19 on a `Kslow` with `m = 1` and `gbar = 2`, integrated at `V = 0` with
`dt = 1`. -/
theorem C19_unit_interval_witness :
    0 ≤ (Kslow.integrate { zeroChannel with m := 1, gbar := 2 } 0 0 1).m ∧
    (Kslow.integrate { zeroChannel with m := 1, gbar := 2 } 0 0 1).m ≤ 1 ∧
    0 ≤ (Kslow.integrate { zeroChannel with m := 1, gbar := 2 } 0 0 1).g ∧
    (Kslow.integrate { zeroChannel with m := 1, gbar := 2 } 0 0 1).g ≤ 2 := by
  have h := (C19_unit_interval { zeroChannel with m := 1, gbar := 2 } 0 0 1 zero_le_one
    ⟨zero_le_one, le_refl 1⟩).2.1
  exact ⟨h.1.1, h.1.2, (h.2 (by norm_num [zeroChannel])).1, (h.2 (by norm_num [zeroChannel])).2⟩

/-! ## The clamp of `gbar` -/

/-- A finite step `0 <= dt <= tau` over a positive time constant, finite or infinite, is
a finite fraction between 0 and 1. -/
theorem Dbl.div_le_tau (dt : ℚ) (tau : Dbl) (hdt : 0 ≤ dt)
    (htau : Dbl.lt (Dbl.fin 0) tau = true) (hle : Dbl.le (Dbl.fin dt) tau = true) :
    ∃ k : ℚ, Dbl.fin dt / tau = Dbl.fin k ∧ 0 ≤ k ∧ k ≤ 1 := by
  cases tau with
  | nan => simp [Dbl.lt] at htau
  | ninf => simp [Dbl.lt] at htau
  | pinf => exact ⟨0, rfl, le_refl 0, zero_le_one⟩
  | fin t =>
    have ht : 0 < t := by simpa using htau
    have hdtt : dt ≤ t := by simpa using hle
    exact ⟨dt / t, Dbl.fin_div_fin _ _ (ne_of_gt ht), div_nonneg hdt (le_of_lt ht),
      (div_le_one ht).mpr hdtt⟩

/-- The clamp in exact arithmetic.  Take a controller bound to a Channel with a finite
`Target`, finite `m`, `Ca_prev` and `dt`, a finite quotient `dt/tau_m`, `gbar >= 0`,
`container_A > 0`, `tau_g > 0` (finite or infinite) and `0 <= dt <= tau_g`.  Then the
exact `integrate` returns normally with `m' = max(0, m + (dt/tau_m)*(Target - Ca_prev))`;
the quotient `k = dt/tau_g` is in [0,1]; the test `gbar + gdot/container_A < 0` is false,
so the clamp to zero is not taken; and `gbar' = (1 - k)*gbar + k*(m'/container_A)`, which
lies between the old `gbar` and `m'/container_A`. -/
theorem clamp_unreachable_exact (c : IntegralController) (w : World) (ch : Nat)
    (m gbar A T Ca dt dt_over_tau_m : ℚ)
    (hct : c.control_type = 1) (hch : c.channel = some ch)
    (hT : c.Target = Dbl.fin T) (hm : c.m = Dbl.fin m) (hdt : c.dt = Dbl.fin dt)
    (hrm : Dbl.fin dt / c.tau_m = Dbl.fin dt_over_tau_m)
    (hA : c.container_A = Dbl.fin A) (hA0 : 0 < A)
    (hg : (w.cond ch).gbar = Dbl.fin gbar) (hg0 : 0 ≤ gbar)
    (hCa : (w.comp (w.cond ch).container).Ca_prev = Dbl.fin Ca)
    (htg : Dbl.lt (Dbl.fin 0) c.tau_g = true) (hdt0 : 0 ≤ dt)
    (hdtle : Dbl.le (Dbl.fin dt) c.tau_g = true) :
    ∃ c1 w1 m1 k, c.integrate w = Except.ok (c1, w1) ∧
      c1.m = Dbl.fin m1 ∧ m1 = max 0 (m + dt_over_tau_m * (T - Ca)) ∧
      Dbl.fin dt / c.tau_g = Dbl.fin k ∧ 0 ≤ k ∧ k ≤ 1 ∧
      Dbl.lt ((w.cond ch).gbar +
        (c.dt / c.tau_g) * (c1.m - (w.cond ch).gbar * c.container_A) / c.container_A)
        (Dbl.fin 0) = false ∧
      (w1.cond ch).gbar = Dbl.fin ((1 - k) * gbar + k * (m1 / A)) ∧
      min gbar (m1 / A) ≤ (1 - k) * gbar + k * (m1 / A) ∧
      (1 - k) * gbar + k * (m1 / A) ≤ max gbar (m1 / A) := by
  obtain ⟨k, hk, hk0, hk1⟩ := Dbl.div_le_tau dt c.tau_g hdt0 htg hdtle
  have hnan : c.Target.isnan = false := by rw [hT]; rfl
  have hA' : A ≠ 0 := ne_of_gt hA0
  have hm1 : 0 ≤ max 0 (m + dt_over_tau_m * (T - Ca)) := le_max_left _ _
  have hq : 0 ≤ max 0 (m + dt_over_tau_m * (T - Ca)) / A := div_nonneg hm1 (le_of_lt hA0)
  have hval : gbar + k * (max 0 (m + dt_over_tau_m * (T - Ca)) - gbar * A) / A =
      (1 - k) * gbar + k * (max 0 (m + dt_over_tau_m * (T - Ca)) / A) := by
    field_simp
    ring
  have hnonneg : 0 ≤ (1 - k) * gbar + k * (max 0 (m + dt_over_tau_m * (T - Ca)) / A) :=
    add_nonneg (mul_nonneg (by linarith) hg0) (mul_nonneg hk0 hq)
  have hmnew : (if Dbl.lt (c.m + (c.dt / c.tau_m) *
        (c.Target - (w.comp (w.cond ch).container).Ca_prev)) (Dbl.fin 0) = true
      then Dbl.fin 0
      else c.m + (c.dt / c.tau_m) * (c.Target - (w.comp (w.cond ch).container).Ca_prev)) =
      Dbl.fin (max 0 (m + dt_over_tau_m * (T - Ca))) := by
    simp only [hm, hdt, hrm, hCa, hT, Dbl.fin_mul_fin, Dbl.fin_add_fin, Dbl.fin_sub_fin,
      Dbl.clamp_fin]
  refine ⟨_, _, max 0 (m + dt_over_tau_m * (T - Ca)), k,
    integrate_channel c w ch hct hch hnan, hmnew, rfl, hk, hk0, hk1, ?_, ?_, ?_, ?_⟩
  · simp only [hmnew]
    simp only [hdt, hk, hg, hA, Dbl.fin_mul_fin, Dbl.fin_add_fin, Dbl.fin_sub_fin,
      Dbl.fin_div_fin _ _ hA', Dbl.lt_fin_fin, hval]
    simpa using hnonneg
  · simp only [World.setGbar, Function.update_same, hmnew]
    simp only [hdt, hk, hg, hA,
      Dbl.fin_mul_fin, Dbl.fin_add_fin, Dbl.fin_sub_fin, Dbl.fin_div_fin _ _ hA',
      Dbl.clamp_fin, hval, max_eq_right hnonneg]
  · rcases le_total gbar (max 0 (m + dt_over_tau_m * (T - Ca)) / A) with h | h
    · rw [min_eq_left h]; nlinarith
    · rw [min_eq_right h]; nlinarith
  · rcases le_total gbar (max 0 (m + dt_over_tau_m * (T - Ca)) / A) with h | h
    · rw [max_eq_right h]; nlinarith
    · rw [max_eq_left h]; nlinarith

/-! ## Rounding to the nearest double -/

section
variable {α : Type} [LinearOrderedField α] [FloorRing α]

/-- The rounding of a number is its floor or the integer after it. -/
theorem roundEven_mem (y : α) : roundEven y = ⌊y⌋ ∨ roundEven y = ⌊y⌋ + 1 := by
  unfold roundEven
  split
  · exact Or.inl rfl
  · split
    · exact Or.inr rfl
    · split
      · exact Or.inl rfl
      · exact Or.inr rfl

/-- An integer below a number is below its rounding. -/
theorem le_roundEven (y : α) (n : ℤ) (h : (n : α) ≤ y) : n ≤ roundEven y := by
  have hf : n ≤ ⌊y⌋ := Int.le_floor.mpr h
  rcases roundEven_mem y with h1 | h1 <;> rw [h1] <;> omega

/-- An integer above a number is above its rounding. -/
theorem roundEven_le (y : α) (n : ℤ) (h : y ≤ (n : α)) : roundEven y ≤ n := by
  by_cases hfr : Int.fract y = 0
  · have h0 : roundEven y = ⌊y⌋ := by
      unfold roundEven
      rw [hfr, if_pos (by norm_num)]
    rw [h0]
    have : (⌊y⌋ : α) ≤ n := le_trans (Int.floor_le y) h
    exact_mod_cast this
  · have hlt : (⌊y⌋ : α) < y := by
      have := Int.fract_nonneg y
      have hpos : 0 < Int.fract y := lt_of_le_of_ne this (Ne.symm hfr)
      have := Int.floor_add_fract y
      linarith
    have h2 : (⌊y⌋ : α) < n := lt_of_lt_of_le hlt h
    have h3 : ⌊y⌋ < n := by exact_mod_cast h2
    rcases roundEven_mem y with h1 | h1 <;> rw [h1] <;> omega

/-- A number closer than one half to an integer rounds to it. -/
theorem roundEven_eq (y : α) (k : ℤ) (h : |y - k| < 1 / 2) : roundEven y = k := by
  rw [abs_lt] at h
  obtain ⟨h1, h2⟩ := h
  have hfl := Int.floor_add_fract y
  have hf0 := Int.fract_nonneg y
  have hf1 := Int.fract_lt_one y
  by_cases hk : (k : α) ≤ y
  · have hfloor : ⌊y⌋ = k := by
      rw [Int.floor_eq_iff]
      constructor
      · exact hk
      · linarith
    have hfr : Int.fract y < 1 / 2 := by
      have : Int.fract y = y - k := by
        rw [← hfloor]; rfl
      rw [this]; linarith
    unfold roundEven
    rw [if_pos hfr, hfloor]
  · push_neg at hk
    have hfloor : ⌊y⌋ = k - 1 := by
      rw [Int.floor_eq_iff]
      push_cast
      constructor <;> linarith
    have hfr : 1 / 2 < Int.fract y := by
      have : Int.fract y = y - (k - 1 : ℤ) := by
        rw [← hfloor]; rfl
      rw [this]; push_cast; linarith
    unfold roundEven
    rw [if_neg (not_lt.mpr (le_of_lt hfr)), if_pos hfr, hfloor]
    ring

/-- Rounding to the nearest integer is odd. -/
theorem roundEven_neg (y : α) : roundEven (-y) = -roundEven y := by
  by_cases hfr : Int.fract y = 0
  · have hy : y = (⌊y⌋ : α) := by
      have := Int.floor_add_fract y
      rw [hfr, add_zero] at this
      exact this.symm
    have h1 : roundEven y = ⌊y⌋ := roundEven_eq y ⌊y⌋ (by rw [← hy]; simp)
    have h2 : roundEven (-y) = -⌊y⌋ := roundEven_eq (-y) (-⌊y⌋) (by
      push_cast; rw [← hy]; simp)
    rw [h1, h2]
  · have hfneg : Int.fract (-y) = 1 - Int.fract y := Int.fract_neg hfr
    have hflneg : ⌊-y⌋ = -⌊y⌋ - 1 := by
      have h1 := Int.floor_add_fract y
      have h2 := Int.floor_add_fract (-y)
      rw [hfneg] at h2
      have h3 : ((⌊-y⌋ : ℤ) : α) = ((-⌊y⌋ - 1 : ℤ) : α) := by
        push_cast; linarith
      exact_mod_cast h3
    unfold roundEven
    rw [hfneg, hflneg]
    have hf0 := Int.fract_nonneg y
    rcases lt_trichotomy (Int.fract y) (1 / 2) with h | h | h
    · have a1 : ¬ (1 - Int.fract y < 1 / 2) := by linarith
      have a2 : 1 / 2 < 1 - Int.fract y := by linarith
      rw [if_neg a1, if_pos a2, if_pos h]
      ring
    · rw [h]
      have e1 : ¬ ((1:α) / 2 < 1 / 2) := lt_irrefl _
      have e2 : (1:α) - 1 / 2 = 1 / 2 := by ring
      rw [e2]
      simp only [e1, if_false]
      by_cases hev : Even ⌊y⌋
      · have hodd : ¬ Even (-⌊y⌋ - 1) := by
          rw [Int.even_sub_one, even_neg]
          exact not_not.mpr hev
        rw [if_pos hev, if_neg hodd]
        ring
      · have hev' : Even (-⌊y⌋ - 1) := by
          rw [Int.even_sub_one, even_neg]
          exact hev
        rw [if_neg hev, if_pos hev']
        ring
    · have a1 : 1 - Int.fract y < 1 / 2 := by linarith
      have a2 : ¬ (Int.fract y < 1 / 2) := by linarith
      rw [if_pos a1, if_neg a2, if_pos h]
      ring

/-- The binary exponent of a positive number that lies in the binade of `e`. -/
theorem log_two_eq (a : α) (e : ℤ) (hlo : (2 : α) ^ e ≤ a) (hhi : a < (2 : α) ^ (e + 1)) :
    Int.log 2 a = e := by
  have hpos : 0 < a := lt_of_lt_of_le (zpow_pos (by norm_num) e) hlo
  have h1 : e ≤ Int.log 2 a := by
    rw [← Int.zpow_le_iff_le_log (by norm_num) hpos]
    exact_mod_cast hlo
  have h2 : Int.log 2 a < e + 1 := by
    rw [← Int.lt_zpow_iff_log_lt (by norm_num) hpos]
    exact_mod_cast hhi
  omega

/-- The bounds of the binade of a positive number. -/
theorem log_two_bounds (a : α) (ha : 0 < a) :
    (2 : α) ^ Int.log 2 a ≤ a ∧ a < (2 : α) ^ (Int.log 2 a + 1) := by
  have h1 := Int.zpow_log_le_self (b := 2) (by norm_num) ha
  have h2 := Int.lt_zpow_succ_log_self (b := 2) (by norm_num) a
  exact ⟨by exact_mod_cast h1, by exact_mod_cast h2⟩

/-- Zero is a double. -/
theorem round53_zero : round53 (0 : α) = 0 := by
  unfold round53
  simp

/-- Rounding to the nearest double is odd. -/
theorem round53_neg (x : α) : round53 (-x) = -round53 x := by
  unfold round53
  by_cases hx : x = 0
  · simp [hx]
  · rw [if_neg hx, if_neg (neg_ne_zero.mpr hx), abs_neg, neg_mul, roundEven_neg]
    push_cast
    ring

/-- A number in the binade of `e` whose scaled significand is closer than one half to the
integer `k` rounds to `k * 2^(e-52)`. -/
theorem round53_eq (x : α) (k e : ℤ) (hlo : (2 : α) ^ e ≤ |x|)
    (hhi : |x| < (2 : α) ^ (e + 1)) (hclose : |x * (2 : α) ^ (52 - e) - k| < 1 / 2) :
    round53 x = (k : α) * (2 : α) ^ (e - 52) := by
  have hlog := log_two_eq |x| e hlo hhi
  have hx : x ≠ 0 := by
    intro h
    rw [h, abs_zero] at hlo
    exact absurd hlo (not_le.mpr (zpow_pos (by norm_num) e))
  unfold round53
  rw [if_neg hx, hlog, roundEven_eq _ k hclose]

/-- A non-negative number rounds to a non-negative double. -/
theorem round53_nonneg (y : α) (hy : 0 ≤ y) : 0 ≤ round53 y := by
  unfold round53
  split
  · exact le_refl 0
  · apply mul_nonneg
    · have : (0 : ℤ) ≤ roundEven (y * (2 : α) ^ (52 - Int.log 2 |y|)) := by
        apply le_roundEven
        push_cast
        exact mul_nonneg hy (le_of_lt (zpow_pos (by norm_num) _))
      exact_mod_cast this
    · exact le_of_lt (zpow_pos (by norm_num) _)

/-- A number at least a power of two rounds to a double at least that power. -/
theorem zpow_le_round53 (y : α) (k : ℤ) (hy : (2 : α) ^ k ≤ y) : (2 : α) ^ k ≤ round53 y := by
  have hpos : 0 < y := lt_of_lt_of_le (zpow_pos (by norm_num) k) hy
  have hne : y ≠ 0 := ne_of_gt hpos
  obtain ⟨hlo, _⟩ := log_two_bounds y hpos
  have hke : k ≤ Int.log 2 y := by
    rw [← Int.zpow_le_iff_le_log (by norm_num) hpos]
    exact_mod_cast hy
  unfold round53
  rw [if_neg hne, abs_of_pos hpos]
  have h52 : ((2 : ℤ) ^ 52 : ℤ) ≤ roundEven (y * (2 : α) ^ (52 - Int.log 2 y)) := by
    apply le_roundEven
    rw [show (((2 : ℤ) ^ 52 : ℤ) : α) = (2 : α) ^ (52 : ℤ) by norm_cast]
    calc (2 : α) ^ (52 : ℤ) = (2 : α) ^ Int.log 2 y * (2 : α) ^ (52 - Int.log 2 y) := by
          rw [← zpow_add₀ (by norm_num)]
          congr 1
          ring
      _ ≤ y * (2 : α) ^ (52 - Int.log 2 y) :=
          mul_le_mul_of_nonneg_right hlo (le_of_lt (zpow_pos (by norm_num) _))
  have h52' : (2 : α) ^ (52 : ℤ) ≤ (roundEven (y * (2 : α) ^ (52 - Int.log 2 y)) : α) := by
    have : (((2 : ℤ) ^ 52 : ℤ) : α) ≤ (roundEven (y * (2 : α) ^ (52 - Int.log 2 y)) : α) := by
      exact_mod_cast h52
    rwa [show (((2 : ℤ) ^ 52 : ℤ) : α) = (2 : α) ^ (52 : ℤ) by norm_cast] at this
  calc (2 : α) ^ k ≤ (2 : α) ^ Int.log 2 y := zpow_le_zpow_right₀ (by norm_num) hke
    _ = (2 : α) ^ (52 : ℤ) * (2 : α) ^ (Int.log 2 y - 52) := by
        rw [← zpow_add₀ (by norm_num)]
        congr 1
        ring
    _ ≤ _ := mul_le_mul_of_nonneg_right h52' (le_of_lt (zpow_pos (by norm_num) _))

/-- A non-negative number at most a power of two rounds to a double at most that power. -/
theorem round53_le_zpow (y : α) (k : ℤ) (h0 : 0 ≤ y) (hy : y ≤ (2 : α) ^ k) :
    round53 y ≤ (2 : α) ^ k := by
  rcases h0.lt_or_eq with hpos | h0'
  · have hne : y ≠ 0 := ne_of_gt hpos
    obtain ⟨hlo, _⟩ := log_two_bounds y hpos
    have hek : Int.log 2 y ≤ k := by
      have := le_trans hlo hy
      exact (zpow_le_zpow_iff_right₀ (by norm_num : (1 : α) < 2)).mp this
    obtain ⟨n, hn⟩ : ∃ n : ℕ, (n : ℤ) = 52 + (k - Int.log 2 y) := ⟨(52 + (k - Int.log 2 y)).toNat, by omega⟩
    unfold round53
    rw [if_neg hne, abs_of_pos hpos]
    have hr : roundEven (y * (2 : α) ^ (52 - Int.log 2 y)) ≤ ((2 : ℤ) ^ n : ℤ) := by
      apply roundEven_le
      rw [show (((2 : ℤ) ^ n : ℤ) : α) = (2 : α) ^ n by norm_cast]
      calc y * (2 : α) ^ (52 - Int.log 2 y) ≤ (2 : α) ^ k * (2 : α) ^ (52 - Int.log 2 y) :=
            mul_le_mul_of_nonneg_right hy (le_of_lt (zpow_pos (by norm_num) _))
        _ = (2 : α) ^ n := by
            rw [← zpow_add₀ (by norm_num), ← zpow_natCast, hn]
            congr 1
            ring
    have hr' : (roundEven (y * (2 : α) ^ (52 - Int.log 2 y)) : α) ≤ (2 : α) ^ n := by
      have : ((roundEven (y * (2 : α) ^ (52 - Int.log 2 y)) : ℤ) : α) ≤ (((2 : ℤ) ^ n : ℤ) : α) := by
        exact_mod_cast hr
      rwa [show (((2 : ℤ) ^ n : ℤ) : α) = (2 : α) ^ n by norm_cast] at this
    calc _ ≤ (2 : α) ^ n * (2 : α) ^ (Int.log 2 y - 52) :=
          mul_le_mul_of_nonneg_right hr' (le_of_lt (zpow_pos (by norm_num) _))
      _ = (2 : α) ^ k := by
          rw [← zpow_natCast, ← zpow_add₀ (by norm_num), hn]
          congr 1
          ring
  · rw [← h0', round53_zero]
    exact le_of_lt (zpow_pos (by norm_num) k)

/-- A power of two times an integer of 53 bits is a double: rounding leaves it. -/
theorem round53_of_significand (K e : ℤ) (hK : (2 : ℤ) ^ 52 ≤ K) (hK' : K ≤ (2 : ℤ) ^ 53) :
    round53 ((K : α) * (2 : α) ^ (e - 52)) = (K : α) * (2 : α) ^ (e - 52) := by
  have h2 : (0 : α) < 2 := by norm_num
  have hKα : (2 : α) ^ (52 : ℤ) ≤ (K : α) := by
    have : (((2 : ℤ) ^ 52 : ℤ) : α) ≤ (K : α) := by exact_mod_cast hK
    rwa [show (((2 : ℤ) ^ 52 : ℤ) : α) = (2 : α) ^ (52 : ℤ) by norm_cast] at this
  have hpos : 0 < (K : α) * (2 : α) ^ (e - 52) :=
    mul_pos (lt_of_lt_of_le (zpow_pos h2 _) hKα) (zpow_pos h2 _)
  have hlo : (2 : α) ^ e ≤ |(K : α) * (2 : α) ^ (e - 52)| := by
    rw [abs_of_pos hpos]
    calc (2 : α) ^ e = (2 : α) ^ (52 : ℤ) * (2 : α) ^ (e - 52) := by
          rw [← zpow_add₀ (by norm_num)]
          congr 1
          ring
      _ ≤ _ := mul_le_mul_of_nonneg_right hKα (le_of_lt (zpow_pos h2 _))
  rcases lt_or_eq_of_le hK' with hlt | heq
  · have hKα' : (K : α) < (2 : α) ^ (53 : ℤ) := by
      have : (K : α) < (((2 : ℤ) ^ 53 : ℤ) : α) := by exact_mod_cast hlt
      rwa [show (((2 : ℤ) ^ 53 : ℤ) : α) = (2 : α) ^ (53 : ℤ) by norm_cast] at this
    apply round53_eq _ K e hlo
    · rw [abs_of_pos hpos]
      calc (K : α) * (2 : α) ^ (e - 52) < (2 : α) ^ (53 : ℤ) * (2 : α) ^ (e - 52) :=
            mul_lt_mul_of_pos_right hKα' (zpow_pos h2 _)
        _ = (2 : α) ^ (e + 1) := by
            rw [← zpow_add₀ (by norm_num)]
            congr 1
            ring
    · rw [mul_assoc, ← zpow_add₀ (by norm_num)]
      have : e - 52 + (52 - e) = 0 := by ring
      rw [this, zpow_zero, mul_one, sub_self, abs_zero]
      norm_num
  · have hval : (K : α) * (2 : α) ^ (e - 52) = (((2 : ℤ) ^ 52 : ℤ) : α) * (2 : α) ^ (e + 1 - 52) := by
      rw [heq, show (((2 : ℤ) ^ 53 : ℤ) : α) = (2 : α) ^ (53 : ℤ) by norm_cast,
        show (((2 : ℤ) ^ 52 : ℤ) : α) = (2 : α) ^ (52 : ℤ) by norm_cast,
        ← zpow_add₀ (by norm_num), ← zpow_add₀ (by norm_num)]
      congr 1
      ring
    have hpow : (K : α) * (2 : α) ^ (e - 52) = (2 : α) ^ (e + 1) := by
      rw [heq, show (((2 : ℤ) ^ 53 : ℤ) : α) = (2 : α) ^ (53 : ℤ) by norm_cast,
        ← zpow_add₀ (by norm_num)]
      congr 1
      ring
    rw [hval]
    rw [hval] at hpos
    have hpow' : (((2 : ℤ) ^ 52 : ℤ) : α) * (2 : α) ^ (e + 1 - 52) = (2 : α) ^ (e + 1) := by
      rw [← hval, hpow]
    apply round53_eq _ ((2 : ℤ) ^ 52) (e + 1)
    · rw [abs_of_pos hpos, hpow']
    · rw [abs_of_pos hpos, hpow']
      exact zpow_lt_zpow_right₀ (by norm_num) (by omega)
    · rw [mul_assoc, ← zpow_add₀ (by norm_num)]
      have : e + 1 - 52 + (52 - (e + 1)) = 0 := by ring
      rw [this, zpow_zero, mul_one, sub_self, abs_zero]
      norm_num

/-- The double nearest to a number is a double: rounding it again leaves it. -/
theorem round53_idem (x : α) : round53 (round53 x) = round53 x := by
  have hposcase : ∀ y : α, 0 < y → round53 (round53 y) = round53 y := by
    intro y hy
    have h2 : (0 : α) < 2 := by norm_num
    obtain ⟨hlo, hhi⟩ := log_two_bounds y hy
    have hval : round53 y =
        (roundEven (y * (2 : α) ^ (52 - Int.log 2 y)) : α) * (2 : α) ^ (Int.log 2 y - 52) := by
      unfold round53
      rw [if_neg (ne_of_gt hy), abs_of_pos hy]
    have hK : (2 : ℤ) ^ 52 ≤ roundEven (y * (2 : α) ^ (52 - Int.log 2 y)) := by
      apply le_roundEven
      rw [show (((2 : ℤ) ^ 52 : ℤ) : α) = (2 : α) ^ (52 : ℤ) by norm_cast]
      calc (2 : α) ^ (52 : ℤ) = (2 : α) ^ Int.log 2 y * (2 : α) ^ (52 - Int.log 2 y) := by
            rw [← zpow_add₀ (by norm_num)]
            congr 1
            ring
        _ ≤ _ := mul_le_mul_of_nonneg_right hlo (le_of_lt (zpow_pos h2 _))
    have hK' : roundEven (y * (2 : α) ^ (52 - Int.log 2 y)) ≤ (2 : ℤ) ^ 53 := by
      apply roundEven_le
      rw [show (((2 : ℤ) ^ 53 : ℤ) : α) = (2 : α) ^ (53 : ℤ) by norm_cast]
      calc y * (2 : α) ^ (52 - Int.log 2 y)
          ≤ (2 : α) ^ (Int.log 2 y + 1) * (2 : α) ^ (52 - Int.log 2 y) :=
            mul_le_mul_of_nonneg_right (le_of_lt hhi) (le_of_lt (zpow_pos h2 _))
        _ = (2 : α) ^ (53 : ℤ) := by
            rw [← zpow_add₀ (by norm_num)]
            congr 1
            ring
    rw [hval]
    exact round53_of_significand _ _ hK hK'
  rcases lt_trichotomy x 0 with h | h | h
  · have := hposcase (-x) (neg_pos.mpr h)
    rw [round53_neg, round53_neg] at this
    exact neg_injective this
  · rw [h, round53_zero, round53_zero]
  · exact hposcase x h

/-- A number within `2^-55` below 1 or `2^-54` above 1 rounds to 1. -/
theorem round53_near_one (w : α) (hlo : 1 - (2 : α) ^ (-55 : ℤ) ≤ w)
    (hhi : w ≤ 1 + (2 : α) ^ (-54 : ℤ)) : round53 w = 1 := by
  have e55 : (2 : α) ^ (-55 : ℤ) = 1 / 36028797018963968 := by norm_num [zpow_neg]
  have e54 : (2 : α) ^ (-54 : ℤ) = 1 / 18014398509481984 := by norm_num [zpow_neg]
  rw [e55] at hlo
  rw [e54] at hhi
  have hwpos : 0 < w := by linarith
  rcases le_or_lt 1 w with h1 | h1
  · have := round53_eq w ((2 : ℤ) ^ 52) 0 (by rw [abs_of_pos hwpos]; simpa using h1)
      (by rw [abs_of_pos hwpos]; norm_num; linarith)
      (by
        rw [abs_lt]
        norm_num
        constructor <;> linarith)
    rw [this]
    norm_num [zpow_neg]
  · have := round53_eq w ((2 : ℤ) ^ 53) (-1) (by
        rw [abs_of_pos hwpos]; norm_num [zpow_neg]; linarith)
      (by rw [abs_of_pos hwpos]; simpa using h1)
      (by
        rw [abs_lt]
        norm_num
        constructor <;> linarith)
    rw [this]
    norm_num [zpow_neg]

/-- The number 1 is a double. -/
theorem round53_one : round53 (1 : α) = 1 :=
  round53_near_one 1 (by
    have : (0 : α) < (2 : α) ^ (-55 : ℤ) := zpow_pos (by norm_num) _
    linarith) (by
    have : (0 : α) < (2 : α) ^ (-54 : ℤ) := zpow_pos (by norm_num) _
    linarith)

/-- Rounding to the nearest integer is monotone. -/
theorem roundEven_mono (a b : α) (h : a ≤ b) : roundEven a ≤ roundEven b := by
  have hfl : ⌊a⌋ ≤ ⌊b⌋ := Int.floor_le_floor h
  rcases hfl.lt_or_eq with hlt | heq
  · have h1 : roundEven a ≤ ⌊a⌋ + 1 :=
      roundEven_le a (⌊a⌋ + 1) (by push_cast; exact (Int.lt_floor_add_one a).le)
    have h2 : ⌊b⌋ ≤ roundEven b := le_roundEven b ⌊b⌋ (Int.floor_le b)
    omega
  · have hfr : Int.fract a ≤ Int.fract b := by
      rw [Int.fract, Int.fract, heq]
      linarith
    unfold roundEven
    rw [heq]
    split_ifs <;> first | omega | (exfalso; linarith)

/-- A number at most zero rounds to a double at most zero. -/
theorem round53_nonpos (y : α) (hy : y ≤ 0) : round53 y ≤ 0 := by
  have h := round53_nonneg (-y) (neg_nonneg.mpr hy)
  rw [round53_neg] at h
  linarith

/-- Rounding to the nearest double is monotone. -/
theorem round53_mono (x y : α) (h : x ≤ y) : round53 x ≤ round53 y := by
  have hpos : ∀ u v : α, 0 < u → u ≤ v → round53 u ≤ round53 v := by
    intro u v hu huv
    have hv : 0 < v := lt_of_lt_of_le hu huv
    obtain ⟨hulo, huhi⟩ := log_two_bounds u hu
    obtain ⟨hvlo, hvhi⟩ := log_two_bounds v hv
    have hlog : Int.log 2 u ≤ Int.log 2 v := Int.log_mono_right hu huv
    rcases hlog.lt_or_eq with hlt | heq
    · calc round53 u ≤ (2 : α) ^ (Int.log 2 u + 1) := round53_le_zpow u _ hu.le huhi.le
        _ ≤ (2 : α) ^ Int.log 2 v := zpow_le_zpow_right₀ (by norm_num) (by omega)
        _ ≤ round53 v := zpow_le_round53 v _ hvlo
    · unfold round53
      rw [if_neg (ne_of_gt hu), if_neg (ne_of_gt hv), abs_of_pos hu, abs_of_pos hv, heq]
      apply mul_le_mul_of_nonneg_right _ (le_of_lt (zpow_pos (by norm_num) _))
      have := roundEven_mono (u * (2 : α) ^ (52 - Int.log 2 v)) (v * (2 : α) ^ (52 - Int.log 2 v))
        (mul_le_mul_of_nonneg_right huv (le_of_lt (zpow_pos (by norm_num) _)))
      exact_mod_cast this
  rcases lt_trichotomy 0 x with hx | hx | hx
  · exact hpos x y hx h
  · rw [← hx, round53_zero]
    exact round53_nonneg y (hx ▸ h)
  · rcases le_or_lt 0 y with hy | hy
    · exact le_trans (round53_nonpos x hx.le) (round53_nonneg y hy)
    · have := hpos (-y) (-x) (neg_pos.mpr hy) (neg_le_neg h)
      rw [round53_neg, round53_neg] at this
      linarith

/-- The rounding of a number to the nearest integer is within one half of it. -/
theorem abs_roundEven_sub (y : α) : |(roundEven y : α) - y| ≤ 1 / 2 := by
  have h0 := Int.fract_nonneg y
  have h1 := Int.fract_lt_one y
  have hy : y = (⌊y⌋ : α) + Int.fract y := (Int.floor_add_fract y).symm
  rw [abs_le]
  unfold roundEven
  split_ifs <;> push_cast <;> constructor <;> linarith


/-- A positive number rounds to a double that exceeds it by at most the fraction
`2^-53` of it. -/
theorem round53_le_rel (x : α) (hx : 0 < x) : round53 x ≤ x + x * (2 : α) ^ (-53 : ℤ) := by
  obtain ⟨hlo, _⟩ := log_two_bounds x hx
  have h2 : (0 : α) < 2 := by norm_num
  have hs : (0 : α) < (2 : α) ^ (Int.log 2 x - 52) := zpow_pos h2 _
  have hr := (abs_le.mp (abs_roundEven_sub (x * (2 : α) ^ (52 - Int.log 2 x)))).2
  have hscale : x * (2 : α) ^ (52 - Int.log 2 x) * (2 : α) ^ (Int.log 2 x - 52) = x := by
    rw [mul_assoc, ← zpow_add₀ (by norm_num)]
    have : (52 - Int.log 2 x + (Int.log 2 x - 52) : ℤ) = 0 := by ring
    rw [this, zpow_zero, mul_one]
  have hhalf : (1 / 2 : α) * (2 : α) ^ (Int.log 2 x - 52) =
      (2 : α) ^ Int.log 2 x * (2 : α) ^ (-53 : ℤ) := by
    rw [← zpow_add₀ (by norm_num)]
    have : (Int.log 2 x + -53 : ℤ) = -1 + (Int.log 2 x - 52) := by ring
    rw [this, zpow_add₀ (by norm_num), zpow_neg, zpow_one]
    norm_num
  unfold round53
  rw [if_neg (ne_of_gt hx), abs_of_pos hx]
  have h53 : (0 : α) < (2 : α) ^ (-53 : ℤ) := zpow_pos h2 _
  calc (roundEven (x * (2 : α) ^ (52 - Int.log 2 x)) : α) * (2 : α) ^ (Int.log 2 x - 52)
      ≤ (x * (2 : α) ^ (52 - Int.log 2 x) + 1 / 2) * (2 : α) ^ (Int.log 2 x - 52) :=
        mul_le_mul_of_nonneg_right (by linarith) hs.le
    _ = x + (2 : α) ^ Int.log 2 x * (2 : α) ^ (-53 : ℤ) := by
        rw [add_mul, hscale, hhalf]
    _ ≤ x + x * (2 : α) ^ (-53 : ℤ) := by
        have := mul_le_mul_of_nonneg_right hlo h53.le
        linarith

/-- A power of two is a double. -/
theorem round53_zpow (k : ℤ) : round53 ((2 : α) ^ k) = (2 : α) ^ k := by
  have h := round53_of_significand (α := α) ((2 : ℤ) ^ 52) k (le_refl _) (by norm_num)
  have e : (((2 : ℤ) ^ 52 : ℤ) : α) * (2 : α) ^ (k - 52) = (2 : α) ^ k := by
    rw [show (((2 : ℤ) ^ 52 : ℤ) : α) = (2 : α) ^ (52 : ℤ) by norm_cast,
      ← zpow_add₀ (by norm_num)]
    congr 1
    ring
  rwa [e] at h

/-- The number one unit in the last place above a positive double is a double. -/
theorem round53_succ (g : α) (hg : 0 < g) (hfix : round53 g = g) :
    round53 (g + (2 : α) ^ (Int.log 2 g - 52)) = g + (2 : α) ^ (Int.log 2 g - 52) := by
  obtain ⟨hlo, hhi⟩ := log_two_bounds g hg
  have h2 : (0 : α) < 2 := by norm_num
  have hs : (0 : α) < (2 : α) ^ (Int.log 2 g - 52) := zpow_pos h2 _
  have hK : g = (roundEven (g * (2 : α) ^ (52 - Int.log 2 g)) : α) *
      (2 : α) ^ (Int.log 2 g - 52) := by
    have := hfix
    unfold round53 at this
    rw [if_neg (ne_of_gt hg), abs_of_pos hg] at this
    exact this.symm
  have hKlo : ((2 : ℤ) ^ 52 : ℤ) ≤ roundEven (g * (2 : α) ^ (52 - Int.log 2 g)) := by
    apply le_roundEven
    rw [show (((2 : ℤ) ^ 52 : ℤ) : α) = (2 : α) ^ (52 : ℤ) by norm_cast]
    calc (2 : α) ^ (52 : ℤ) = (2 : α) ^ Int.log 2 g * (2 : α) ^ (52 - Int.log 2 g) := by
          rw [← zpow_add₀ (by norm_num)]
          congr 1
          ring
      _ ≤ g * (2 : α) ^ (52 - Int.log 2 g) :=
          mul_le_mul_of_nonneg_right hlo (le_of_lt (zpow_pos (by norm_num) _))
  have hKhi : roundEven (g * (2 : α) ^ (52 - Int.log 2 g)) < ((2 : ℤ) ^ 53 : ℤ) := by
    by_contra hcon
    push_neg at hcon
    have hc : (2 : α) ^ (53 : ℤ) ≤ (roundEven (g * (2 : α) ^ (52 - Int.log 2 g)) : α) := by
      have : (((2 : ℤ) ^ 53 : ℤ) : α) ≤ (roundEven (g * (2 : α) ^ (52 - Int.log 2 g)) : α) := by
        exact_mod_cast hcon
      rwa [show (((2 : ℤ) ^ 53 : ℤ) : α) = (2 : α) ^ (53 : ℤ) by norm_cast] at this
    have : (2 : α) ^ (Int.log 2 g + 1) ≤ g :=
      calc (2 : α) ^ (Int.log 2 g + 1) = (2 : α) ^ (53 : ℤ) * (2 : α) ^ (Int.log 2 g - 52) := by
            rw [← zpow_add₀ (by norm_num)]
            congr 1
            ring
        _ ≤ (roundEven (g * (2 : α) ^ (52 - Int.log 2 g)) : α) *
            (2 : α) ^ (Int.log 2 g - 52) := mul_le_mul_of_nonneg_right hc hs.le
        _ = g := hK.symm
    exact absurd hhi (not_lt.mpr this)
  have h := round53_of_significand (α := α)
    (roundEven (g * (2 : α) ^ (52 - Int.log 2 g)) + 1) (Int.log 2 g) (by omega) (by omega)
  have e : ((roundEven (g * (2 : α) ^ (52 - Int.log 2 g)) + 1 : ℤ) : α) *
      (2 : α) ^ (Int.log 2 g - 52) = g + (2 : α) ^ (Int.log 2 g - 52) := by
    push_cast
    rw [add_mul, one_mul, ← hK]
  rwa [e] at h

/-- The test of the clamp in double arithmetic.  For a strength `g >= 0` that is a
double, `A > 0`, `m >= 0` and a fraction `0 <= k <= 1`, the tested value
`g + (k*(m - g*A))/A`, every result rounded, is not below `-g*2^-52`: it can fall below
zero by a rounding error in the last place of `g` and no further. -/
theorem clamp_test_ge (g A m k : α) (hg : 0 ≤ g) (hfix : round53 g = g) (hA : 0 < A)
    (hm : 0 ≤ m) (hk0 : 0 ≤ k) (hk1 : k ≤ 1) :
    -(g * (2 : α) ^ (-52 : ℤ)) ≤
      round53 (g + round53 (round53 (k * round53 (m - round53 (g * A))) / A)) := by
  have hp0 : 0 ≤ round53 (g * A) := round53_nonneg _ (mul_nonneg hg hA.le)
  have hd : -round53 (g * A) ≤ round53 (m - round53 (g * A)) := by
    have := round53_mono (-round53 (g * A)) (m - round53 (g * A)) (by linarith)
    rwa [round53_neg, round53_idem] at this
  have hkd : -round53 (g * A) ≤ k * round53 (m - round53 (g * A)) := by
    rcases le_or_lt 0 (round53 (m - round53 (g * A))) with h | h
    · have := mul_nonneg hk0 h
      linarith
    · nlinarith
  have hgd : -round53 (g * A) ≤ round53 (k * round53 (m - round53 (g * A))) := by
    have := round53_mono _ _ hkd
    rwa [round53_neg, round53_idem] at this
  have hq : -round53 (round53 (g * A) / A) ≤
      round53 (round53 (k * round53 (m - round53 (g * A))) / A) := by
    have := round53_mono (-round53 (g * A) / A)
      (round53 (k * round53 (m - round53 (g * A))) / A)
      (div_le_div_of_nonneg_right hgd hA.le)
    rwa [neg_div, round53_neg] at this
  rcases hg.lt_or_eq with hgpos | hg0
  · obtain ⟨hlo, hhi⟩ := log_two_bounds g hgpos
    have h2 : (0 : α) < 2 := by norm_num
    have h53 : (0 : α) < (2 : α) ^ (-53 : ℤ) := zpow_pos h2 _
    have hulp : (2 : α) ^ (Int.log 2 g - 52) = (2 : α) ^ (Int.log 2 g + 1) * (2 : α) ^ (-53 : ℤ) := by
      rw [← zpow_add₀ (by norm_num)]
      congr 1
      ring
    have hulp' : (2 : α) ^ (Int.log 2 g - 52) = (2 : α) ^ Int.log 2 g * (2 : α) ^ (-52 : ℤ) := by
      rw [← zpow_add₀ (by norm_num)]
      congr 1
    have hrel := round53_le_rel (g * A) (mul_pos hgpos hA)
    have hquot : round53 (g * A) / A ≤ g + (2 : α) ^ (Int.log 2 g - 52) := by
      rw [div_le_iff₀ hA, hulp]
      have h1 : g * (2 : α) ^ (-53 : ℤ) ≤ (2 : α) ^ (Int.log 2 g + 1) * (2 : α) ^ (-53 : ℤ) :=
        mul_le_mul_of_nonneg_right hhi.le h53.le
      have h3 := mul_le_mul_of_nonneg_right h1 hA.le
      nlinarith
    have hsucc : round53 (round53 (g * A) / A) ≤ g + (2 : α) ^ (Int.log 2 g - 52) := by
      have := round53_mono _ _ hquot
      rwa [round53_succ g hgpos hfix] at this
    have hsum : -(2 : α) ^ (Int.log 2 g - 52) ≤
        g + round53 (round53 (k * round53 (m - round53 (g * A))) / A) := by linarith
    have ht := round53_mono _ _ hsum
    rw [round53_neg, round53_zpow] at ht
    have h52 : (0 : α) < (2 : α) ^ (-52 : ℤ) := zpow_pos h2 _
    have : (2 : α) ^ (Int.log 2 g - 52) ≤ g * (2 : α) ^ (-52 : ℤ) := by
      rw [hulp']
      exact mul_le_mul_of_nonneg_right hlo h52.le
    exact le_trans (neg_le_neg this) ht
  · subst hg0
    rw [zero_mul, round53_zero, zero_div, round53_zero, neg_zero] at hq
    rw [zero_mul, neg_zero, zero_add, zero_mul, round53_zero]
    exact round53_nonneg _ hq

end

/-- With the identity for rounding, `integrateWith` is `integrate`. -/
theorem integrateWith_id (c : IntegralController) (w : World) :
    c.integrateWith id w = c.integrate w := rfl

/-! ## The controller in double arithmetic -/

/-- With a not-a-number `Target`, a bound controller's `integrate` returns at once,
whatever the rounding. -/
theorem integrateWith_disabled (rnd : Dbl → Dbl) (c : IntegralController) (w : World)
    (hT : c.Target.isnan = true) (hb : c.control_type = 1 ∨ c.control_type = 2) :
    c.integrateWith rnd w = Except.ok (c, w) := by
  rcases hb with h | h <;> simp [integrateWith, h, hT]

/-- The Channel branch of `integrate` past its guards, with rounding. -/
theorem integrateWith_channel (rnd : Dbl → Dbl) (c : IntegralController) (w : World)
    (ch : Nat) (hct : c.control_type = 1) (hch : c.channel = some ch)
    (hT : c.Target.isnan = false) (m2 gdot : Dbl)
    (hm2 : m2 =
      if Dbl.lt (rnd (c.m + rnd (rnd (c.dt / c.tau_m) *
          rnd (c.Target - (w.comp (w.cond ch).container).Ca_prev)))) (Dbl.fin 0) = true
      then Dbl.fin 0
      else rnd (c.m + rnd (rnd (c.dt / c.tau_m) *
          rnd (c.Target - (w.comp (w.cond ch).container).Ca_prev))))
    (hgdot : gdot =
      rnd (rnd (c.dt / c.tau_g) * rnd (m2 - rnd ((w.cond ch).gbar * c.container_A)))) :
    c.integrateWith rnd w = Except.ok
      ({ c with m := m2 },
        w.setGbar ch
          (if Dbl.lt (rnd ((w.cond ch).gbar + rnd (gdot / c.container_A))) (Dbl.fin 0) = true
            then Dbl.fin 0
            else rnd ((w.cond ch).gbar + rnd (gdot / c.container_A)))) := by
  subst hm2 hgdot
  simp [integrateWith, hct, hch, hT]

/-- The Synapse branch of `integrate` past its guards, with rounding. -/
theorem integrateWith_synapse (rnd : Dbl → Dbl) (c : IntegralController) (w : World)
    (s : Nat) (hct : c.control_type = 2) (hs : c.syn = some s)
    (hT : c.Target.isnan = false) (m2 gdot : Dbl)
    (hm2 : m2 =
      if Dbl.lt (rnd (c.m + rnd (rnd (c.dt / c.tau_m) *
          rnd (c.Target - (w.comp (w.synp s).post_syn).Ca_prev)))) (Dbl.fin 0) = true
      then Dbl.fin 0
      else rnd (c.m + rnd (rnd (c.dt / c.tau_m) *
          rnd (c.Target - (w.comp (w.synp s).post_syn).Ca_prev))))
    (hgdot : gdot =
      rnd (rnd (c.dt / c.tau_g) *
        rnd (m2 - rnd ((w.synp s).gmax * rnd (Dbl.fin (1 / 1000)))))) :
    c.integrateWith rnd w = Except.ok
      ({ c with m := m2 },
        w.setGmax s
          (if Dbl.lt (rnd ((w.synp s).gmax + rnd (gdot * rnd (Dbl.fin 1000)))) (Dbl.fin 0)
              = true
            then Dbl.fin 0
            else rnd ((w.synp s).gmax + rnd (gdot * rnd (Dbl.fin 1000))))) := by
  subst hm2 hgdot
  simp [integrateWith, hct, hs, hT]

/-- C5, as the code has it.  Take a controller bound to a Synapse, any memory and any
rounding `rnd` of the arithmetic results.  `integrate` returns normally, and so does
`integrate` on the same controller rebound to a Channel that has the synapse's strength
as `gbar` and the synapse's compartment as container, with `container_A` replaced by
the constant 1/1000 (as rounded).  The two calls end with the same `m`.  With a
not-a-number `Target` both leave the strength as it was.  Otherwise both compute the
same drive `gdot = (dt/tau_g)*(m' - gmax*1e-3)`, and the new strengths are
`gmax + gdot*1e3` and `gbar + gdot/1e-3`, each clamped at 0: the Synapse branch
multiplies where the Channel branch divides.  When nothing is rounded, the two
strengths are equal.  The `container_A` the Synapse-bound controller holds plays no
part. -/
theorem C5_synapse_update_up_to_rounding (rnd : Dbl → Dbl) (c : IntegralController)
    (w : World) (s ch : Nat) (hct : c.control_type = 2) (hs : c.syn = some s) :
    ∃ c1 w1 c2 w2,
      c.integrateWith rnd w = Except.ok (c1, w1) ∧
      ({ c with control_type := 1, channel := some ch,
                container_A := rnd (Dbl.fin (1 / 1000)) }).integrateWith rnd
        { w with
          cond := Function.update w.cond ch
            { gbar := (w.synp s).gmax, container := (w.synp s).post_syn, getClass := "" } }
        = Except.ok (c2, w2) ∧
      c1.m = c2.m ∧
      (c.Target.isnan = true →
        (w1.synp s).gmax = (w.synp s).gmax ∧ (w2.cond ch).gbar = (w.synp s).gmax) ∧
      (c.Target.isnan = false →
        ∃ gdot,
          gdot = rnd (rnd (c.dt / c.tau_g) *
            rnd (c1.m - rnd ((w.synp s).gmax * rnd (Dbl.fin (1 / 1000))))) ∧
          (w1.synp s).gmax =
            (if Dbl.lt (rnd ((w.synp s).gmax + rnd (gdot * rnd (Dbl.fin 1000)))) (Dbl.fin 0)
              then Dbl.fin 0
              else rnd ((w.synp s).gmax + rnd (gdot * rnd (Dbl.fin 1000)))) ∧
          (w2.cond ch).gbar =
            (if Dbl.lt (rnd ((w.synp s).gmax + rnd (gdot / rnd (Dbl.fin (1 / 1000)))))
                (Dbl.fin 0)
              then Dbl.fin 0
              else rnd ((w.synp s).gmax + rnd (gdot / rnd (Dbl.fin (1 / 1000)))))) ∧
      ((∀ x, rnd x = x) → (w1.synp s).gmax = (w2.cond ch).gbar) := by
  cases hnan : c.Target.isnan with
  | true =>
    refine ⟨_, _, _, _, integrateWith_disabled rnd c w hnan (Or.inr hct),
      integrateWith_disabled rnd _ _ hnan (Or.inl rfl), rfl, ?_, ?_, ?_⟩
    · intro _
      simp
    · intro h
      cases h
    · intro _
      simp
  | false =>
    refine ⟨_, _, _, _, integrateWith_synapse rnd c w s hct hs hnan _ _ rfl rfl,
      integrateWith_channel rnd
        { c with control_type := 1, channel := some ch,
                 container_A := rnd (Dbl.fin (1 / 1000)) }
        { w with
          cond := Function.update w.cond ch
            { gbar := (w.synp s).gmax, container := (w.synp s).post_syn, getClass := "" } }
        ch rfl rfl hnan _ _ rfl rfl, ?_, ?_, ?_, ?_⟩
    · simp
    · intro h
      cases h
    · intro _
      refine ⟨_, rfl, ?_, ?_⟩
      · simp [World.setGmax]
      · simp [World.setGbar]
    · intro hid
      simp only [World.setGmax, World.setGbar, Function.update_same, hid, Dbl.div_milli]

/-- C5 in double arithmetic on `fpSynapseController`: both calls return, with the
same `m`. -/
theorem C5_synapse_update_up_to_rounding_witness :
    ∃ c1 w1 c2 w2,
      fpSynapseController.integrateWith Dbl.round fpWorld = Except.ok (c1, w1) ∧
      ({ fpSynapseController with
          control_type := 1, channel := some 0,
          container_A := Dbl.round (Dbl.fin (1 / 1000)) }).integrateWith Dbl.round
        { fpWorld with
          cond := Function.update fpWorld.cond 0
            { gbar := (fpWorld.synp 0).gmax, container := (fpWorld.synp 0).post_syn,
              getClass := "" } }
        = Except.ok (c2, w2) ∧
      c1.m = c2.m := by
  obtain ⟨c1, w1, c2, w2, h1, h2, h3, _⟩ :=
    C5_synapse_update_up_to_rounding Dbl.round fpSynapseController fpWorld 0 0 rfl rfl
  exact ⟨c1, w1, c2, w2, h1, h2, h3⟩

/-- Rounding of a finite value. -/
theorem Dbl.round_fin (q : ℚ) : Dbl.round (Dbl.fin q) = Dbl.fin (round53 q) := rfl

/-- C5 fails on the code in double arithmetic.  With `m = 1`, `Target = Ca_prev = 0`,
`dt = 1`, `tau_m = 100`, `tau_g = 1000` and the strength 0.1, the Synapse branch ends
with `gmax = 4953509230144809 / 2^52` (1.0999) and the Channel branch, run with
`container_A = 1e-3` on the same strength, with `gbar = 4953509230144808 / 2^52`
(1.0998999999999999). -/
theorem C5_counterexample :
    ∃ c1 w1 c2 w2,
      fpSynapseController.integrateWith Dbl.round fpWorld = Except.ok (c1, w1) ∧
      fpChannelController.integrateWith Dbl.round fpWorld = Except.ok (c2, w2) ∧
      (w1.synp 0).gmax = Dbl.fin (4953509230144809 / 4503599627370496) ∧
      (w2.cond 0).gbar = Dbl.fin (619188653768101 / 562949953421312) ∧
      (w1.synp 0).gmax ≠ (w2.cond 0).gbar := by
  have hE : round53 ((0 - 0) : ℚ) = 0 := by
    rw [show ((0 - 0) : ℚ) = 0 by norm_num]
    exact round53_zero
  have hRm : round53 ((1 / 100) : ℚ) = (5764607523034235 / 576460752303423488) := by
    rw [round53_eq _ (5764607523034235) (-7) (by norm_num [zpow_neg, abs_of_pos, abs_of_neg])
      (by norm_num [zpow_neg, abs_of_pos, abs_of_neg]) (by rw [abs_lt]; norm_num [zpow_neg])]
    norm_num [zpow_neg]
  have hP : round53 (((5764607523034235 / 576460752303423488) * 0) : ℚ) = 0 := by
    rw [show (((5764607523034235 / 576460752303423488) * 0) : ℚ) = 0 by norm_num]
    exact round53_zero
  have hM1 : round53 ((1 + 0) : ℚ) = 1 := by
    rw [round53_eq _ (4503599627370496) (0) (by norm_num [zpow_neg, abs_of_pos, abs_of_neg])
      (by norm_num [zpow_neg, abs_of_pos, abs_of_neg]) (by rw [abs_lt]; norm_num [zpow_neg])]
    norm_num [zpow_neg]
  have hK3 : round53 ((1 / 1000) : ℚ) = (1152921504606847 / 1152921504606846976) := by
    rw [round53_eq _ (4611686018427388) (-10) (by norm_num [zpow_neg, abs_of_pos, abs_of_neg])
      (by norm_num [zpow_neg, abs_of_pos, abs_of_neg]) (by rw [abs_lt]; norm_num [zpow_neg])]
    norm_num [zpow_neg]
  have hA : round53 (((3602879701896397 / 36028797018963968) * (1152921504606847 / 1152921504606846976)) : ℚ) = (7378697629483821 / 73786976294838206464) := by
    rw [round53_eq _ (7378697629483821) (-14) (by norm_num [zpow_neg, abs_of_pos, abs_of_neg])
      (by norm_num [zpow_neg, abs_of_pos, abs_of_neg]) (by rw [abs_lt]; norm_num [zpow_neg])]
    norm_num [zpow_neg]
  have hB : round53 ((1 - (7378697629483821 / 73786976294838206464)) : ℚ) = (4503149267407759 / 4503599627370496) := by
    rw [round53_eq _ (9006298534815518) (-1) (by norm_num [zpow_neg, abs_of_pos, abs_of_neg])
      (by norm_num [zpow_neg, abs_of_pos, abs_of_neg]) (by rw [abs_lt]; norm_num [zpow_neg])]
    norm_num [zpow_neg]
  have hGd : round53 (((1152921504606847 / 1152921504606846976) * (4503149267407759 / 4503599627370496)) : ℚ) = (4611224849825545 / 4611686018427387904) := by
    rw [round53_eq _ (4611224849825545) (-10) (by norm_num [zpow_neg, abs_of_pos, abs_of_neg])
      (by norm_num [zpow_neg, abs_of_pos, abs_of_neg]) (by rw [abs_lt]; norm_num [zpow_neg])]
    norm_num [zpow_neg]
  have hL : round53 ((1000) : ℚ) = 1000 := by
    rw [round53_eq _ (8796093022208000) (9) (by norm_num [zpow_neg, abs_of_pos, abs_of_neg])
      (by norm_num [zpow_neg, abs_of_pos, abs_of_neg]) (by rw [abs_lt]; norm_num [zpow_neg])]
    norm_num [zpow_neg]
  have hEs : round53 (((4611224849825545 / 4611686018427387904) * 1000) : ℚ) = (4503149267407759 / 4503599627370496) := by
    rw [round53_eq _ (9006298534815518) (-1) (by norm_num [zpow_neg, abs_of_pos, abs_of_neg])
      (by norm_num [zpow_neg, abs_of_pos, abs_of_neg]) (by rw [abs_lt]; norm_num [zpow_neg])]
    norm_num [zpow_neg]
  have hTs : round53 (((3602879701896397 / 36028797018963968) + (4503149267407759 / 4503599627370496)) : ℚ) = (4953509230144809 / 4503599627370496) := by
    rw [round53_eq _ (4953509230144809) (0) (by norm_num [zpow_neg, abs_of_pos, abs_of_neg])
      (by norm_num [zpow_neg, abs_of_pos, abs_of_neg]) (by rw [abs_lt]; norm_num [zpow_neg])]
    norm_num [zpow_neg]
  have hEc : round53 (((4611224849825545 / 4611686018427387904) / (1152921504606847 / 1152921504606846976)) : ℚ) = (9006298534815517 / 9007199254740992) := by
    rw [round53_eq _ (9006298534815517) (-1) (by norm_num [zpow_neg, abs_of_pos, abs_of_neg])
      (by norm_num [zpow_neg, abs_of_pos, abs_of_neg]) (by rw [abs_lt]; norm_num [zpow_neg])]
    norm_num [zpow_neg]
  have hTc : round53 (((3602879701896397 / 36028797018963968) + (9006298534815517 / 9007199254740992)) : ℚ) = (619188653768101 / 562949953421312) := by
    rw [round53_eq _ (4953509230144808) (0) (by norm_num [zpow_neg, abs_of_pos, abs_of_neg])
      (by norm_num [zpow_neg, abs_of_pos, abs_of_neg]) (by rw [abs_lt]; norm_num [zpow_neg])]
    norm_num [zpow_neg]
  have l1 : Dbl.lt (Dbl.fin 1) (Dbl.fin 0) = false := by simp
  have l2 : Dbl.lt (Dbl.fin (4953509230144809 / 4503599627370496)) (Dbl.fin 0) = false := by
    simp only [Dbl.lt_fin_fin]; norm_num
  have l3 : Dbl.lt (Dbl.fin (619188653768101 / 562949953421312)) (Dbl.fin 0) = false := by
    simp only [Dbl.lt_fin_fin]; norm_num
  have d1 := Dbl.fin_div_fin 1 100 (by norm_num)
  have d2 := Dbl.fin_div_fin 1 1000 (by norm_num)
  have d3 := Dbl.fin_div_fin (4611224849825545 / 4611686018427387904) (1152921504606847 / 1152921504606846976) (by norm_num)
  have hs : fpSynapseController.integrateWith Dbl.round fpWorld = Except.ok
      ({ fpSynapseController with m := Dbl.fin 1 },
        fpWorld.setGmax 0 (Dbl.fin (4953509230144809 / 4503599627370496))) := by
    simp +decide only [integrateWith, fpSynapseController, fpWorld, Dbl.isnan, Dbl.round_fin,
      Dbl.fin_sub_fin, Dbl.fin_mul_fin, Dbl.fin_add_fin, d1, d2, hE, hRm, hP, hM1, hK3, hA,
      hB, hGd, hL, hEs, hTs, l1, l2, Bool.false_eq_true, if_false, if_true]
  have hc : fpChannelController.integrateWith Dbl.round fpWorld = Except.ok
      ({ fpChannelController with m := Dbl.fin 1 },
        fpWorld.setGbar 0 (Dbl.fin (619188653768101 / 562949953421312))) := by
    simp +decide only [integrateWith, fpChannelController, fpWorld, Dbl.isnan, Dbl.round_fin,
      Dbl.fin_sub_fin, Dbl.fin_mul_fin, Dbl.fin_add_fin, d1, d2, d3, hE, hRm, hP, hM1, hK3, hA,
      hB, hGd, hEc, hTc, l1, l3, Bool.false_eq_true, if_false, if_true]
  refine ⟨_, _, _, _, hs, hc, ?_, ?_, ?_⟩
  · simp [World.setGmax]
  · simp [World.setGbar]
  · simp [World.setGmax, World.setGbar]
    norm_num

/-- The double nearest to a fraction between 0 and 1 is between 0 and 1. -/
theorem round53_unit (k : ℚ) (h0 : 0 ≤ k) (h1 : k ≤ 1) :
    0 ≤ round53 k ∧ round53 k ≤ 1 := by
  refine ⟨round53_nonneg k h0, ?_⟩
  have := round53_mono k 1 h1
  rwa [round53_one] at this

/-- The clamp in double arithmetic.  Take a controller bound to a Channel with a finite
`Target`, finite `m`, `Ca_prev` and `dt`, a finite quotient `dt/tau_m`, a double
`gbar >= 0`, `container_A > 0`, `tau_g > 0` (finite or infinite) and `0 <= dt <= tau_g`.
Then `integrate`, every result rounded to the nearest double, returns normally with a
finite `m' >= 0`; the tested value `gbar + gdot/container_A` is a finite `t` that is not
below `-gbar * 2^-52`; and `gbar'` is `max(0, t)`: `t` when `t >= 0` and 0, by the
clamp, when `t < 0`. -/
theorem clamp_rounding (c : IntegralController) (w : World) (ch : Nat)
    (m gbar A T Ca dt dt_over_tau_m : ℚ)
    (hct : c.control_type = 1) (hch : c.channel = some ch)
    (hT : c.Target = Dbl.fin T) (hm : c.m = Dbl.fin m) (hdt : c.dt = Dbl.fin dt)
    (hrm : Dbl.fin dt / c.tau_m = Dbl.fin dt_over_tau_m)
    (hA : c.container_A = Dbl.fin A) (hA0 : 0 < A)
    (hg : (w.cond ch).gbar = Dbl.fin gbar) (hg0 : 0 ≤ gbar) (hgfix : round53 gbar = gbar)
    (hCa : (w.comp (w.cond ch).container).Ca_prev = Dbl.fin Ca)
    (htg : Dbl.lt (Dbl.fin 0) c.tau_g = true) (hdt0 : 0 ≤ dt)
    (hdtle : Dbl.le (Dbl.fin dt) c.tau_g = true) :
    ∃ c1 w1 m1 t, c.integrateWith Dbl.round w = Except.ok (c1, w1) ∧
      c1.m = Dbl.fin m1 ∧ 0 ≤ m1 ∧
      Dbl.round ((w.cond ch).gbar +
        Dbl.round (Dbl.round (Dbl.round (c.dt / c.tau_g) *
          Dbl.round (c1.m - Dbl.round ((w.cond ch).gbar * c.container_A))) /
          c.container_A)) = Dbl.fin t ∧
      -(gbar * (2 : ℚ) ^ (-52 : ℤ)) ≤ t ∧
      (w1.cond ch).gbar = Dbl.fin (max 0 t) ∧
      (0 ≤ t → (w1.cond ch).gbar = Dbl.fin t) ∧
      (t < 0 → (w1.cond ch).gbar = Dbl.fin 0) := by
  obtain ⟨k, hk, hk0, hk1⟩ := Dbl.div_le_tau dt c.tau_g hdt0 htg hdtle
  obtain ⟨hr0, hr1⟩ := round53_unit k hk0 hk1
  have hnan : c.Target.isnan = false := by rw [hT]; rfl
  have hA' : A ≠ 0 := ne_of_gt hA0
  have hm1 : 0 ≤ max 0 (round53 (m + round53 (round53 dt_over_tau_m * round53 (T - Ca)))) :=
    le_max_left _ _
  have hmnew : (if Dbl.lt (Dbl.round (c.m + Dbl.round (Dbl.round (c.dt / c.tau_m) *
        Dbl.round (c.Target - (w.comp (w.cond ch).container).Ca_prev)))) (Dbl.fin 0) = true
      then Dbl.fin 0
      else Dbl.round (c.m + Dbl.round (Dbl.round (c.dt / c.tau_m) *
        Dbl.round (c.Target - (w.comp (w.cond ch).container).Ca_prev)))) =
      Dbl.fin (max 0 (round53 (m + round53 (round53 dt_over_tau_m * round53 (T - Ca))))) := by
    simp only [hm, hdt, hrm, hCa, hT, Dbl.round_fin, Dbl.fin_mul_fin, Dbl.fin_add_fin,
      Dbl.fin_sub_fin, Dbl.clamp_fin]
  have hbound := clamp_test_ge gbar A
    (max 0 (round53 (m + round53 (round53 dt_over_tau_m * round53 (T - Ca)))))
    (round53 k) hg0 hgfix hA0 hm1 hr0 hr1
  have htest : Dbl.round ((w.cond ch).gbar +
        Dbl.round (Dbl.round (Dbl.round (c.dt / c.tau_g) *
          Dbl.round (Dbl.fin (max 0 (round53 (m + round53 (round53 dt_over_tau_m *
            round53 (T - Ca))))) - Dbl.round ((w.cond ch).gbar * c.container_A))) /
          c.container_A)) =
      Dbl.fin (round53 (gbar + round53 (round53 (round53 k *
        round53 (max 0 (round53 (m + round53 (round53 dt_over_tau_m * round53 (T - Ca)))) -
          round53 (gbar * A))) / A))) := by
    simp only [hdt, hk, hg, hA, Dbl.round_fin, Dbl.fin_mul_fin, Dbl.fin_add_fin,
      Dbl.fin_sub_fin, Dbl.fin_div_fin _ _ hA']
  have hrun := integrateWith_channel Dbl.round c w ch hct hch hnan _ _ rfl rfl
  rw [hmnew] at hrun
  refine ⟨_, _, _, _, hrun, rfl, hm1, htest, hbound, ?_, ?_, ?_⟩
  · simp only [World.setGbar, Function.update_same, htest, Dbl.clamp_fin]
  · intro h
    simp only [World.setGbar, Function.update_same, htest, Dbl.clamp_fin, max_eq_right h]
  · intro h
    simp only [World.setGbar, Function.update_same, htest, Dbl.clamp_fin, max_eq_left h.le]

/-- Without rounding, and with the exponential of the reals, the functions of the
channels in double arithmetic are the exact ones. -/
theorem channelsWith_id (s : ChannelState) (V Ca dt : ℝ) :
    ACurrent.m_infWith id Real.exp V = ACurrent.m_inf V ∧
    ACurrent.h_infWith id Real.exp V = ACurrent.h_inf V ∧
    ACurrent.tau_mWith id Real.exp V = ACurrent.tau_m V ∧
    ACurrent.tau_hWith id Real.exp V = ACurrent.tau_h V ∧
    ACurrent.integrateWith id Real.exp s V Ca dt = ACurrent.integrate s V Ca dt ∧
    Kd.m_infWith id Real.exp V = Kd.m_inf V ∧
    KCaAB.m_infWith id Real.exp V Ca = KCaAB.m_inf V Ca ∧
    KCaAB.tau_mWith id Real.exp V = KCaAB.tau_m V ∧
    KCaAB.integrateWith id Real.exp s V Ca dt = KCaAB.integrate s V Ca dt ∧
    Kslow.m_infWith id Real.exp V = Kslow.m_inf V ∧
    Kslow.tau_mWith id Real.exp V = Kslow.tau_m V ∧
    Kslow.integrateWith id Real.exp s V Ca dt = Kslow.integrate s V Ca dt :=
  ⟨rfl, rfl, rfl, rfl, rfl, rfl, rfl, rfl, rfl, rfl, rfl, rfl⟩

/-- In double arithmetic `1.0/(1.0 + a)` lies between 0 and 1 for every `a >= 0`. -/
theorem logistic_round53_mem (a : ℝ) (ha : 0 ≤ a) :
    0 ≤ round53 (round53 1.0 / round53 (round53 1.0 + a)) ∧
    round53 (round53 1.0 / round53 (round53 1.0 + a)) ≤ 1 := by
  have hone : (1.0 : ℝ) = 1 := by norm_num
  rw [hone, round53_one]
  have hs : (1 : ℝ) ≤ round53 (1 + a) := by
    have := zpow_le_round53 (1 + a) 0 (by rw [zpow_zero]; linarith)
    rwa [zpow_zero] at this
  have hpos : (0 : ℝ) < round53 (1 + a) := by linarith
  constructor
  · exact round53_nonneg _ (div_nonneg zero_le_one hpos.le)
  · have := round53_le_zpow (1 / round53 (1 + a)) 0 (div_nonneg zero_le_one hpos.le)
      (by rw [zpow_zero]; exact (div_le_one hpos).mpr hs)
    rwa [zpow_zero] at this

/-- The exponential of -38 is below `2^-54`. -/
theorem exp_le_two_zpow : Real.exp (-38) ≤ (2 : ℝ) ^ (-54 : ℤ) := by
  have h : (2 : ℝ) ^ (54 : ℕ) ≤ Real.exp 38 := by
    have e1 : Real.exp 38 = Real.exp 1 ^ (38 : ℕ) := by
      rw [← Real.exp_nat_mul]
      norm_num
    rw [e1]
    have h27 : (2.7 : ℝ) ≤ Real.exp 1 := by
      have := Real.exp_one_gt_d9
      linarith
    calc (2 : ℝ) ^ (54 : ℕ) ≤ (2.7 : ℝ) ^ (38 : ℕ) := by norm_num
      _ ≤ Real.exp 1 ^ (38 : ℕ) := pow_le_pow_left₀ (by norm_num) h27 38
  rw [Real.exp_neg, zpow_neg]
  exact inv_anti₀ (by positivity) (by exact_mod_cast h)

/-- C16, as the code has it: in double arithmetic, with any exponential routine that
returns no negative value, each of `ACurrent::m_inf(V)`, `ACurrent::h_inf(V)`,
`Kd::m_inf(V)` and `Kslow::m_inf(V)` is at least 0 and at most 1, for every `V`; and in
exact arithmetic each is strictly greater than 0 and strictly less than 1. -/
theorem C16_steady_states_in_closed_unit_interval (ex : ℝ → ℝ) (hex : ∀ x, 0 ≤ ex x)
    (V : ℝ) :
    ((0 ≤ ACurrent.m_infWith round53 ex V ∧ ACurrent.m_infWith round53 ex V ≤ 1) ∧
      (0 ≤ ACurrent.h_infWith round53 ex V ∧ ACurrent.h_infWith round53 ex V ≤ 1) ∧
      (0 ≤ Kd.m_infWith round53 ex V ∧ Kd.m_infWith round53 ex V ≤ 1) ∧
      (0 ≤ Kslow.m_infWith round53 ex V ∧ Kslow.m_infWith round53 ex V ≤ 1)) ∧
    ((0 < ACurrent.m_inf V ∧ ACurrent.m_inf V < 1) ∧
      (0 < ACurrent.h_inf V ∧ ACurrent.h_inf V < 1) ∧
      (0 < Kd.m_inf V ∧ Kd.m_inf V < 1) ∧
      (0 < Kslow.m_inf V ∧ Kslow.m_inf V < 1)) :=
  ⟨⟨logistic_round53_mem _ (hex _), logistic_round53_mem _ (hex _),
      logistic_round53_mem _ (hex _), logistic_round53_mem _ (hex _)⟩,
    ⟨logistic_mem _, logistic_mem _, logistic_mem _, logistic_mem _⟩⟩

/-- C16 with the correctly rounded exponential, at `V = -50`. -/
theorem C16_steady_states_in_closed_unit_interval_witness :
    (∀ x, 0 ≤ fexp x) ∧
    0 ≤ ACurrent.m_infWith round53 fexp (-50) ∧ ACurrent.m_infWith round53 fexp (-50) ≤ 1 ∧
    0 < ACurrent.m_inf (-50) ∧ ACurrent.m_inf (-50) < 1 :=
  ⟨fun x => round53_nonneg _ (Real.exp_pos x).le,
    (C16_steady_states_in_closed_unit_interval fexp
      (fun x => round53_nonneg _ (Real.exp_pos x).le) (-50)).1.1.1,
    (C16_steady_states_in_closed_unit_interval fexp
      (fun x => round53_nonneg _ (Real.exp_pos x).le) (-50)).1.1.2,
    (C16_steady_states_in_closed_unit_interval fexp
      (fun x => round53_nonneg _ (Real.exp_pos x).le) (-50)).2.1.1,
    (C16_steady_states_in_closed_unit_interval fexp
      (fun x => round53_nonneg _ (Real.exp_pos x).le) (-50)).2.1.2⟩

/-- C16 fails on the code in double arithmetic: `ACurrent::m_inf(400)` is exactly 1,
not less than 1.  The argument of `exp` is the double
`-6910695979930589 / 2^47` (-49.1), whose exponential is below `2^-54`, so that
`1.0 + exp(...)` rounds to 1. -/
theorem C16_counterexample :
    ACurrent.m_infWith round53 fexp 400 = 1 ∧
    ¬ (ACurrent.m_infWith round53 fexp 400 < 1) := by
  have h1 : round53 ((27.2) : ℝ) = (7656119366529843 / 281474976710656) := by
    rw [round53_eq _ (7656119366529843) (4) (by norm_num [zpow_neg, abs_of_pos, abs_of_neg])
      (by norm_num [zpow_neg, abs_of_pos, abs_of_neg]) (by rw [abs_lt]; norm_num [zpow_neg])]
    norm_num [zpow_neg]
  have h2 : round53 ((400 + (7656119366529843 / 281474976710656)) : ℝ) = (7515381878174515 / 17592186044416) := by
    rw [round53_eq _ (7515381878174515) (8) (by norm_num [zpow_neg, abs_of_pos, abs_of_neg])
      (by norm_num [zpow_neg, abs_of_pos, abs_of_neg]) (by rw [abs_lt]; norm_num [zpow_neg])]
    norm_num [zpow_neg]
  have h3 : round53 ((8.7) : ℝ) = (2448832297382707 / 281474976710656) := by
    rw [round53_eq _ (4897664594765414) (3) (by norm_num [zpow_neg, abs_of_pos, abs_of_neg])
      (by norm_num [zpow_neg, abs_of_pos, abs_of_neg]) (by rw [abs_lt]; norm_num [zpow_neg])]
    norm_num [zpow_neg]
  have h4 : round53 (((7515381878174515 / 17592186044416) / -(2448832297382707 / 281474976710656)) : ℝ) = (-6910695979930589 / 140737488355328) := by
    rw [round53_eq _ (-6910695979930589) (5) (by norm_num [zpow_neg, abs_of_pos, abs_of_neg])
      (by norm_num [zpow_neg, abs_of_pos, abs_of_neg]) (by rw [abs_lt]; norm_num [zpow_neg])]
    norm_num [zpow_neg]
  have hx : Real.exp ((-6910695979930589 / 140737488355328) : ℝ) ≤ (2 : ℝ) ^ (-54 : ℤ) :=
    le_trans (Real.exp_le_exp.mpr (by norm_num)) exp_le_two_zpow
  have hu0 : 0 ≤ round53 (Real.exp ((-6910695979930589 / 140737488355328) : ℝ)) := round53_nonneg _ (Real.exp_pos _).le
  have hu1 : round53 (Real.exp ((-6910695979930589 / 140737488355328) : ℝ)) ≤ (2 : ℝ) ^ (-54 : ℤ) :=
    round53_le_zpow _ _ (Real.exp_pos _).le hx
  have hone : (1.0 : ℝ) = 1 := by norm_num
  have hpos : (0 : ℝ) < (2 : ℝ) ^ (-55 : ℤ) := by positivity
  have hs : round53 (1 + round53 (Real.exp ((-6910695979930589 / 140737488355328) : ℝ))) = 1 :=
    round53_near_one _ (by linarith) (by linarith)
  have hval : ACurrent.m_infWith round53 fexp 400 = 1 := by
    simp only [ACurrent.m_infWith, fexp, h1, h2, h3, h4, hone, round53_one, hs, div_one]
  exact ⟨hval, by rw [hval]; exact lt_irrefl 1⟩

/-- In double arithmetic `Kslow::tau_m(V)` is at least `2^-6`, for every `V` and every
exponential routine that returns no negative value. -/
theorem Kslow_tau_mWith_ge (ex : ℝ → ℝ) (hex : ∀ x, 0 ≤ ex x) (V : ℝ) :
    (2 : ℝ) ^ (-6 : ℤ) ≤ Kslow.tau_mWith round53 ex V := by
  have h203 : round53 ((2.03) : ℝ) = (4571153621781053 / 2251799813685248) := by
    rw [round53_eq _ (4571153621781053) (1) (by norm_num [zpow_neg, abs_of_pos, abs_of_neg])
      (by norm_num [zpow_neg, abs_of_pos, abs_of_neg]) (by rw [abs_lt]; norm_num [zpow_neg])]
    norm_num [zpow_neg]
  have h196 : round53 ((1.96) : ℝ) = (2206763817411543 / 1125899906842624) := by
    rw [round53_eq _ (8827055269646172) (0) (by norm_num [zpow_neg, abs_of_pos, abs_of_neg])
      (by norm_num [zpow_neg, abs_of_pos, abs_of_neg]) (by rw [abs_lt]; norm_num [zpow_neg])]
    norm_num [zpow_neg]
  unfold Kslow.tau_mWith
  rw [h203, h196]
  have ha := hex (round53 (round53 (V - round53 29.83) / round53 3.32))
  have hs : (1 : ℝ) ≤ round53 (1 + ex (round53 (round53 (V - round53 29.83) / round53 3.32))) := by
    have := zpow_le_round53
      (1 + ex (round53 (round53 (V - round53 29.83) / round53 3.32))) 0
      (by rw [zpow_zero]; linarith)
    rwa [zpow_zero] at this
  have hpos : (0 : ℝ) <
      round53 (1 + ex (round53 (round53 (V - round53 29.83) / round53 3.32))) := by
    linarith
  have hq : round53 ((2206763817411543 / 1125899906842624) /
      round53 (1 + ex (round53 (round53 (V - round53 29.83) / round53 3.32)))) ≤ 2 := by
    have := round53_le_zpow ((2206763817411543 / 1125899906842624) /
      round53 (1 + ex (round53 (round53 (V - round53 29.83) / round53 3.32)))) 1
      (div_nonneg (by norm_num) hpos.le)
      (by
        rw [zpow_one]
        exact le_trans (div_le_self (by norm_num) hs) (by norm_num))
    rwa [zpow_one] at this
  apply zpow_le_round53
  have : (2 : ℝ) ^ (-6 : ℤ) = 1 / 64 := by norm_num [zpow_neg]
  rw [this]
  linarith

/-- In double arithmetic `Kslow::m_inf(0)` is at least 1/2. -/
theorem Kslow_m_infWith_zero_ge : (1 / 2 : ℝ) ≤ Kslow.m_infWith round53 fexp 0 := by
  have h1 : round53 ((12.85) : ℝ) = (7233906901463859 / 562949953421312) := by
    rw [round53_eq _ (7233906901463859) (3) (by norm_num [zpow_neg, abs_of_pos, abs_of_neg])
      (by norm_num [zpow_neg, abs_of_pos, abs_of_neg]) (by rw [abs_lt]; norm_num [zpow_neg])]
    norm_num [zpow_neg]
  have h2 : round53 ((0 + (7233906901463859 / 562949953421312)) : ℝ) = (7233906901463859 / 562949953421312) := by
    rw [round53_eq _ (7233906901463859) (3) (by norm_num [zpow_neg, abs_of_pos, abs_of_neg])
      (by norm_num [zpow_neg, abs_of_pos, abs_of_neg]) (by rw [abs_lt]; norm_num [zpow_neg])]
    norm_num [zpow_neg]
  have h3 : round53 ((19.91) : ℝ) = (5604166786309161 / 281474976710656) := by
    rw [round53_eq _ (5604166786309161) (4) (by norm_num [zpow_neg, abs_of_pos, abs_of_neg])
      (by norm_num [zpow_neg, abs_of_pos, abs_of_neg]) (by rw [abs_lt]; norm_num [zpow_neg])]
    norm_num [zpow_neg]
  have h4 : round53 (((7233906901463859 / 562949953421312) / -(5604166786309161 / 281474976710656)) : ℝ) = (-726660663130473 / 1125899906842624) := by
    rw [round53_eq _ (-5813285305043784) (-1) (by norm_num [zpow_neg, abs_of_pos, abs_of_neg])
      (by norm_num [zpow_neg, abs_of_pos, abs_of_neg]) (by rw [abs_lt]; norm_num [zpow_neg])]
    norm_num [zpow_neg]
  have hone : (1.0 : ℝ) = 1 := by norm_num
  have hu0 : 0 ≤ round53 (Real.exp ((-726660663130473 / 1125899906842624) : ℝ)) := round53_nonneg _ (Real.exp_pos _).le
  have hu1 : round53 (Real.exp ((-726660663130473 / 1125899906842624) : ℝ)) ≤ 1 := by
    have := round53_le_zpow (Real.exp ((-726660663130473 / 1125899906842624) : ℝ)) 0 (Real.exp_pos _).le
      (by rw [zpow_zero]; exact Real.exp_le_one_iff.mpr (by norm_num))
    rwa [zpow_zero] at this
  have hs1 : (1 : ℝ) ≤ round53 (1 + round53 (Real.exp ((-726660663130473 / 1125899906842624) : ℝ))) := by
    have := zpow_le_round53 (1 + round53 (Real.exp ((-726660663130473 / 1125899906842624) : ℝ))) 0
      (by rw [zpow_zero]; linarith)
    rwa [zpow_zero] at this
  have hs2 : round53 (1 + round53 (Real.exp ((-726660663130473 / 1125899906842624) : ℝ))) ≤ 2 := by
    have := round53_le_zpow (1 + round53 (Real.exp ((-726660663130473 / 1125899906842624) : ℝ))) 1 (by linarith)
      (by rw [zpow_one]; linarith)
    rwa [zpow_one] at this
  have hpos : (0 : ℝ) < round53 (1 + round53 (Real.exp ((-726660663130473 / 1125899906842624) : ℝ))) := by linarith
  simp only [Kslow.m_infWith, fexp, h1, h2, h3, h4, hone, round53_one]
  have := zpow_le_round53 (1 / round53 (1 + round53 (Real.exp ((-726660663130473 / 1125899906842624) : ℝ)))) (-1)
    (by
      rw [zpow_neg, zpow_one, le_div_iff₀ hpos]
      linarith)
  rw [zpow_neg, zpow_one] at this
  linarith

/-- In double arithmetic the decay factor of `Kslow` for the step `1e-20` is exactly
1, at every `V`. -/
theorem Kslow_factor_one (V : ℝ) :
    fexp (round53 (-tinyStep / Kslow.tau_mWith round53 fexp V)) = 1 := by
  have htau := Kslow_tau_mWith_ge fexp (fun x => round53_nonneg _ (Real.exp_pos x).le) V
  have h6 : (2 : ℝ) ^ (-6 : ℤ) = 1 / 64 := by norm_num [zpow_neg]
  rw [h6] at htau
  have htpos : (0 : ℝ) < Kslow.tau_mWith round53 fexp V := by linarith
  have hy0 : 0 ≤ tinyStep / Kslow.tau_mWith round53 fexp V :=
    div_nonneg (by norm_num [tinyStep]) htpos.le
  have hy1 : tinyStep / Kslow.tau_mWith round53 fexp V ≤ (2 : ℝ) ^ (-60 : ℤ) := by
    rw [div_le_iff₀ htpos]
    have h60 : (2 : ℝ) ^ (-60 : ℤ) = 1 / 1152921504606846976 := by norm_num [zpow_neg]
    rw [h60]
    have : tinyStep ≤ 1 / 1152921504606846976 * (1 / 64) := by norm_num [tinyStep]
    nlinarith
  have hr0 := round53_nonneg _ hy0
  have hr1 := round53_le_zpow _ _ hy0 hy1
  have hx : round53 (-tinyStep / Kslow.tau_mWith round53 fexp V) =
      -round53 (tinyStep / Kslow.tau_mWith round53 fexp V) := by
    rw [neg_div, round53_neg]
  show round53 (Real.exp (round53 (-tinyStep / Kslow.tau_mWith round53 fexp V))) = 1
  rw [hx]
  have h60 : (2 : ℝ) ^ (-60 : ℤ) ≤ (2 : ℝ) ^ (-55 : ℤ) :=
    zpow_le_zpow_right₀ (by norm_num) (by norm_num)
  have h54 : (0 : ℝ) < (2 : ℝ) ^ (-54 : ℤ) := by positivity
  apply round53_near_one
  · have := Real.add_one_le_exp (-round53 (tinyStep / Kslow.tau_mWith round53 fexp V))
    linarith
  · have : Real.exp (-round53 (tinyStep / Kslow.tau_mWith round53 fexp V)) ≤ 1 :=
      Real.exp_le_one_iff.mpr (by linarith)
    linarith

/-- In double arithmetic, the step `1e-20` of `Kslow` at `V = 0` maps the all-zero
channel object to itself. -/
theorem Kslow_stalls :
    Kslow.integrateWith round53 fexp zeroChannel 0 0 tinyStep = zeroChannel := by
  have hm : round53 (Kslow.m_infWith round53 fexp 0) = Kslow.m_infWith round53 fexp 0 := by
    unfold Kslow.m_infWith
    exact round53_idem _
  have hnew : round53 (Kslow.m_infWith round53 fexp 0 +
      round53 (round53 (0 - Kslow.m_infWith round53 fexp 0) *
        fexp (round53 (-tinyStep / Kslow.tau_mWith round53 fexp 0)))) = 0 := by
    rw [Kslow_factor_one, mul_one, zero_sub, round53_neg, hm, round53_neg, hm,
      add_neg_cancel, round53_zero]
  simp only [Kslow.integrateWith, zeroChannel, hnew, mul_zero, round53_zero]

/-- A time constant `a - b/(1 + e)` in double arithmetic, with `e >= 0`, is at least the
power of two that the difference of the doubles `a` and `b` is at least. -/
theorem tauWith_ge (a b e : ℝ) (k : ℤ) (he : 0 ≤ e) (hb : 0 ≤ b)
    (hab : (2 : ℝ) ^ k ≤ round53 a - round53 b) :
    (2 : ℝ) ^ k ≤ round53 (round53 a - round53 (round53 b / round53 (1 + e))) := by
  have hs : (1 : ℝ) ≤ round53 (1 + e) := by
    have := zpow_le_round53 (1 + e) 0 (by rw [zpow_zero]; linarith)
    rwa [zpow_zero] at this
  have hb' : 0 ≤ round53 b := round53_nonneg b hb
  have hq : round53 (round53 b / round53 (1 + e)) ≤ round53 b := by
    have := round53_mono _ _ (div_le_self hb' hs)
    rwa [round53_idem] at this
  apply zpow_le_round53
  linarith

/-- The decay factor in double arithmetic is between 0 and 1, for a step `dt >= 0`, a
time constant above zero and an exponential routine that returns values between 0 and
1 for arguments at most zero. -/
theorem factorWith_mem (ex : ℝ → ℝ) (hex0 : ∀ x, 0 ≤ ex x) (hex1 : ∀ x, x ≤ 0 → ex x ≤ 1)
    (dt tau : ℝ) (hdt : 0 ≤ dt) (htau : 0 < tau) :
    0 ≤ ex (round53 (-dt / tau)) ∧ ex (round53 (-dt / tau)) ≤ 1 :=
  ⟨hex0 _, hex1 _ (round53_nonpos _
    (div_nonpos_of_nonpos_of_nonneg (neg_nonpos.mpr hdt) htau.le))⟩

/-- One update of a gating variable in double arithmetic, towards a steady state that
is a double and with a factor `E >= 0`, does not cross the steady state. -/
theorem gatingStep_same_side (minf m E : ℝ) (hfix : round53 minf = minf) (hE : 0 ≤ E) :
    (m ≤ minf → round53 (minf + round53 (round53 (m - minf) * E)) ≤ minf) ∧
    (minf ≤ m → minf ≤ round53 (minf + round53 (round53 (m - minf) * E))) := by
  constructor
  · intro h
    have h1 : round53 (m - minf) ≤ 0 := round53_nonpos _ (by linarith)
    have h2 : round53 (round53 (m - minf) * E) ≤ 0 :=
      round53_nonpos _ (mul_nonpos_of_nonpos_of_nonneg h1 hE)
    have := round53_mono (minf + round53 (round53 (m - minf) * E)) minf (by linarith)
    rwa [hfix] at this
  · intro h
    have h1 : 0 ≤ round53 (m - minf) := round53_nonneg _ (by linarith)
    have h2 : 0 ≤ round53 (round53 (m - minf) * E) := round53_nonneg _ (mul_nonneg h1 hE)
    have := round53_mono minf (minf + round53 (round53 (m - minf) * E)) (by linarith)
    rwa [hfix] at this

/-- A step that does not cross a level does not cross it when repeated. -/
theorem iterate_same_side (step : ChannelState → ChannelState) (minf : ℝ)
    (h : ∀ s : ChannelState,
      (s.m ≤ minf → (step s).m ≤ minf) ∧ (minf ≤ s.m → minf ≤ (step s).m))
    (s : ChannelState) (n : ℕ) :
    (s.m ≤ minf → (step^[n] s).m ≤ minf) ∧ (minf ≤ s.m → minf ≤ (step^[n] s).m) := by
  induction n with
  | zero => exact ⟨fun h0 => h0, fun h0 => h0⟩
  | succ n ih =>
    rw [Function.iterate_succ_apply']
    exact ⟨fun h0 => (h _).1 (ih.1 h0), fun h0 => (h _).2 (ih.2 h0)⟩

/-- In double arithmetic `ACurrent::tau_m(V)` is at least 1. -/
theorem ACurrent_tau_mWith_ge (ex : ℝ → ℝ) (hex : ∀ x, 0 ≤ ex x) (V : ℝ) :
    (1 : ℝ) ≤ ACurrent.tau_mWith round53 ex V := by
  have ha : round53 ((11.6) : ℝ) = (6530219459687219 / 562949953421312) := by
    rw [round53_eq _ (6530219459687219) (3) (by norm_num [zpow_neg, abs_of_pos, abs_of_neg])
      (by norm_num [zpow_neg, abs_of_pos, abs_of_neg]) (by rw [abs_lt]; norm_num [zpow_neg])]
    norm_num [zpow_neg]
  have hb : round53 ((10.4) : ℝ) = (5854679515581645 / 562949953421312) := by
    rw [round53_eq _ (5854679515581645) (3) (by norm_num [zpow_neg, abs_of_pos, abs_of_neg])
      (by norm_num [zpow_neg, abs_of_pos, abs_of_neg]) (by rw [abs_lt]; norm_num [zpow_neg])]
    norm_num [zpow_neg]
  have hone : (1.0 : ℝ) = 1 := by norm_num
  have := tauWith_ge 11.6 10.4 (ex (round53 (round53 (V + round53 32.9) / -round53 15.2))) 0
    (hex _) (by norm_num) (by rw [ha, hb]; norm_num)
  rw [zpow_zero] at this
  unfold ACurrent.tau_mWith
  rwa [hone, round53_one]

/-- In double arithmetic `KCaAB::tau_m(V)` is at least 8. -/
theorem KCaAB_tau_mWith_ge (ex : ℝ → ℝ) (hex : ∀ x, 0 ≤ ex x) (V : ℝ) :
    (8 : ℝ) ≤ KCaAB.tau_mWith round53 ex V := by
  have ha : round53 ((90.3) : ℝ) = (6354297599243059 / 70368744177664) := by
    rw [round53_eq _ (6354297599243059) (6) (by norm_num [zpow_neg, abs_of_pos, abs_of_neg])
      (by norm_num [zpow_neg, abs_of_pos, abs_of_neg]) (by rw [abs_lt]; norm_num [zpow_neg])]
    norm_num [zpow_neg]
  have hb : round53 ((75.09) : ℝ) = (2641994500150395 / 35184372088832) := by
    rw [round53_eq _ (5283989000300790) (6) (by norm_num [zpow_neg, abs_of_pos, abs_of_neg])
      (by norm_num [zpow_neg, abs_of_pos, abs_of_neg]) (by rw [abs_lt]; norm_num [zpow_neg])]
    norm_num [zpow_neg]
  have hone : (1.0 : ℝ) = 1 := by norm_num
  have := tauWith_ge 90.3 75.09
    (ex (round53 (-round53 (V + round53 46.0) / round53 22.7))) 3
    (hex _) (by norm_num) (by rw [ha, hb]; norm_num)
  have h8 : (2 : ℝ) ^ (3 : ℤ) = 8 := by norm_num
  rw [h8] at this
  unfold KCaAB.tau_mWith
  rwa [hone, round53_one]

/-- The part of C14 that holds in double arithmetic: the decay factor is computed as a
value between 0 and 1, and `m` under repeated `integrate` calls stays on the side of
the steady state where it started. -/
theorem convergence_rounding (ex : ℝ → ℝ) (hex0 : ∀ x, 0 ≤ ex x)
    (hex1 : ∀ x, x ≤ 0 → ex x ≤ 1) (s : ChannelState) (V Ca dt : ℝ) (hdt : 0 < dt) :
    ((0 ≤ ex (round53 (-dt / ACurrent.tau_mWith round53 ex V)) ∧
        ex (round53 (-dt / ACurrent.tau_mWith round53 ex V)) ≤ 1) ∧
      ∀ n : ℕ,
        (s.m ≤ ACurrent.m_infWith round53 ex V →
          ((fun s => ACurrent.integrateWith round53 ex s V Ca dt)^[n] s).m ≤
            ACurrent.m_infWith round53 ex V) ∧
        (ACurrent.m_infWith round53 ex V ≤ s.m →
          ACurrent.m_infWith round53 ex V ≤
            ((fun s => ACurrent.integrateWith round53 ex s V Ca dt)^[n] s).m)) ∧
    ((0 ≤ ex (round53 (-dt / Kslow.tau_mWith round53 ex V)) ∧
        ex (round53 (-dt / Kslow.tau_mWith round53 ex V)) ≤ 1) ∧
      ∀ n : ℕ,
        (s.m ≤ Kslow.m_infWith round53 ex V →
          ((fun s => Kslow.integrateWith round53 ex s V Ca dt)^[n] s).m ≤
            Kslow.m_infWith round53 ex V) ∧
        (Kslow.m_infWith round53 ex V ≤ s.m →
          Kslow.m_infWith round53 ex V ≤
            ((fun s => Kslow.integrateWith round53 ex s V Ca dt)^[n] s).m)) ∧
    (Ca ≠ -30 →
      (0 ≤ ex (round53 (-dt / KCaAB.tau_mWith round53 ex V)) ∧
        ex (round53 (-dt / KCaAB.tau_mWith round53 ex V)) ≤ 1) ∧
      ∀ n : ℕ,
        (s.m ≤ KCaAB.m_infWith round53 ex V Ca →
          ((fun s => KCaAB.integrateWith round53 ex s V Ca dt)^[n] s).m ≤
            KCaAB.m_infWith round53 ex V Ca) ∧
        (KCaAB.m_infWith round53 ex V Ca ≤ s.m →
          KCaAB.m_infWith round53 ex V Ca ≤
            ((fun s => KCaAB.integrateWith round53 ex s V Ca dt)^[n] s).m)) := by
  have hA := ACurrent_tau_mWith_ge ex hex0 V
  have hK := Kslow_tau_mWith_ge ex hex0 V
  have hC := KCaAB_tau_mWith_ge ex hex0 V
  have h6 : (0 : ℝ) < (2 : ℝ) ^ (-6 : ℤ) := by positivity
  refine ⟨⟨factorWith_mem ex hex0 hex1 dt _ hdt.le (by linarith), fun n => ?_⟩,
    ⟨factorWith_mem ex hex0 hex1 dt _ hdt.le (by linarith), fun n => ?_⟩,
    fun _ => ⟨factorWith_mem ex hex0 hex1 dt _ hdt.le (by linarith), fun n => ?_⟩⟩
  · exact iterate_same_side _ _
      (fun t => gatingStep_same_side _ t.m _
        (by unfold ACurrent.m_infWith; exact round53_idem _) (hex0 _)) s n
  · exact iterate_same_side _ _
      (fun t => gatingStep_same_side _ t.m _
        (by unfold Kslow.m_infWith; exact round53_idem _) (hex0 _)) s n
  · exact iterate_same_side _ _
      (fun t => gatingStep_same_side _ t.m _
        (by unfold KCaAB.m_infWith; exact round53_idem _) (hex0 _)) s n

/-- C14, as the code has it.  Take a channel object, fixed `V` and `Ca`, a fixed
`dt > 0`, and the channels `ACurrent`, `Kslow` and `KCaAB` (for `Ca ≠ -30`).  In exact
arithmetic the values of `m` under repeated `integrate` calls follow the convergence
law with steady state `m_inf(V)` and factor `exp(-dt/tau_m(V))` in (0,1): `m` stays on
its side of `m_inf(V)`, moves towards it, the distance shrinks strictly by the factor
unless `m` starts at `m_inf(V)`, the sequence converges to `m_inf(V)`, and the new `m`
of a single step tends to `m_inf(V)` as `dt` tends to infinity.  In double arithmetic,
with any exponential routine that returns values at least 0, and at most 1 for
arguments at most zero, the factor is computed as a value between 0 and 1, both ends
allowed, and `m` stays on the side of `m_inf(V)` where it started. -/
theorem C14_convergence_law (ex : ℝ → ℝ) (hex0 : ∀ x, 0 ≤ ex x)
    (hex1 : ∀ x, x ≤ 0 → ex x ≤ 1) (s : ChannelState) (V Ca dt : ℝ) (hdt : 0 < dt) :
    (ConvergenceLaw (fun n => ((fun s => ACurrent.integrate s V Ca dt)^[n] s).m)
        (ACurrent.m_inf V) (Real.exp (-dt / ACurrent.tau_m V)) ∧
      Filter.Tendsto (fun dt => (ACurrent.integrate s V Ca dt).m) Filter.atTop
        (nhds (ACurrent.m_inf V)) ∧
      ConvergenceLaw (fun n => ((fun s => Kslow.integrate s V Ca dt)^[n] s).m)
        (Kslow.m_inf V) (Real.exp (-dt / Kslow.tau_m V)) ∧
      Filter.Tendsto (fun dt => (Kslow.integrate s V Ca dt).m) Filter.atTop
        (nhds (Kslow.m_inf V)) ∧
      (Ca ≠ -30 →
        ConvergenceLaw (fun n => ((fun s => KCaAB.integrate s V Ca dt)^[n] s).m)
          (KCaAB.m_inf V Ca) (Real.exp (-dt / KCaAB.tau_m V)) ∧
        Filter.Tendsto (fun dt => (KCaAB.integrate s V Ca dt).m) Filter.atTop
          (nhds (KCaAB.m_inf V Ca)))) ∧
    (((0 ≤ ex (round53 (-dt / ACurrent.tau_mWith round53 ex V)) ∧
          ex (round53 (-dt / ACurrent.tau_mWith round53 ex V)) ≤ 1) ∧
        ∀ n : ℕ,
          (s.m ≤ ACurrent.m_infWith round53 ex V →
            ((fun s => ACurrent.integrateWith round53 ex s V Ca dt)^[n] s).m ≤
              ACurrent.m_infWith round53 ex V) ∧
          (ACurrent.m_infWith round53 ex V ≤ s.m →
            ACurrent.m_infWith round53 ex V ≤
              ((fun s => ACurrent.integrateWith round53 ex s V Ca dt)^[n] s).m)) ∧
      ((0 ≤ ex (round53 (-dt / Kslow.tau_mWith round53 ex V)) ∧
          ex (round53 (-dt / Kslow.tau_mWith round53 ex V)) ≤ 1) ∧
        ∀ n : ℕ,
          (s.m ≤ Kslow.m_infWith round53 ex V →
            ((fun s => Kslow.integrateWith round53 ex s V Ca dt)^[n] s).m ≤
              Kslow.m_infWith round53 ex V) ∧
          (Kslow.m_infWith round53 ex V ≤ s.m →
            Kslow.m_infWith round53 ex V ≤
              ((fun s => Kslow.integrateWith round53 ex s V Ca dt)^[n] s).m)) ∧
      (Ca ≠ -30 →
        (0 ≤ ex (round53 (-dt / KCaAB.tau_mWith round53 ex V)) ∧
          ex (round53 (-dt / KCaAB.tau_mWith round53 ex V)) ≤ 1) ∧
        ∀ n : ℕ,
          (s.m ≤ KCaAB.m_infWith round53 ex V Ca →
            ((fun s => KCaAB.integrateWith round53 ex s V Ca dt)^[n] s).m ≤
              KCaAB.m_infWith round53 ex V Ca) ∧
          (KCaAB.m_infWith round53 ex V Ca ≤ s.m →
            KCaAB.m_infWith round53 ex V Ca ≤
              ((fun s => KCaAB.integrateWith round53 ex s V Ca dt)^[n] s).m))) :=
  ⟨convergence_exact s V Ca dt hdt, convergence_rounding ex hex0 hex1 s V Ca dt hdt⟩

/-- The correctly rounded exponential returns values at least 0, and at most 1 for
arguments at most zero. -/
theorem fexp_mem : (∀ x, 0 ≤ fexp x) ∧ (∀ x, x ≤ 0 → fexp x ≤ 1) := by
  refine ⟨fun x => round53_nonneg _ (Real.exp_pos x).le, fun x hx => ?_⟩
  have := round53_le_zpow (Real.exp x) 0 (Real.exp_pos x).le
    (by rw [zpow_zero]; exact Real.exp_le_one_iff.mpr hx)
  rwa [zpow_zero] at this

/-- C14 on a `Kslow` with `m = 0`, integrated repeatedly at `V = 0` with `dt = 1`, the
exponential correctly rounded: the exact values follow the convergence law, and the
values in double arithmetic stay at or below the steady state. -/
theorem C14_convergence_law_witness :
    ((∀ x, 0 ≤ fexp x) ∧ (∀ x, x ≤ 0 → fexp x ≤ 1)) ∧
    ConvergenceLaw (fun n => ((fun s => Kslow.integrate s 0 0 1)^[n] zeroChannel).m)
      (Kslow.m_inf 0) (Real.exp (-1 / Kslow.tau_m 0)) ∧
    (∀ n : ℕ, ((fun s => Kslow.integrateWith round53 fexp s 0 0 1)^[n] zeroChannel).m ≤
      Kslow.m_infWith round53 fexp 0) :=
  ⟨fexp_mem,
    (C14_convergence_law fexp fexp_mem.1 fexp_mem.2 zeroChannel 0 0 1 zero_lt_one).1.2.2.1,
    fun n =>
      ((C14_convergence_law fexp fexp_mem.1 fexp_mem.2 zeroChannel 0 0 1
        zero_lt_one).2.2.1.2 n).1
        (le_trans (by norm_num [zeroChannel]) Kslow_m_infWith_zero_ge)⟩

/-- C14 fails on the code in double arithmetic.  For `Kslow` at `V = 0` with the step
`dt = 1e-20 > 0`, started at `m = 0`: the steady state is at least 1/2, so `m` is not
at it; the decay factor `exp(-dt/tau_m(V))` is computed as exactly 1, not below 1; one
`integrate` call leaves `m` at 0, so the distance to the steady state does not shrink;
and `m` is 0 after every number of calls, so the sequence does not converge to the
steady state. -/
theorem C14_counterexample :
    0 < tinyStep ∧
    (1 / 2 : ℝ) ≤ Kslow.m_infWith round53 fexp 0 ∧
    zeroChannel.m ≠ Kslow.m_infWith round53 fexp 0 ∧
    fexp (round53 (-tinyStep / Kslow.tau_mWith round53 fexp 0)) = 1 ∧
    (Kslow.integrateWith round53 fexp zeroChannel 0 0 tinyStep).m = zeroChannel.m ∧
    |(Kslow.integrateWith round53 fexp zeroChannel 0 0 tinyStep).m -
        Kslow.m_infWith round53 fexp 0| = |zeroChannel.m - Kslow.m_infWith round53 fexp 0| ∧
    (∀ n : ℕ,
      ((fun s => Kslow.integrateWith round53 fexp s 0 0 tinyStep)^[n] zeroChannel).m = 0) ∧
    ¬ Filter.Tendsto
      (fun n : ℕ =>
        ((fun s => Kslow.integrateWith round53 fexp s 0 0 tinyStep)^[n] zeroChannel).m)
      Filter.atTop (nhds (Kslow.m_infWith round53 fexp 0)) := by
  have hge := Kslow_m_infWith_zero_ge
  have hit : ∀ n : ℕ,
      ((fun s => Kslow.integrateWith round53 fexp s 0 0 tinyStep)^[n] zeroChannel)
        = zeroChannel := fun n => Function.iterate_fixed Kslow_stalls n
  have hz : zeroChannel.m = 0 := rfl
  refine ⟨by norm_num [tinyStep], hge, ?_, Kslow_factor_one 0, by rw [Kslow_stalls],
    by rw [Kslow_stalls], fun n => by rw [hit n]; rfl, ?_⟩
  · rw [hz]
    intro h
    rw [← h] at hge
    norm_num at hge
  · intro hlim
    have hconst : Filter.Tendsto
        (fun n : ℕ =>
          ((fun s => Kslow.integrateWith round53 fexp s 0 0 tinyStep)^[n] zeroChannel).m)
        Filter.atTop (nhds 0) := by
      simp only [hit, hz]
      exact tendsto_const_nhds
    have := tendsto_nhds_unique hlim hconst
    rw [this] at hge
    norm_num at hge

end Xolotl
